import Mathlib

/-!
# jio: a shallow embedding of the validation engine

The Go package `jio` validates JSON-like documents against schemas built by
chained builder calls.  This file embeds the rule-chain executor, the four typed
schemas (`StringSchema`, `NumberSchema`, `ArraySchema`, `ObjectSchema`), the
error bag and the object-key evaluator, and proves properties of them.

Modelling conventions.

* A `*Context` is a pointer whose target is mutated by every rule.  A rule
  `func(*Context)` is a function `State → State`; the state holds the context's
  fields together with the two pieces of the Go heap the package can observe:
  the contents of every `map[string]interface{}` (maps are references, and
  `Keys` writes into them in place) and the allocation counter of `error`
  values (`errors.New` returns a fresh pointer on every call, and the keys of
  the error bag compare those pointers).
* A Go `string` is a Lean `String`; `len(s)` is its number of UTF-8 bytes.
* A Go `int` is an `Int` (the package only compares and prints them).
* A `float64` is carried as a rational number; no statement below does float
  arithmetic.
* context.go is not among the sources: `Context` and its methods `FieldPath`,
  `Skip`, `Abort` and `AssertKind` follow the specification's description.
* Two calls into the Go library are given concrete models: `sort.Slice`
  (insertion sort) and `fmt.Errorf` with one `%s` operand.
* A custom sub-schema (any implementation of the interface `Schema`) is a
  state transformer together with its priority.
* A rule that can panic is a function into `Option State`, `none` being the
  panic; it is kept apart from the rule lists, whose rules always return.
* Library functions on which a rule depends are parameters of the rule:
  `strconv.ParseFloat`, the rendering of a `float64` by `%v`, the function
  passed to `Convert`, and the tables of package `unicode` behind
  `strings.ToLower`, `strings.ToUpper` and `strings.TrimSpace`; so is
  `Context.Ref` of context.go.
-/

namespace Jio

/-! ## Values -/

/-- A `float64` payload.  It is only stored and compared here. -/
abbrev Float64 := ℚ

/-- Heap address of a `map[string]interface{}`. -/
abbrev Addr := Nat

/-- The dynamic values an `interface{}` holds in a document: `nil`, `bool`,
`int`, `float64`, `string`, `[]interface{}` and `map[string]interface{}`.
A map value is a reference into the heap. -/
inductive Value where
  | null : Value
  | bool (b : Bool) : Value
  | int (n : Int) : Value
  | float (x : Float64) : Value
  | str (s : String) : Value
  | seq (xs : List Value) : Value
  | map (a : Addr) : Value

mutual
/-- Structural equality test on values. -/
def Value.beq : Value → Value → Bool
  | .null, .null => true
  | .bool a, .bool b => a == b
  | .int a, .int b => a == b
  | .float a, .float b => a == b
  | .str a, .str b => a == b
  | .seq a, .seq b => Value.beqList a b
  | .map a, .map b => a == b
  | _, _ => false
/-- Structural equality test on lists of values. -/
def Value.beqList : List Value → List Value → Bool
  | [], [] => true
  | a :: as, b :: bs => Value.beq a b && Value.beqList as bs
  | _, _ => false
end

instance : Inhabited Value := ⟨Value.null⟩

/-- The `reflect.Kind` of the values above (`Invalid` is the kind of `nil`). -/
inductive Kind where
  | Invalid | Bool | Int | Float64 | String | Slice | Map
  deriving DecidableEq

/-- The comparison `v == nil` of an `interface{}`. -/
def Value.isNil : Value → Bool
  | .null => true
  | _ => false

/-- Kind of a value, as `reflect.ValueOf(v).Kind()` reports it. -/
def Value.kind : Value → Kind
  | .null => .Invalid
  | .bool _ => .Bool
  | .int _ => .Int
  | .float _ => .Float64
  | .str _ => .String
  | .seq _ => .Slice
  | .map _ => .Map

/-- Contents of one `map[string]interface{}`: `m key` is `none` when the key is
absent (the `ok` of `v, ok := m[key]`), `some v` when it is present. -/
abbrev Mapping := String → Option Value

/-- The statement `m[key] = v`. -/
def Mapping.set (m : Mapping) (key : String) (v : Value) : Mapping :=
  fun k => if k = key then some v else m k

/-- The expression `m[key]` read as a value: `nil` when the key is absent. -/
def Mapping.index (m : Mapping) (key : String) : Value :=
  (m key).getD Value.null

/-- The maps of the heap, by address. -/
abbrev Heap := Addr → Mapping

/-- The statement `m[key] = v` on the map stored at address `a`. -/
def Heap.store (h : Heap) (a : Addr) (key : String) (v : Value) : Heap :=
  fun b => if b = a then (h a).set key v else h b

/-! ## Errors (error.go) -/

/-- An `error` value made by `errors.New` or `fmt.Errorf`: a pointer (its
allocation number `id`) to a message.  Two `error` interface values are equal
in Go when they hold the same pointer. -/
structure GoError where
  id : Nat
  msg : String
  deriving DecidableEq

/-- The struct `FieldError`. -/
structure FieldError where
  Field : String
  Err : GoError
  deriving DecidableEq

/-- The method `FieldError.Error`. -/
def FieldError.Error (err : FieldError) : String :=
  err.Field ++ " " ++ err.Err.msg

/-- The struct `ErrorBag`.  The Go map `m` has `FieldError` keys and no useful
values; it is kept as the list of its keys, which never holds a key twice. -/
structure ErrorBag where
  m : List FieldError
  tmpl : String
  deriving DecidableEq

/-- The function `NewErrorBag`. -/
def NewErrorBag : ErrorBag := ⟨[], ""⟩

/-- The method `ErrorBag.SetTemplate`. -/
def ErrorBag.SetTemplate (bag : ErrorBag) (template : String) : ErrorBag :=
  { bag with tmpl := template }

/-- The method `ErrorBag.Empty`. -/
def ErrorBag.Empty (bag : ErrorBag) : Bool :=
  bag.m.length == 0

/-- Expansion of the first `%s` of a format by one string operand, for the
library call `fmt.Errorf(template, msg)` on a template whose verb is `%s`, as
the package builds them; a format without `%s` gets the operand reported as
extra, as the library does. -/
def sprintfChars : List Char → List Char → List Char
  | [], arg => "%!(EXTRA string=".toList ++ arg ++ [')']
  | '%' :: 's' :: rest, arg => arg ++ rest
  | c :: rest, arg => c :: sprintfChars rest arg

/-- The call `fmt.Sprintf(template, arg)` with one string operand. -/
def Sprintf1 (template arg : String) : String :=
  String.mk (sprintfChars template.toList arg.toList)

/-- The function `applyErrorMessageTemplate`; `next` is the allocation counter
of `error` values, advanced by the `fmt.Errorf` call. -/
def applyErrorMessageTemplate (template : String) (err : FieldError) (next : Nat) :
    FieldError × Nat :=
  if template = "" then (err, next)
  else ({ err with Err := ⟨next, Sprintf1 template err.Err.msg⟩ }, next + 1)

/-- The statement `bag.m[err] = nil`. -/
def mapInsert (m : List FieldError) (err : FieldError) : List FieldError :=
  if err ∈ m then m else m ++ [err]

/-- The method `ErrorBag.Add`. -/
def ErrorBag.Add (bag : ErrorBag) (err : FieldError) (next : Nat) : ErrorBag × Nat :=
  let r := if bag.tmpl ≠ "" then applyErrorMessageTemplate bag.tmpl err next else (err, next)
  ({ bag with m := mapInsert bag.m r.1 }, r.2)

/-- The method `ErrorBag.AddBag`: every key of the other bag is passed to `Add`.
The keys are visited in the order of the list; Go leaves the order of `range`
over a map unspecified. -/
def ErrorBag.AddBag (bag bag2 : ErrorBag) (next : Nat) : ErrorBag × Nat :=
  bag2.m.foldl (fun r err => r.1.Add err r.2) (bag, next)

/-! ## Context (context.go) -/

/-- Modelled from the spec: the struct `Context` of context.go, which is not
among the sources.  The spec lists its fields: the current value, the field
path (a sequence of segments), the root document, the nearest enclosing
mapping (`parent`), the anchor of relative references (`parentRoot`), the
error bag and the skip flag.  The field names are those the sources use
(`ctx.Value`, `ctx.fields`, `ctx.root`, `ctx.parent`, `ctx.parentRoot`,
`ctx.ErrorBag`, `ctx.skip`). -/
structure Context where
  Value : Jio.Value
  fields : List String
  root : Jio.Value
  parent : Jio.Value
  parentRoot : Jio.Value
  ErrorBag : Jio.ErrorBag
  skip : Bool

/-- What a rule `func(*Context)` reads and writes: the target of the context
pointer, the contents of the maps of the heap, and the allocation counter of
`error` values. -/
structure State where
  ctx : Context
  heap : Heap
  nextErr : Nat

/-- Modelled from the spec: the separator of `Context.FieldPath` (context.go is
not among the sources).  The spec says the segments are "concatenated with a
separator" and does not name it; no statement below depends on its value. -/
def fieldSeparator : String := "."

/-- Modelled from the spec: `Context.FieldPath` of context.go (not among the
sources), which "renders the current path for error construction": the
segments joined by the separator. -/
def Context.FieldPath (ctx : Context) : String :=
  String.intercalate fieldSeparator ctx.fields

/-- Modelled from the spec: `Context.Skip` of context.go (not among the
sources), which "sets the skip flag". -/
def Context.Skip (st : State) : State :=
  { st with ctx := { st.ctx with skip := true } }

/-- Modelled from the spec: `Context.Abort` of context.go (not among the
sources), which "appends the error to the ErrorBag and also sets skip". -/
def Context.Abort (st : State) (err : FieldError) : State :=
  let r := st.ctx.ErrorBag.Add err st.nextErr
  { st with ctx := { st.ctx with ErrorBag := r.1, skip := true }, nextErr := r.2 }

/-- Modelled from the spec: `Context.AssertKind` of context.go (not among the
sources), which "reports whether the current value matches an expected native
kind without mutating state". -/
def Context.AssertKind (ctx : Context) (kind : Kind) : Bool :=
  decide (ctx.Value.kind = kind)

/-- The statement `ctx.ErrorBag.Add(err)` on the context of a state. -/
def State.addError (st : State) (err : FieldError) : State :=
  let r := st.ctx.ErrorBag.Add err st.nextErr
  { st with ctx := { st.ctx with ErrorBag := r.1 }, nextErr := r.2 }

/-! ## Error constructors (error.go) -/

/-- The function `NewError`: `FieldError{ctx.FieldPath(), errors.New(msg)}`.
The second component is the state after the allocation. -/
def NewError (st : State) (msg : String) : FieldError × State :=
  (⟨st.ctx.FieldPath, ⟨st.nextErr, msg⟩⟩, { st with nextErr := st.nextErr + 1 })

/-- The function `ErrorMessageRequired`. -/
def ErrorMessageRequired : String := "is required"

/-- The function `ErrorRequired`. -/
def ErrorRequired (st : State) : FieldError × State := NewError st ErrorMessageRequired

/-- The function `ErrorMessageType`. -/
def ErrorMessageType (t : String) : String := "must be " ++ t

/-- The function `ErrorMessageTypeObject`. -/
def ErrorMessageTypeObject : String := ErrorMessageType "an object"

/-- The function `ErrorTypeObject`. -/
def ErrorTypeObject (st : State) : FieldError × State := NewError st ErrorMessageTypeObject

/-- The function `ErrorMessageTypeArray`. -/
def ErrorMessageTypeArray : String := ErrorMessageType "an array"

/-- The function `ErrorTypeArray`. -/
def ErrorTypeArray (st : State) : FieldError × State := NewError st ErrorMessageTypeArray

/-- The function `ErrorMessageTypeString`. -/
def ErrorMessageTypeString : String := ErrorMessageType "a string"

/-- The function `ErrorTypeString`. -/
def ErrorTypeString (st : State) : FieldError × State := NewError st ErrorMessageTypeString

/-- The function `ErrorMessageTypeNumber`. -/
def ErrorMessageTypeNumber : String := ErrorMessageType "a number"

/-- The function `ErrorTypeNumber`. -/
def ErrorTypeNumber (st : State) : FieldError × State := NewError st ErrorMessageTypeNumber

/-- The function `characters`. -/
def characters (count : Int) : String :=
  toString count ++ " " ++ (if count ≠ 1 then "characters" else "character")

/-- The function `ErrorMessageStringLengthMin`. -/
def ErrorMessageStringLengthMin (min : Int) : String :=
  "must have at least " ++ characters min

/-- The function `ErrorMessageStringLengthMax`. -/
def ErrorMessageStringLengthMax (max : Int) : String :=
  "cannot have more than " ++ characters max

/-- The function `ErrorMessageStringLengthEqual`. -/
def ErrorMessageStringLengthEqual (val : Int) : String :=
  "must have exactly " ++ characters val

/-- The function `ErrorMessageObjectMissingRequiredKeys`. -/
def ErrorMessageObjectMissingRequiredKeys (missingKeys : List String) : String :=
  "is missing required keys [" ++ String.intercalate ", " missingKeys ++ "]"

/-- The function `ErrorObjectMissingRequiredKeys`. -/
def ErrorObjectMissingRequiredKeys (st : State) (missingKeys : List String) :
    FieldError × State :=
  NewError st (ErrorMessageObjectMissingRequiredKeys missingKeys)

/-- The statement `ctx.Abort(mk(ctx))` for an error constructor `mk` of
error.go: the error is allocated, then recorded. -/
def abortWith (mk : State → FieldError × State) (st : State) : State :=
  Context.Abort (mk st).2 (mk st).1

/-! ## Rule chains -/

/-- A rule step, `func(*Context)`. -/
abbrev Rule := State → State

/-- The loop `for _, rule := range rules { rule(ctx); if ctx.skip { return } }`
that ends `Validate` of the string, array and object schemas. -/
def runRules : List Rule → State → State
  | [], st => st
  | rule :: rest, st =>
    let st1 := rule st
    if st1.ctx.skip then st1 else runRules rest st1

/-- The closure that `Required()` prepends, the same in the four schemas. -/
def requiredRule : Rule := fun st =>
  match st.ctx.Value with
  | .null => abortWith ErrorRequired st
  | _ => st

/-- The closure that `Optional()` prepends, the same in the four schemas. -/
def optionalRule : Rule := fun st =>
  match st.ctx.Value with
  | .null => Context.Skip st
  | _ => st

/-- The closure that `Default(value)` prepends, the same in the four schemas. -/
def defaultRule (value : Value) : Rule := fun st =>
  match st.ctx.Value with
  | .null => { st with ctx := { st.ctx with Value := value } }
  | _ => st

/-! ## StringSchema (string.go) -/

/-- The struct `StringSchema`; `priority` is the field of the embedded
`baseSchema`, `required` is the `*bool` (`none` for `nil`). -/
structure StringSchema where
  priority : Int
  required : Option Bool
  rules : List Rule

/-- The function `String` (renamed: the name is taken by the type of strings). -/
def jioString : StringSchema := ⟨0, none, []⟩

/-- The method `baseSchema.Priority`, promoted to `StringSchema`. -/
def StringSchema.Priority (s : StringSchema) : Int := s.priority

/-- The method `StringSchema.SetPriority`. -/
def StringSchema.SetPriority (s : StringSchema) (priority : Int) : StringSchema :=
  { s with priority := priority }

/-- The method `StringSchema.PrependTransform`. -/
def StringSchema.PrependTransform (s : StringSchema) (f : Rule) : StringSchema :=
  { s with rules := [f] ++ s.rules }

/-- The method `StringSchema.Transform`. -/
def StringSchema.Transform (s : StringSchema) (f : Rule) : StringSchema :=
  { s with rules := s.rules ++ [f] }

/-- The method `StringSchema.Required`. -/
def StringSchema.Required (s : StringSchema) : StringSchema :=
  StringSchema.PrependTransform { s with required := some true } requiredRule

/-- The method `StringSchema.Optional`. -/
def StringSchema.Optional (s : StringSchema) : StringSchema :=
  StringSchema.PrependTransform { s with required := some false } optionalRule

/-- The method `StringSchema.Default`. -/
def StringSchema.Default (s : StringSchema) (value : String) : StringSchema :=
  StringSchema.PrependTransform { s with required := some false } (defaultRule (.str value))

/-- The closure that `StringSchema.Set(value)` appends. -/
def stringSetRule (value : String) : Rule := fun st =>
  { st with ctx := { st.ctx with Value := .str value } }

/-- The method `StringSchema.Set`. -/
def StringSchema.Set (s : StringSchema) (value : String) : StringSchema :=
  s.Transform (stringSetRule value)

/-- The closure that `StringSchema.Check(f)` appends.  The check function
returns `nil` (`none`) or an error, of which the rule only uses the message. -/
def stringCheckRule (f : String → Option String) : Rule := fun st =>
  match st.ctx.Value with
  | .str ctxValue =>
    match f ctxValue with
    | some msg => State.addError (NewError st msg).2 (NewError st msg).1
    | none => st
  | _ => abortWith ErrorTypeString st

/-- The method `StringSchema.Check`. -/
def StringSchema.Check (s : StringSchema) (f : String → Option String) : StringSchema :=
  s.Transform (stringCheckRule f)

/-- The function `ErrorMessageEqual` on a string operand, which `%v` prints as
it is. -/
def ErrorMessageEqual (val : String) : String := "must equal " ++ val

/-- The function `ErrorMessageStringOneOf`: `ErrorMessageOneOf` on strings, each
printed by `%v` as it is. -/
def ErrorMessageStringOneOf (values : List String) : String :=
  "must be one of [" ++ String.intercalate ", " values ++ "]"

/-- The method `StringSchema.Equal`. -/
def StringSchema.Equal (s : StringSchema) (value : String) : StringSchema :=
  s.Check fun ctxValue => if value ≠ ctxValue then some (ErrorMessageEqual value) else none

/-- The method `StringSchema.Valid`. -/
def StringSchema.Valid (s : StringSchema) (values : List String) : StringSchema :=
  s.Check fun ctxValue =>
    if values.any (fun v => v == ctxValue) then none else some (ErrorMessageStringOneOf values)

/-- The closure that `StringSchema.Convert(f)` appends. -/
def stringConvertRule (f : String → String) : Rule := fun st =>
  match st.ctx.Value with
  | .str ctxValue => { st with ctx := { st.ctx with Value := .str (f ctxValue) } }
  | _ => abortWith ErrorTypeString st

/-- The method `StringSchema.Convert`. -/
def StringSchema.Convert (s : StringSchema) (f : String → String) : StringSchema :=
  s.Transform (stringConvertRule f)

/-- The tables of the library package `unicode` on which the library functions
`strings.ToLower`, `strings.ToUpper` and `strings.TrimSpace` draw: the case
mappings `unicode.ToLower` and `unicode.ToUpper` and the predicate
`unicode.IsSpace`.  The package is not part of the repository; the tables are a
parameter. -/
structure UnicodeTables where
  ToLower : Char → Char
  ToUpper : Char → Char
  IsSpace : Char → Bool

/-- The library call `strings.Map(mapping, s)` for a mapping that drops no
rune: the mapping is applied rune by rune. -/
def stringsMap (mapping : Char → Char) (s : String) : String :=
  String.mk (s.toList.map mapping)

/-- The library function `strings.ToLower`, which maps every rune by
`unicode.ToLower`. -/
def stringsToLower (u : UnicodeTables) (s : String) : String := stringsMap u.ToLower s

/-- The library function `strings.ToUpper`, which maps every rune by
`unicode.ToUpper`. -/
def stringsToUpper (u : UnicodeTables) (s : String) : String := stringsMap u.ToUpper s

/-- Removal of the leading and of the trailing runes that satisfy `isSpace`. -/
def trimChars (isSpace : Char → Bool) (cs : List Char) : List Char :=
  (cs.dropWhile isSpace).rdropWhile isSpace

/-- The library function `strings.TrimSpace`, which removes the leading and
trailing runes that `unicode.IsSpace` accepts. -/
def stringsTrimSpace (u : UnicodeTables) (s : String) : String :=
  String.mk (trimChars u.IsSpace s.toList)

/-- The method `StringSchema.Lowercase`: `Convert(strings.ToLower)`. -/
def StringSchema.Lowercase (s : StringSchema) (u : UnicodeTables) : StringSchema :=
  s.Convert (stringsToLower u)

/-- The method `StringSchema.Uppercase`: `Convert(strings.ToUpper)`. -/
def StringSchema.Uppercase (s : StringSchema) (u : UnicodeTables) : StringSchema :=
  s.Convert (stringsToUpper u)

/-- The method `StringSchema.Trim`: `Convert(strings.TrimSpace)`. -/
def StringSchema.Trim (s : StringSchema) (u : UnicodeTables) : StringSchema :=
  s.Convert (stringsTrimSpace u)

/-- The method `StringSchema.Min`; `len(ctxValue)` is the number of bytes. -/
def StringSchema.Min (s : StringSchema) (min : Int) : StringSchema :=
  s.Check fun ctxValue =>
    if (ctxValue.utf8ByteSize : Int) < min then some (ErrorMessageStringLengthMin min) else none

/-- The method `StringSchema.Max` (it reports with `ErrorMessageStringLengthMin`). -/
def StringSchema.Max (s : StringSchema) (max : Int) : StringSchema :=
  s.Check fun ctxValue =>
    if (ctxValue.utf8ByteSize : Int) > max then some (ErrorMessageStringLengthMin max) else none

/-- The method `StringSchema.Length`. -/
def StringSchema.Length (s : StringSchema) (length : Int) : StringSchema :=
  s.Check fun ctxValue =>
    if (ctxValue.utf8ByteSize : Int) ≠ length then some (ErrorMessageStringLengthEqual length)
    else none

/-- The method `StringSchema.Validate`.  It returns the schema as the call
leaves it (an unconfigured schema gets `Optional()` applied) and the state. -/
def StringSchema.Validate (s : StringSchema) (st : State) : StringSchema × State :=
  let go : StringSchema × State :=
    let s1 := if s.required = none then s.Optional else s
    (s1, runRules s1.rules st)
  match st.ctx.Value with
  | .null => go
  | .str _ => go
  | _ => (s, abortWith ErrorTypeString st)

/-! ## NumberSchema (number.go) -/

/-- The struct `NumberSchema`. -/
structure NumberSchema where
  priority : Int
  required : Option Bool
  rules : List Rule

/-- The function `Number` (renamed like `jioString`). -/
def jioNumber : NumberSchema := ⟨0, none, []⟩

/-- The method `baseSchema.Priority`, promoted to `NumberSchema`. -/
def NumberSchema.Priority (n : NumberSchema) : Int := n.priority

/-- The method `NumberSchema.SetPriority`. -/
def NumberSchema.SetPriority (n : NumberSchema) (priority : Int) : NumberSchema :=
  { n with priority := priority }

/-- The method `NumberSchema.PrependTransform`. -/
def NumberSchema.PrependTransform (n : NumberSchema) (f : Rule) : NumberSchema :=
  { n with rules := [f] ++ n.rules }

/-- The method `NumberSchema.Transform`. -/
def NumberSchema.Transform (n : NumberSchema) (f : Rule) : NumberSchema :=
  { n with rules := n.rules ++ [f] }

/-- The method `NumberSchema.Required`. -/
def NumberSchema.Required (n : NumberSchema) : NumberSchema :=
  NumberSchema.PrependTransform { n with required := some true } requiredRule

/-- The method `NumberSchema.Optional`. -/
def NumberSchema.Optional (n : NumberSchema) : NumberSchema :=
  NumberSchema.PrependTransform { n with required := some false } optionalRule

/-- The method `NumberSchema.Default`. -/
def NumberSchema.Default (n : NumberSchema) (value : Float64) : NumberSchema :=
  NumberSchema.PrependTransform { n with required := some false } (defaultRule (.float value))

/-- The method `NumberSchema.Set`. -/
def NumberSchema.Set (n : NumberSchema) (value : Float64) : NumberSchema :=
  n.Transform fun st => { st with ctx := { st.ctx with Value := .float value } }

/-- The closure that `NumberSchema.Check(f)` appends.  The check function
returns `nil` (`none`) or an error, of which the rule only uses the message. -/
def numberCheckRule (f : Float64 → Option String) : Rule := fun st =>
  match st.ctx.Value with
  | .float ctxValue =>
    match f ctxValue with
    | some msg => State.addError (NewError st msg).2 (NewError st msg).1
    | none => st
  | _ => abortWith ErrorTypeNumber st

/-- The method `NumberSchema.Check`. -/
def NumberSchema.Check (n : NumberSchema) (f : Float64 → Option String) : NumberSchema :=
  n.Transform (numberCheckRule f)

/-- The closure that `ParseString()` appends.  `parseFloat` stands for the
library call `strconv.ParseFloat(s, 64)`: `none` when it returns an error. -/
def parseStringRule (parseFloat : String → Option Float64) : Rule := fun st =>
  match st.ctx.Value with
  | .str ctxValue =>
    match parseFloat ctxValue with
    | none => abortWith ErrorTypeNumber st
    | some value => { st with ctx := { st.ctx with Value := .float value } }
  | _ => st

/-- The method `NumberSchema.ParseString`. -/
def NumberSchema.ParseString (n : NumberSchema) (parseFloat : String → Option Float64) :
    NumberSchema :=
  n.Transform (parseStringRule parseFloat)

/-- The conversion `float64(ctxValue)` of an `int`. -/
def float64OfInt (n : Int) : Float64 := (n : ℚ)

/-- The end of `NumberSchema.Validate`, reached when the rule loop did not
return: `if ctx.ErrorBag.Empty() { if value is not a float64 { Abort } }`. -/
def NumberSchema.finish (st : State) : State :=
  if st.ctx.ErrorBag.Empty then
    match st.ctx.Value with
    | .float _ => st
    | _ => abortWith ErrorTypeNumber st
  else st

/-- The rule loop of `NumberSchema.Validate` followed by what comes after it:
a `return` inside the loop skips the final type check. -/
def NumberSchema.runRules : List Rule → State → State
  | [], st => NumberSchema.finish st
  | rule :: rest, st =>
    let st1 := rule st
    if st1.ctx.skip then st1 else NumberSchema.runRules rest st1

/-- The method `NumberSchema.Validate`. -/
def NumberSchema.Validate (n : NumberSchema) (st : State) : NumberSchema × State :=
  let n1 := if n.required = none then n.Optional else n
  let st1 : State :=
    match st.ctx.Value with
    | .int ctxValue => { st with ctx := { st.ctx with Value := .float (float64OfInt ctxValue) } }
    | _ => st
  (n1, NumberSchema.runRules n1.rules st1)

/-! ## ArraySchema (array.go) -/

/-- The struct `ArraySchema`. -/
structure ArraySchema where
  priority : Int
  required : Option Bool
  rules : List Rule

/-- The function `Array` (renamed like `jioString`). -/
def jioArray : ArraySchema := ⟨0, none, []⟩

/-- The method `baseSchema.Priority`, promoted to `ArraySchema`. -/
def ArraySchema.Priority (a : ArraySchema) : Int := a.priority

/-- The method `ArraySchema.SetPriority`. -/
def ArraySchema.SetPriority (a : ArraySchema) (priority : Int) : ArraySchema :=
  { a with priority := priority }

/-- The method `ArraySchema.PrependTransform`. -/
def ArraySchema.PrependTransform (a : ArraySchema) (f : Rule) : ArraySchema :=
  { a with rules := [f] ++ a.rules }

/-- The method `ArraySchema.Transform`. -/
def ArraySchema.Transform (a : ArraySchema) (f : Rule) : ArraySchema :=
  { a with rules := a.rules ++ [f] }

/-- The method `ArraySchema.Required`. -/
def ArraySchema.Required (a : ArraySchema) : ArraySchema :=
  ArraySchema.PrependTransform { a with required := some true } requiredRule

/-- The method `ArraySchema.Optional`. -/
def ArraySchema.Optional (a : ArraySchema) : ArraySchema :=
  ArraySchema.PrependTransform { a with required := some false } optionalRule

/-- The method `ArraySchema.Default`. -/
def ArraySchema.Default (a : ArraySchema) (value : Value) : ArraySchema :=
  ArraySchema.PrependTransform { a with required := some false } (defaultRule value)

/-- The method `ArraySchema.Validate`. -/
def ArraySchema.Validate (a : ArraySchema) (st : State) : ArraySchema × State :=
  let go : ArraySchema × State :=
    let a1 := if a.required = none then a.Optional else a
    (a1, runRules a1.rules st)
  match st.ctx.Value with
  | .null => go
  | _ => if st.ctx.AssertKind Kind.Slice then go else (a, abortWith ErrorTypeArray st)

/-! ## Schema (schema.go) and ObjectSchema (object.go) -/

/-- A value of the interface `Schema`, as `Keys` uses it: what `Priority()`
returns, whether the dynamic type is `*ObjectSchema` (the type assertion in
`Keys`), and what `Validate(ctx)` does to the context and the heap. -/
structure Schema where
  priority : Int
  isObject : Bool
  validate : State → State

/-- The method `Priority` of the interface. -/
def Schema.Priority (s : Schema) : Int := s.priority

/-- The struct `objectItem`. -/
structure objectItem where
  key : String
  schema : Schema

/-- The type `K`, a Go map from keys to schemas.  It is kept as the list of its
entries in the order in which `range` happens to visit them, which Go leaves
unspecified: every statement about `K` is for every such order.  The keys of a
Go map are pairwise distinct. -/
abbrev K := List (String × Schema)

/-- Insertion of `x` into a slice sorted by `less`, behind the elements it is
not less than. -/
def insertLess {α : Type} (less : α → α → Bool) (x : α) : List α → List α
  | [] => [x]
  | y :: ys => if less x y then x :: y :: ys else y :: insertLess less x ys

/-- The library call `sort.Slice(xs, less)`, which is not part of the
repository: insertion sort, the algorithm the library runs on short slices.
The library promises a permutation sorted by `less` and no more (the order of
elements that `less` does not separate is unspecified). -/
def sortSlice {α : Type} (less : α → α → Bool) (xs : List α) : List α :=
  xs.foldl (fun acc x => insertLess less x acc) []

/-- The method `K.sort`. -/
def K.sort (k : K) : List objectItem :=
  sortSlice (fun x y => decide (x.schema.Priority > y.schema.Priority))
    (k.map fun e => objectItem.mk e.1 e.2)

/-- The struct `ObjectSchema`. -/
structure ObjectSchema where
  priority : Int
  required : Option Bool
  rules : List Rule

/-- The function `Object`. -/
def Object : ObjectSchema := ⟨0, none, []⟩

/-- The method `baseSchema.Priority`, promoted to `ObjectSchema`. -/
def ObjectSchema.Priority (o : ObjectSchema) : Int := o.priority

/-- The method `ObjectSchema.SetPriority`. -/
def ObjectSchema.SetPriority (o : ObjectSchema) (priority : Int) : ObjectSchema :=
  { o with priority := priority }

/-- The method `ObjectSchema.PrependTransform`. -/
def ObjectSchema.PrependTransform (o : ObjectSchema) (f : Rule) : ObjectSchema :=
  { o with rules := [f] ++ o.rules }

/-- The method `ObjectSchema.Transform`. -/
def ObjectSchema.Transform (o : ObjectSchema) (f : Rule) : ObjectSchema :=
  { o with rules := o.rules ++ [f] }

/-- The method `ObjectSchema.Required`. -/
def ObjectSchema.Required (o : ObjectSchema) : ObjectSchema :=
  ObjectSchema.PrependTransform { o with required := some true } requiredRule

/-- The method `ObjectSchema.Optional`. -/
def ObjectSchema.Optional (o : ObjectSchema) : ObjectSchema :=
  ObjectSchema.PrependTransform { o with required := some false } optionalRule

/-- The method `ObjectSchema.Default`; the default map is given by its address. -/
def ObjectSchema.Default (o : ObjectSchema) (value : Addr) : ObjectSchema :=
  ObjectSchema.PrependTransform { o with required := some false } (defaultRule (.map value))

/-- The function `ErrorMessageObjectContainsForbiddenKeys`. -/
def ErrorMessageObjectContainsForbiddenKeys (missingKeys : List String) : String :=
  "contains forbidden keys [" ++ String.intercalate ", " missingKeys ++ "]"

/-- The function `ErrorObjectContainsForbiddenKeys`. -/
def ErrorObjectContainsForbiddenKeys (st : State) (forbiddenKeys : List String) :
    FieldError × State :=
  NewError st (ErrorMessageObjectContainsForbiddenKeys forbiddenKeys)

/-- The loop of `Without` that collects the keys present in the map. -/
def forbiddenKeys (m : Mapping) (keys : List String) : List String :=
  keys.foldl (fun forbidden key => if (m key).isSome then forbidden ++ [key] else forbidden) []

/-- The closure that `Without(keys...)` appends.  When the value is not a map
the type error is added and the rule goes on with the `nil` map the failed
assertion yields, in which no key is present. -/
def withoutRule (keys : List String) : Rule := fun st =>
  let ctxValue : Mapping :=
    match st.ctx.Value with
    | .map a => st.heap a
    | _ => fun _ => none
  let st1 : State :=
    match st.ctx.Value with
    | .map _ => st
    | _ => State.addError (ErrorTypeObject st).2 (ErrorTypeObject st).1
  let forbidden := forbiddenKeys ctxValue keys
  if forbidden.length > 1 then
    State.addError (ErrorObjectContainsForbiddenKeys st1 forbidden).2
      (ErrorObjectContainsForbiddenKeys st1 forbidden).1
  else st1

/-- The method `ObjectSchema.Without`. -/
def ObjectSchema.Without (o : ObjectSchema) (keys : List String) : ObjectSchema :=
  o.Transform (withoutRule keys)

/-- The loop of `With` that collects the keys absent from the map. -/
def missingKeys (m : Mapping) (keys : List String) : List String :=
  keys.foldl (fun missing key => if (m key).isNone then missing ++ [key] else missing) []

/-- The closure that `With(keys...)` appends. -/
def withRule (keys : List String) : Rule := fun st =>
  match st.ctx.Value with
  | .map a =>
    let missing := missingKeys (st.heap a) keys
    if missing.length > 0 then
      State.addError (ErrorObjectMissingRequiredKeys st missing).2
        (ErrorObjectMissingRequiredKeys st missing).1
    else st
  | _ => abortWith ErrorTypeObject st

/-- The method `ObjectSchema.With`. -/
def ObjectSchema.With (o : ObjectSchema) (keys : List String) : ObjectSchema :=
  o.Transform (withRule keys)

/-- The body of the loop of `Keys` up to the call of the sub-schema: the value
under the key is read (`nil` when absent), `parent` is bound to the map, `skip`
is reset, the path is the saved path extended by the key, and `parentRoot` is
bound when the sub-schema is an object schema and no anchor is set yet. -/
def keysPrepare (a : Addr) (fields : List String) (obj : objectItem) (st : State) : State :=
  let ctx1 : Context :=
    { st.ctx with
      parent := .map a, skip := false, fields := fields ++ [obj.key],
      Value := (st.heap a).index obj.key }
  let ctx2 : Context :=
    if obj.schema.isObject && ctx1.parentRoot.isNil then
      { ctx1 with parentRoot := ctx1.parent }
    else ctx1
  { st with ctx := ctx2 }

/-- The end of the body of the loop of `Keys`:
`if ctx.ErrorBag.Empty() && !ctx.skip { ctxValue[obj.key] = ctx.Value }`. -/
def keysWriteBack (a : Addr) (obj : objectItem) (st : State) : State :=
  if st.ctx.ErrorBag.Empty && !st.ctx.skip then
    { st with heap := st.heap.store a obj.key st.ctx.Value }
  else st

/-- One iteration of the loop of `Keys`. -/
def keysStep (a : Addr) (fields : List String) (obj : objectItem) (st : State) : State :=
  keysWriteBack a obj (obj.schema.validate (keysPrepare a fields obj st))

/-- The loop `for _, obj := range children.sort() { ... }` of `Keys`. -/
def keysLoop (a : Addr) (fields : List String) : List objectItem → State → State
  | [], st => st
  | obj :: rest, st => keysLoop a fields rest (keysStep a fields obj st)

/-- The closure that `Keys(children)` appends.  The deferred function restores
the path and the value once the loop is over. -/
def keysRule (children : K) : Rule := fun st =>
  match st.ctx.Value with
  | .map a =>
    let fields := st.ctx.fields
    let st1 := keysLoop a fields children.sort st
    { st1 with ctx := { st1.ctx with fields := fields, Value := .map a } }
  | _ => abortWith ErrorTypeObject st

/-- The method `ObjectSchema.Keys`. -/
def ObjectSchema.Keys (o : ObjectSchema) (children : K) : ObjectSchema :=
  o.Transform (keysRule children)

/-- The method `ObjectSchema.Validate`. -/
def ObjectSchema.Validate (o : ObjectSchema) (st : State) : ObjectSchema × State :=
  let go : ObjectSchema × State :=
    let o1 := if o.required = none then o.Optional else o
    (o1, runRules o1.rules st)
  match st.ctx.Value with
  | .null => go
  | .map _ => go
  | _ => (o, abortWith ErrorTypeObject st)

/-- A `*StringSchema` as a value of the interface `Schema`. -/
def StringSchema.toSchema (s : StringSchema) : Schema :=
  ⟨s.Priority, false, fun st => (s.Validate st).2⟩

/-- A `*NumberSchema` as a value of the interface `Schema`. -/
def NumberSchema.toSchema (n : NumberSchema) : Schema :=
  ⟨n.Priority, false, fun st => (n.Validate st).2⟩

/-- An `*ArraySchema` as a value of the interface `Schema`. -/
def ArraySchema.toSchema (a : ArraySchema) : Schema :=
  ⟨a.Priority, false, fun st => (a.Validate st).2⟩

/-- An `*ObjectSchema` as a value of the interface `Schema`. -/
def ObjectSchema.toSchema (o : ObjectSchema) : Schema :=
  ⟨o.Priority, true, fun st => (o.Validate st).2⟩

/-- The states in which the loop of `Keys` calls `Validate` of the sub-schemas,
one entry per iteration, in order. -/
def keysCalls (a : Addr) (fields : List String) : List objectItem → State →
    List (objectItem × State)
  | [], _ => []
  | obj :: rest, st =>
    (obj, keysPrepare a fields obj st) :: keysCalls a fields rest (keysStep a fields obj st)

/-! ## Rules of ArraySchema (array.go) -/

/-- What the function given to `ArraySchema.Check` returns: `nil`, or an
`error` whose dynamic type is `*ErrorBag`, `FieldError` or something else (an
error made by `errors.New`). -/
inductive CheckError where
  | nil : CheckError
  | bag (b : ErrorBag) : CheckError
  | fieldError (e : FieldError) : CheckError
  | other (e : GoError) : CheckError

/-- The statement `ctx.ErrorBag.AddBag(bag)` on the context of a state. -/
def State.addBag (st : State) (bag : ErrorBag) : State :=
  let r := st.ctx.ErrorBag.AddBag bag st.nextErr
  { st with ctx := { st.ctx with ErrorBag := r.1 }, nextErr := r.2 }

/-- The end of the closure of `ArraySchema.Check`, once the check function has
returned `err`. -/
def checkOutcome (st : State) : CheckError → State
  | .nil => st
  | .bag b => st.addBag b
  | .fieldError e => st.addError e
  | .other e => st.addError ⟨st.ctx.FieldPath, e⟩

/-- The closure that `ArraySchema.Check(f)` appends, for a check function that
returns; its second component is the state it leaves. -/
def arrayCheckRule (f : State → CheckError × State) : Rule := fun st =>
  if st.ctx.AssertKind Kind.Slice then checkOutcome (f st).2 (f st).1
  else abortWith ErrorTypeArray st

/-- The method `ArraySchema.Check`. -/
def ArraySchema.Check (a : ArraySchema) (f : State → CheckError × State) : ArraySchema :=
  a.Transform (arrayCheckRule f)

/-- The closure of `ArraySchema.Check(f)` for a check function that may panic
(`none`); the rule then panics too. -/
def arrayCheckPartial (f : State → Option (CheckError × State)) : State → Option State :=
  fun st =>
    if st.ctx.AssertKind Kind.Slice then
      match f st with
      | none => none
      | some r => some (checkOutcome r.2 r.1)
    else some (abortWith ErrorTypeArray st)

/-- Modelled from the spec: the function `NewContext` of context.go (not among
the sources).  The spec has a context "constructed fresh per top-level
Validate call", its root being "the first Context's original value": the value
and the root are the data, the path is empty, no parent is bound, the bag is
new and `skip` is clear. -/
def NewContext (data : Value) : Context :=
  ⟨data, [], data, .null, .null, NewErrorBag, false⟩

/-- The context `Items` builds for the element `rv` at index `i`: a new context
with the root, anchor and parent of the array's context and the array's path
extended by the index in decimal. -/
def itemContext (ctx : Context) (i : Nat) (rv : Value) : Context :=
  { NewContext rv with
    root := ctx.root, parentRoot := ctx.parentRoot, parent := ctx.parent,
    fields := (NewContext rv).fields ++ (ctx.fields ++ [toString i]) }

/-- What the loops of `Items` carry along: the bag `errs`, the heap and the
allocation counter. -/
structure ItemsAcc where
  errs : ErrorBag
  heap : Heap
  nextErr : Nat

/-- The body of the inner loop of `Items`: the schema validates the element in
its own context and the bag of that context is merged into `errs`. -/
def itemsStep (ctx : Context) (i : Nat) (rv : Value) (acc : ItemsAcc) (schema : Schema) :
    ItemsAcc :=
  let r := schema.validate ⟨itemContext ctx i rv, acc.heap, acc.nextErr⟩
  let b := acc.errs.AddBag r.ctx.ErrorBag r.nextErr
  ⟨b.1, r.heap, b.2⟩

/-- The outer loop of `Items` from index `i` on, with the inner loop over the
schemas. -/
def itemsLoop (ctx : Context) (schemas : List Schema) : Nat → List Value → ItemsAcc → ItemsAcc
  | _, [], acc => acc
  | i, rv :: rest, acc =>
    itemsLoop ctx schemas (i + 1) rest (schemas.foldl (itemsStep ctx i rv) acc)

/-- The check function of `Items(schemas...)`; it returns the bag `errs`.  It
is only called on a slice. -/
def itemsCheck (schemas : List Schema) : State → CheckError × State := fun st =>
  match st.ctx.Value with
  | .seq xs =>
    let acc := itemsLoop st.ctx schemas 0 xs ⟨NewErrorBag, st.heap, st.nextErr⟩
    (.bag acc.errs, { st with heap := acc.heap, nextErr := acc.nextErr })
  | _ => (.bag NewErrorBag, st)

/-- The closure that `Items(schemas...)` appends. -/
def itemsRule (schemas : List Schema) : Rule := arrayCheckRule (itemsCheck schemas)

/-- The method `ArraySchema.Items`. -/
def ArraySchema.Items (a : ArraySchema) (schemas : List Schema) : ArraySchema :=
  a.Check (itemsCheck schemas)

/-- The function `ErrorMessageArrayUniqueObjects`. -/
def ErrorMessageArrayUniqueObjects (fields : List String) : String :=
  "must be unique [fields: " ++ String.intercalate ", " fields ++ "]"

/-- The loop `for _, field := range fields { key += obj[field].(string) }` of
`UniqueObjects`; `none` when the type assertion panics, which it does on an
absent field (`nil`) and on a value that is not a string. -/
def compositeKeyLoop (obj : Mapping) : List String → String → Option String
  | [], key => some key
  | field :: rest, key =>
    match obj field with
    | some (.str v) => compositeKeyLoop obj rest (key ++ v)
    | _ => none

/-- The loop over the elements in `UniqueObjects`; `seen` holds the keys of
`valsMap`.  The result is `none` when the loop panics, `some none` when the
function returns `nil` (no repeated key, or an element that is not a map) and
`some (some msg)` when it returns the uniqueness error. -/
def uniqueObjectsLoop (heap : Heap) (fields : List String) :
    List Value → List String → Option (Option String)
  | [], _ => some none
  | .map a :: rest, seen =>
    match compositeKeyLoop (heap a) fields "" with
    | none => none
    | some key =>
      if key ∈ seen then some (some (ErrorMessageArrayUniqueObjects fields))
      else uniqueObjectsLoop heap fields rest (key :: seen)
  | _ :: _, _ => some none

/-- The check function of `UniqueObjects(fields...)`; the error it returns is
made by `errors.New`.  It is only called on a slice. -/
def uniqueObjectsCheck (fields : List String) : State → Option (CheckError × State) :=
  fun st =>
    match st.ctx.Value with
    | .seq xs =>
      match uniqueObjectsLoop st.heap fields xs [] with
      | none => none
      | some none => some (.nil, st)
      | some (some msg) =>
        some (.other ⟨st.nextErr, msg⟩, { st with nextErr := st.nextErr + 1 })
    | _ => some (.nil, st)

/-- The closure that `UniqueObjects(fields...)` appends; `none` when it panics. -/
def uniqueObjectsRule (fields : List String) : State → Option State :=
  arrayCheckPartial (uniqueObjectsCheck fields)

/-! ## The conditional rule (schema.go) -/

/-- Whether `value == value` can be evaluated on an `interface{}`: the
comparison panics when the dynamic type is a slice or a map. -/
def Value.comparable : Value → Bool
  | .seq _ => false
  | .map _ => false
  | _ => true

/-- The verb `%v` on a comparable value; `formatFloat` stands for the
library's rendering of a `float64`.  Slices and maps are left out (`none`):
`whenEqual` never gets to print them. -/
def formatV (formatFloat : Float64 → String) : Value → Option String
  | .null => some "<nil>"
  | .bool b => some (if b then "true" else "false")
  | .int n => some (toString n)
  | .float x => some (formatFloat x)
  | .str v => some v
  | .seq _ => none
  | .map _ => none

/-- The statement `ctx.ErrorBag.SetTemplate(template)` on the context of a state. -/
def State.setTemplate (st : State) (template : String) : State :=
  { st with ctx := { st.ctx with ErrorBag := st.ctx.ErrorBag.SetTemplate template } }

/-- The method `baseSchema.whenEqual`.  `ref` stands for `Context.Ref` of
context.go (not among the sources): `none` when the path is not found.  The
result is `none` when the method panics: on `value == value` for a slice or a
map, and on `ctx.fields[len(ctx.fields) - 1]` for an empty path.  The parameter
`condition` of the method is overwritten by the result of `Ref` before any
use and is left out. -/
def whenEqual (ref : State → String → Option Value) (formatFloat : Float64 → String)
    (refPath : String) (thenSchema : Schema) : State → Option State := fun st =>
  match ref st refPath with
  | none => some st
  | some value =>
    if value.comparable then
      match st.ctx.fields.getLast?, formatV formatFloat value with
      | some last, some shown =>
        let st1 := st.setTemplate ("%s " ++ ("when " ++ last ++ " = " ++ shown))
        some ((thenSchema.validate st1).setTemplate "")
      | _, _ => none
    else none

/-! ## Rendering of the error bag (error.go) -/

/-- Comparison of two strings by their characters, the first difference
deciding and a proper prefix coming first.  Go compares strings byte by byte,
which orders UTF-8 encodings as it orders the code points. -/
def charsLess : List Char → List Char → Bool
  | [], [] => false
  | [], _ :: _ => true
  | _ :: _, [] => false
  | a :: as, b :: bs =>
    if a < b then true else if b < a then false else charsLess as bs

/-- The comparison `a < b` of two Go strings. -/
def stringLess (a b : String) : Bool := charsLess a.toList b.toList

/-- The method `ErrorBag.StringArray`: the messages of the entries, sorted by
the library call `sort.Strings` (modelled like `sort.Slice`). -/
def ErrorBag.StringArray (bag : ErrorBag) : List String :=
  sortSlice stringLess (bag.m.map FieldError.Error)

/-! ## Vocabulary of the statements -/

/-- The entry the bag of `st` keeps when a rule reports `msg` at the current
path (`ctx.ErrorBag.Add(NewError(ctx, msg))` or `ctx.Abort(NewError(ctx, msg))`):
the error allocated by `NewError`, or, when a template is set, the error that
`fmt.Errorf` allocates next with the message rendered by the template. -/
def reportedError (st : State) (msg : String) : FieldError :=
  if st.ctx.ErrorBag.tmpl = "" then ⟨st.ctx.FieldPath, ⟨st.nextErr, msg⟩⟩
  else ⟨st.ctx.FieldPath, ⟨st.nextErr + 1, Sprintf1 st.ctx.ErrorBag.tmpl msg⟩⟩

/-- Every error of the bag was allocated before the counter's current value:
the next allocated error is a new key of the bag. -/
def State.fresh (st : State) : Prop :=
  ∀ e ∈ st.ctx.ErrorBag.m, e.Err.id < st.nextErr

instance (st : State) : Decidable st.fresh :=
  inferInstanceAs (Decidable (∀ e ∈ st.ctx.ErrorBag.m, e.Err.id < st.nextErr))

/-- The state `ctx.Abort(NewError(ctx, msg))` leaves: the bag has the reported
entry and `skip` is set; value, path, references and heap are untouched. -/
def abortedState (st : State) (msg : String) : State :=
  { ctx := { st.ctx with
      ErrorBag := { st.ctx.ErrorBag with
        m := mapInsert st.ctx.ErrorBag.m (reportedError st msg) },
      skip := true },
    heap := st.heap,
    nextErr := if st.ctx.ErrorBag.tmpl = "" then st.nextErr + 1 else st.nextErr + 2 }

/-- The state `ctx.ErrorBag.Add(NewError(ctx, msg))` leaves: the bag has the
reported entry; `skip`, value, path, references and heap are untouched. -/
def recordedState (st : State) (msg : String) : State :=
  { ctx := { st.ctx with
      ErrorBag := { st.ctx.ErrorBag with
        m := mapInsert st.ctx.ErrorBag.m (reportedError st msg) } },
    heap := st.heap,
    nextErr := if st.ctx.ErrorBag.tmpl = "" then st.nextErr + 1 else st.nextErr + 2 }

/-- The calls of `Validate` in the inner loop of `Items` for the element `rv`
at index `i`: for each schema, in order, the index, the schema and the state in
which the element's context is validated. -/
def itemsInnerCalls (ctx : Context) (i : Nat) (rv : Value) :
    List Schema → ItemsAcc → List (Nat × Schema × State)
  | [], _ => []
  | schema :: rest, acc =>
    (i, schema, ⟨itemContext ctx i rv, acc.heap, acc.nextErr⟩)
      :: itemsInnerCalls ctx i rv rest (itemsStep ctx i rv acc schema)

/-- The calls of `Validate` in the loops of `Items` from index `i` on, in order. -/
def itemsCalls (ctx : Context) (schemas : List Schema) :
    Nat → List Value → ItemsAcc → List (Nat × Schema × State)
  | _, [], _ => []
  | i, rv :: rest, acc =>
    itemsInnerCalls ctx i rv schemas acc
      ++ itemsCalls ctx schemas (i + 1) rest (schemas.foldl (itemsStep ctx i rv) acc)

/-- What the loops of `Items` start from: the new bag `errs`, and the heap and
allocation counter of the state. -/
def itemsStart (st : State) : ItemsAcc := ⟨NewErrorBag, st.heap, st.nextErr⟩

/-- The builder calls of `StringSchema` that prepend an absence rule:
`Required()`, `Optional()` and `Default(value)`. -/
inductive AbsenceOp where
  | required : AbsenceOp
  | optional : AbsenceOp
  | default (value : String) : AbsenceOp

/-- The rule an absence call prepends. -/
def AbsenceOp.rule : AbsenceOp → Rule
  | .required => requiredRule
  | .optional => optionalRule
  | .default value => defaultRule (.str value)

/-- The builder calls of `StringSchema` that append a value-changing rule:
`Set(value)`, `Lowercase()`, `Uppercase()` and `Trim()`. -/
inductive TransformOp where
  | set (value : String) : TransformOp
  | lowercase : TransformOp
  | uppercase : TransformOp
  | trim : TransformOp

/-- The rule a value-changing call appends. -/
def TransformOp.rule (u : UnicodeTables) : TransformOp → Rule
  | .set value => stringSetRule value
  | .lowercase => stringConvertRule (stringsToLower u)
  | .uppercase => stringConvertRule (stringsToUpper u)
  | .trim => stringConvertRule (stringsTrimSpace u)

/-- What the rule of a value-changing call makes of a string. -/
def TransformOp.apply (u : UnicodeTables) : TransformOp → String → String
  | .set value, _ => value
  | .lowercase, x => stringsToLower u x
  | .uppercase, x => stringsToUpper u x
  | .trim, x => stringsTrimSpace u x

/-- What the rules of a list of value-changing calls, run in order, make of a
string. -/
def applyTransforms (u : UnicodeTables) (ts : List TransformOp) (x : String) : String :=
  ts.foldl (fun y t => t.apply u y) x

/-- What the statements use of the tables of package `unicode`.  A case mapping
leaves its own results alone.  Mapping to lower case after upper case, and to
upper case after lower case, is stable after one round; one mapping need not
undo the other (the upper case of the dotless `ı` is `I`, whose lower case is
`i`).  A case mapping neither makes a space of another rune nor another rune of
a space. -/
def UnicodeTables.stable (u : UnicodeTables) : Prop :=
  (∀ c, u.ToLower (u.ToLower c) = u.ToLower c)
  ∧ (∀ c, u.ToUpper (u.ToUpper c) = u.ToUpper c)
  ∧ (∀ c, u.ToLower (u.ToUpper (u.ToLower (u.ToUpper c))) = u.ToLower (u.ToUpper c))
  ∧ (∀ c, u.ToUpper (u.ToLower (u.ToUpper (u.ToLower c))) = u.ToUpper (u.ToLower c))
  ∧ (∀ c, u.IsSpace (u.ToLower c) = u.IsSpace c)
  ∧ (∀ c, u.IsSpace (u.ToUpper c) = u.IsSpace c)

/-- The mappings of runes that chains of `Lowercase()` and `Uppercase()` calls
amount to: the identity, the two case mappings, and their alternations of
length two and three. -/
def caseWord (u : UnicodeTables) (f : Char → Char) : Prop :=
  f = id ∨ f = u.ToLower ∨ f = u.ToUpper
  ∨ f = (fun c => u.ToLower (u.ToUpper c)) ∨ f = (fun c => u.ToUpper (u.ToLower c))
  ∨ f = (fun c => u.ToLower (u.ToUpper (u.ToLower c)))
  ∨ f = (fun c => u.ToUpper (u.ToLower (u.ToUpper c)))

/-- A builder call on a `StringSchema` as far as the rule list is concerned: an
absence call, `PrependTransform(f)`, or `Transform(f)`, through which every
other builder method (`Set`, `Check`, `Convert`, `When`, `Custom` and the
methods built on them) appends its rule. -/
inductive BuilderCall where
  | absence (a : AbsenceOp) : BuilderCall
  | prependTransform (f : Rule) : BuilderCall
  | transform (f : Rule) : BuilderCall

/-- The schema a builder call returns. -/
def BuilderCall.apply (s : StringSchema) : BuilderCall → StringSchema
  | .absence .required => s.Required
  | .absence .optional => s.Optional
  | .absence (.default value) => s.Default value
  | .prependTransform f => s.PrependTransform f
  | .transform f => s.Transform f

/-- The schema a chain of builder calls returns, starting from `s`. -/
def buildString (s : StringSchema) (calls : List BuilderCall) : StringSchema :=
  calls.foldl BuilderCall.apply s

/-- The builder calls that prepend an absence rule on a schema whose `Default`
takes a value of type `α`: `Required()`, `Optional()` and `Default(value)`. -/
inductive AbsenceCall (α : Type) where
  | required : AbsenceCall α
  | optional : AbsenceCall α
  | default (value : α) : AbsenceCall α

/-- The rule an absence call prepends; `toValue` is the conversion of the
argument of `Default` to `interface{}`. -/
def AbsenceCall.rule {α : Type} (toValue : α → Value) : AbsenceCall α → Rule
  | .required => requiredRule
  | .optional => optionalRule
  | .default value => defaultRule (toValue value)

/-- A builder call on a number, array or object schema as far as the rule list
is concerned: an absence call, `PrependTransform(f)`, or `Transform(f)`, through
which every other builder method appends its rule. -/
inductive SchemaCall (α : Type) where
  | absence (a : AbsenceCall α) : SchemaCall α
  | prependTransform (f : Rule) : SchemaCall α
  | transform (f : Rule) : SchemaCall α

/-- The number schema a builder call returns. -/
def SchemaCall.applyNumber (n : NumberSchema) : SchemaCall Float64 → NumberSchema
  | .absence .required => n.Required
  | .absence .optional => n.Optional
  | .absence (.default value) => n.Default value
  | .prependTransform f => n.PrependTransform f
  | .transform f => n.Transform f

/-- The array schema a builder call returns. -/
def SchemaCall.applyArray (a : ArraySchema) : SchemaCall Value → ArraySchema
  | .absence .required => a.Required
  | .absence .optional => a.Optional
  | .absence (.default value) => a.Default value
  | .prependTransform f => a.PrependTransform f
  | .transform f => a.Transform f

/-- The object schema a builder call returns. -/
def SchemaCall.applyObject (o : ObjectSchema) : SchemaCall Addr → ObjectSchema
  | .absence .required => o.Required
  | .absence .optional => o.Optional
  | .absence (.default value) => o.Default value
  | .prependTransform f => o.PrependTransform f
  | .transform f => o.Transform f

/-- The number schema a chain of builder calls returns, starting from `n`. -/
def buildNumber (n : NumberSchema) (calls : List (SchemaCall Float64)) : NumberSchema :=
  calls.foldl SchemaCall.applyNumber n

/-- The array schema a chain of builder calls returns, starting from `a`. -/
def buildArray (a : ArraySchema) (calls : List (SchemaCall Value)) : ArraySchema :=
  calls.foldl SchemaCall.applyArray a

/-- The object schema a chain of builder calls returns, starting from `o`. -/
def buildObject (o : ObjectSchema) (calls : List (SchemaCall Addr)) : ObjectSchema :=
  calls.foldl SchemaCall.applyObject o

/-- A rule or a sub-schema that keeps to the contract of rule steps as far as
the bag is concerned (a rule step may "append to ErrorBag"): every entry of the
bag before the call is an entry of the bag after it. -/
def keepsErrors (f : State → State) : Prop :=
  ∀ (s : State) (x : FieldError), x ∈ s.ctx.ErrorBag.m → x ∈ (f s).ctx.ErrorBag.m

/-! ## Sample states and schemas used by the closed statements -/

/-- A heap whose maps are all empty. -/
def emptyHeap : Heap := fun _ _ => none

/-- A context for the value `v` at the path `name`, with a new error bag. -/
def sampleState (v : Value) : State :=
  ⟨⟨v, ["name"], v, .null, .null, NewErrorBag, false⟩, emptyHeap, 0⟩

/-- A rule that replaces the value by the string `changed`. -/
def markRule : Rule := fun st => { st with ctx := { st.ctx with Value := .str "changed" } }

/-- A context for the string `abc` at the path `name` whose bag already holds
an error reported for another field. -/
def stateWithOldError : State :=
  ⟨⟨.str "abc", ["name"], .null, .null, .null, ⟨[⟨"other", ⟨0, "is required"⟩⟩], ""⟩, false⟩,
    emptyHeap, 1⟩

/-- A key map with the keys `b` (a string schema of priority 0) and `a` (a
string schema of priority 10), visited by `range` in that order. -/
def sampleKeys : K :=
  [("b", jioString.toSchema), ("a", (jioString.SetPriority 10).toSchema)]

/-- A heap whose map at address 0 is `{"b": "X"}`; the other maps are empty. -/
def docHeap : Heap := fun a =>
  if a = 0 then fun key => if key = "b" then some (.str "X") else none else fun _ => none

/-- A top-level context for the map at address 0 of `docHeap`. -/
def docState : State :=
  ⟨⟨.map 0, [], .map 0, .null, .null, NewErrorBag, false⟩, docHeap, 0⟩

/-- The key map `{"a": String().SetPriority(1).Required(), "b": String().Set("x")}`. -/
def requiredFirstKeys : K :=
  [("b", (jioString.Set "x").toSchema), ("a", (jioString.SetPriority 1).Required.toSchema)]

/-- A heap whose map at address 0 is `{"a": 1}`; the other maps are empty. -/
def oneKeyHeap : Heap := fun a =>
  if a = 0 then fun key => if key = "a" then some (.float 1) else none else fun _ => none

/-- A top-level context for the map at address 0 of `oneKeyHeap`, at the path
`name`. -/
def oneKeyState : State :=
  ⟨⟨.map 0, ["name"], .map 0, .null, .null, NewErrorBag, false⟩, oneKeyHeap, 0⟩

/-- A context for the string `abc` at the path `name` with a new error bag, on
which `Skip()` was called before validation. -/
def stateWithSkipSet : State :=
  ⟨⟨.str "abc", ["name"], .null, .null, .null, NewErrorBag, true⟩, emptyHeap, 0⟩

/-- A heap whose map at address 0 is `{"n": "abc"}`; the other maps are empty. -/
def numberDocHeap : Heap := fun a =>
  if a = 0 then fun key => if key = "n" then some (.str "abc") else none else fun _ => none

/-- A top-level context for the map at address 0 of `numberDocHeap`, with a new
error bag. -/
def numberDocState : State :=
  ⟨⟨.map 0, [], .map 0, .null, .null, NewErrorBag, false⟩, numberDocHeap, 0⟩

/-- The key map `{"a": String().SetPriority(1).Required(), "n": Number()}`. -/
def numberKeys : K :=
  [("n", jioNumber.toSchema), ("a", (jioString.SetPriority 1).Required.toSchema)]

/-- The composite key of an object for the named fields: the concatenation of
their string values in the order given (a field that holds no string
contributes nothing). -/
def compositeKey (obj : Mapping) : List String → String
  | [] => ""
  | field :: rest =>
    (match obj field with
      | some (.str v) => v
      | _ => "") ++ compositeKey obj rest

/-- The composite keys of the elements of a sequence, in order (an element that
is not a map has the empty key). -/
def elementKeys (heap : Heap) (fields : List String) (xs : List Value) : List String :=
  xs.map fun x =>
    match x with
    | .map a => compositeKey (heap a) fields
    | _ => ""

/-- A heap with the maps `{"a": "x", "b": "yz"}` at address 0 and
`{"a": "xy", "b": "z"}` at address 1; the other maps are empty. -/
def collidingHeap : Heap := fun a =>
  if a = 0 then fun key =>
    if key = "a" then some (.str "x") else if key = "b" then some (.str "yz") else none
  else if a = 1 then fun key =>
    if key = "a" then some (.str "xy") else if key = "b" then some (.str "z") else none
  else fun _ => none

/-- A context at the path `name` for the sequence of the two maps of
`collidingHeap`. -/
def collidingState : State :=
  ⟨⟨.seq [.map 0, .map 1], ["name"], .null, .null, .null, NewErrorBag, false⟩,
    collidingHeap, 0⟩

/-- A heap with the maps `{"id": "a"}` at addresses 0 and 1, `{"id": "b"}` at
address 2, `{"name": "x"}` at address 3 and `{"id": 1}` at address 4. -/
def idHeap : Heap := fun a =>
  if a = 0 ∨ a = 1 then fun key => if key = "id" then some (.str "a") else none
  else if a = 2 then fun key => if key = "id" then some (.str "b") else none
  else if a = 3 then fun key => if key = "name" then some (.str "x") else none
  else if a = 4 then fun key => if key = "id" then some (.float 1) else none
  else fun _ => none

/-- A context at the path `name` for a sequence of maps of `idHeap`. -/
def idState (xs : List Value) : State :=
  ⟨⟨.seq xs, ["name"], .null, .null, .null, NewErrorBag, false⟩, idHeap, 0⟩

/-- A context at the path `name` for the sequence `[1]`, with a new error bag. -/
def oneItemState : State :=
  ⟨⟨.seq [.float 1], ["name"], .null, .null, .null, NewErrorBag, false⟩, emptyHeap, 0⟩

/-- Modelled from the spec: `Context.Ref` of context.go (not among the
sources) for a path of one segment.  The spec has it resolve "a path against
ParentRoot first, falling back to Root", found being "false if any path
segment is absent": the key is looked up in the anchor map, then in the root
map. -/
def refKey (st : State) (path : String) : Option Value :=
  let inRoot : Option Value :=
    match st.ctx.root with
    | .map r => st.heap r path
    | _ => none
  match st.ctx.parentRoot with
  | .map a =>
    match st.heap a path with
    | some v => some v
    | none => inRoot
  | _ => inRoot

/-- A heap whose map at address 0 is `{"type": "a", "meta": {}, "name": "x"}`,
the value of `meta` being the empty map at address 1. -/
def whenHeap : Heap := fun a =>
  if a = 0 then fun key =>
    if key = "type" then some (.str "a")
    else if key = "meta" then some (.map 1)
    else if key = "name" then some (.str "x")
    else none
  else fun _ => none

/-- The context of a top-level validation of the map at address 0 of
`whenHeap`: the path is empty. -/
def whenTopState : State :=
  ⟨⟨.map 0, [], .map 0, .null, .null, NewErrorBag, false⟩, whenHeap, 0⟩

/-- The context in which `Keys` validates the key `name` of the map at address
0 of `whenHeap`. -/
def whenNameState : State :=
  ⟨⟨.str "x", ["name"], .map 0, .map 0, .null, NewErrorBag, false⟩, whenHeap, 0⟩

/-- A stand-in for `strconv.ParseFloat` that parses the string `3.5` and
rejects every other string. -/
def sampleParseFloat (v : String) : Option Float64 :=
  if v = "3.5" then some (7 / 2) else none

/-- The state of a top-level validation of `v`: a new context, no maps in the
heap, no error allocated yet. -/
def freshState (v : Value) : State := ⟨NewContext v, emptyHeap, 0⟩

/-- A heap whose map at address 0 is `{"a": 1, "b": 2}`; the other maps are
empty. -/
def twoKeyHeap : Heap := fun a =>
  if a = 0 then fun key =>
    if key = "a" then some (.float 1) else if key = "b" then some (.float 2) else none
  else fun _ => none

/-- A top-level context for the map at address 0 of `twoKeyHeap`, at the path
`name`. -/
def twoKeyState : State :=
  ⟨⟨.map 0, ["name"], .map 0, .null, .null, NewErrorBag, false⟩, twoKeyHeap, 0⟩

/-- The context of a top-level validation of the empty map at address 0. -/
def emptyMapState : State :=
  ⟨⟨.map 0, [], .map 0, .null, .null, NewErrorBag, false⟩, emptyHeap, 0⟩

/-- A heap with the maps `{"a": "x", "b": "yz"}` at address 0 and
`{"a": "x", "b": "y"}` at address 1; the other maps are empty. -/
def distinctHeap : Heap := fun a =>
  if a = 0 then fun key =>
    if key = "a" then some (.str "x") else if key = "b" then some (.str "yz") else none
  else if a = 1 then fun key =>
    if key = "a" then some (.str "x") else if key = "b" then some (.str "y") else none
  else fun _ => none

/-- A context at the path `name` for the sequence of the two maps of
`distinctHeap`. -/
def distinctState : State :=
  ⟨⟨.seq [.map 0, .map 1], ["name"], .null, .null, .null, NewErrorBag, false⟩,
    distinctHeap, 0⟩

/-- A heap whose map at address 0 is `{"type": "a", "list": [1]}`; the other
maps are empty. -/
def listDocHeap : Heap := fun a =>
  if a = 0 then fun key =>
    if key = "type" then some (.str "a")
    else if key = "list" then some (.seq [.float 1])
    else none
  else fun _ => none

/-- The context in which `Keys` validates the key `list` of the map at address
0 of `listDocHeap`. -/
def listKeyState : State :=
  ⟨⟨.seq [.float 1], ["list"], .map 0, .map 0, .null, NewErrorBag, false⟩, listDocHeap, 0⟩

/-- The state `listKeyState` once `When` has set its template on the bag. -/
def listTemplateState : State := listKeyState.setTemplate "%s when list = a"

/-- A heap whose map at address 0 is `{"s": 5, "n": "abc", "t": 7}`; the other
maps are empty. -/
def mixedDocHeap : Heap := fun a =>
  if a = 0 then fun key =>
    if key = "s" then some (.float 5)
    else if key = "n" then some (.str "abc")
    else if key = "t" then some (.float 7)
    else none
  else fun _ => none

/-- A top-level context for the map at address 0 of `mixedDocHeap`, with a new
error bag. -/
def mixedDocState : State :=
  ⟨⟨.map 0, [], .map 0, .null, .null, NewErrorBag, false⟩, mixedDocHeap, 0⟩

/-- The key map `{"s": String().SetPriority(1), "n": Number()}`. -/
def stringThenNumberKeys : K :=
  [("n", jioNumber.toSchema), ("s", (jioString.SetPriority 1).toSchema)]

/-- The key map `{"n": Number()}`. -/
def onlyNumberKeys : K := [("n", jioNumber.toSchema)]

/-- The key map `{"s": String().SetPriority(1), "t": String()}`. -/
def twoStringKeys : K :=
  [("t", jioString.toSchema), ("s", (jioString.SetPriority 1).toSchema)]

/-- The tables of package `unicode` on the ASCII runes, every other rune being
left as it is and not a space: the letters `A` to `Z` and `a` to `z` are 32
apart, the spaces are the blank and the runes 9 to 13. -/
def asciiTables : UnicodeTables where
  ToLower := fun c => if 65 ≤ c.toNat ∧ c.toNat ≤ 90 then Char.ofNat (c.toNat + 32) else c
  ToUpper := fun c => if 97 ≤ c.toNat ∧ c.toNat ≤ 122 then Char.ofNat (c.toNat - 32) else c
  IsSpace := fun c => decide (c.toNat = 32 ∨ (9 ≤ c.toNat ∧ c.toNat ≤ 13))

/-! ## Decidable equality of values -/

mutual
theorem Value.beq_iff : ∀ a b : Value, Value.beq a b = true ↔ a = b
  | .seq a, .seq b => by
      have := Value.beqList_iff a b
      simp [Value.beq, this]
  | .null, b => by cases b <;> simp [Value.beq]
  | .bool _, b => by cases b <;> simp [Value.beq]
  | .int _, b => by cases b <;> simp [Value.beq]
  | .float _, b => by cases b <;> simp [Value.beq]
  | .str _, b => by cases b <;> simp [Value.beq]
  | .map _, b => by cases b <;> simp [Value.beq]
  | .seq _, .null => by simp [Value.beq]
  | .seq _, .bool _ => by simp [Value.beq]
  | .seq _, .int _ => by simp [Value.beq]
  | .seq _, .float _ => by simp [Value.beq]
  | .seq _, .str _ => by simp [Value.beq]
  | .seq _, .map _ => by simp [Value.beq]
theorem Value.beqList_iff : ∀ a b : List Value, Value.beqList a b = true ↔ a = b
  | [], [] => by simp [Value.beqList]
  | [], _ :: _ => by simp [Value.beqList]
  | _ :: _, [] => by simp [Value.beqList]
  | a :: as, b :: bs => by
      have h1 := Value.beq_iff a b
      have h2 := Value.beqList_iff as bs
      simp [Value.beqList, h1, h2]
end

instance : DecidableEq Value := fun a b => decidable_of_iff _ (Value.beq_iff a b)

/-! ## Lemmas on the context operations -/

theorem abortWith_NewError (st : State) (msg : String) :
    abortWith (fun s => NewError s msg) st = abortedState st msg := by
  unfold abortWith Context.Abort NewError ErrorBag.Add applyErrorMessageTemplate abortedState
    reportedError
  by_cases h : st.ctx.ErrorBag.tmpl = "" <;> simp [h, Context.FieldPath]

theorem mapInsert_fresh (st : State) (msg : String) (h : st.fresh) :
    mapInsert st.ctx.ErrorBag.m (reportedError st msg)
      = st.ctx.ErrorBag.m ++ [reportedError st msg] := by
  unfold mapInsert
  have hn : reportedError st msg ∉ st.ctx.ErrorBag.m := by
    intro hmem
    have := h _ hmem
    unfold reportedError at this
    split at this <;> simp at this
  simp [hn]

theorem mem_mapInsert (m : List FieldError) (e x : FieldError) :
    x ∈ mapInsert m e ↔ x ∈ m ∨ x = e := by
  unfold mapInsert
  split
  · rename_i h
    constructor
    · exact Or.inl
    · rintro (hx | hx)
      · exact hx
      · exact hx ▸ h
  · simp

theorem runRules_cons_skip (rule : Rule) (rest : List Rule) (st : State)
    (h : (rule st).ctx.skip = true) : runRules (rule :: rest) st = rule st := by
  simp [runRules, h]

theorem numberRunRules_cons_skip (rule : Rule) (rest : List Rule) (st : State)
    (h : (rule st).ctx.skip = true) : NumberSchema.runRules (rule :: rest) st = rule st := by
  simp [NumberSchema.runRules, h]

theorem requiredRule_null (st : State) (h : st.ctx.Value = .null) :
    requiredRule st = abortedState st ErrorMessageRequired := by
  unfold requiredRule
  rw [h]
  exact abortWith_NewError st ErrorMessageRequired

theorem optionalRule_null (st : State) (h : st.ctx.Value = .null) :
    optionalRule st = Context.Skip st := by
  unfold optionalRule
  rw [h]

theorem abortedState_bag_fresh (st : State) (msg : String) (h : st.fresh) :
    (abortedState st msg).ctx.ErrorBag.m = st.ctx.ErrorBag.m ++ [reportedError st msg] :=
  mapInsert_fresh st msg h

theorem reportedError_plain (st : State) (msg : String) (h : st.ctx.ErrorBag.tmpl = "") :
    reportedError st msg = ⟨st.ctx.FieldPath, ⟨st.nextErr, msg⟩⟩ := by
  simp [reportedError, h]

theorem reportedError_Field (st : State) (msg : String) :
    (reportedError st msg).Field = st.ctx.FieldPath := by
  unfold reportedError
  split <;> rfl

/-! ## Absence rules and type checks of `Validate` -/

/-- C1: on a schema of any of the four variants whose first rule is the one
`Required()` prepends (and whose tri-state is "required"), validating `nil` in a
context with an empty bag ends in the state `Abort(ErrorRequired(ctx))` leaves,
whatever the other rules are: the bag holds exactly one entry, the Required
error at the field path, `skip` is set, the value is still `nil`, and the
schema is unchanged. -/
theorem required_null_one_error (p : Int) (rest : List Rule) (st : State)
    (hnull : st.ctx.Value = .null) (hempty : st.ctx.ErrorBag.m = []) :
    (StringSchema.Validate ⟨p, some true, requiredRule :: rest⟩ st
        = (⟨p, some true, requiredRule :: rest⟩, abortedState st ErrorMessageRequired)
      ∧ NumberSchema.Validate ⟨p, some true, requiredRule :: rest⟩ st
        = (⟨p, some true, requiredRule :: rest⟩, abortedState st ErrorMessageRequired)
      ∧ ArraySchema.Validate ⟨p, some true, requiredRule :: rest⟩ st
        = (⟨p, some true, requiredRule :: rest⟩, abortedState st ErrorMessageRequired)
      ∧ ObjectSchema.Validate ⟨p, some true, requiredRule :: rest⟩ st
        = (⟨p, some true, requiredRule :: rest⟩, abortedState st ErrorMessageRequired))
    ∧ (abortedState st ErrorMessageRequired).ctx.ErrorBag.m
        = [reportedError st ErrorMessageRequired]
    ∧ (reportedError st ErrorMessageRequired).Field = st.ctx.FieldPath
    ∧ (st.ctx.ErrorBag.tmpl = "" →
        (abortedState st ErrorMessageRequired).ctx.ErrorBag.m
          = [⟨st.ctx.FieldPath, ⟨st.nextErr, "is required"⟩⟩])
    ∧ (abortedState st ErrorMessageRequired).ctx.skip = true
    ∧ (abortedState st ErrorMessageRequired).ctx.Value = .null := by
  have hr := requiredRule_null st hnull
  have hs : (requiredRule st).ctx.skip = true := by rw [hr]; rfl
  refine ⟨⟨?_, ?_, ?_, ?_⟩, ?_, reportedError_Field st _, ?_, rfl, hnull⟩
  · simp only [StringSchema.Validate, hnull]
    simp [runRules_cons_skip _ _ _ hs, hr]
  · simp only [NumberSchema.Validate, hnull]
    simp [numberRunRules_cons_skip _ _ _ hs, hr]
  · simp only [ArraySchema.Validate, hnull]
    simp [runRules_cons_skip _ _ _ hs, hr]
  · simp only [ObjectSchema.Validate, hnull]
    simp [runRules_cons_skip _ _ _ hs, hr]
  · simp [abortedState, hempty, mapInsert]
  · intro ht
    simp [abortedState, hempty, mapInsert, reportedError, ht, ErrorMessageRequired]

/-- Witness of C1: a required string schema with a further rule, on `nil` at
the path `name`: one error, `name is required`, and the further rule not run. -/
theorem required_null_one_error_witness :
    ((sampleState .null).ctx.Value = .null ∧ (sampleState .null).ctx.ErrorBag.m = [])
    ∧ (StringSchema.Validate ⟨0, some true, requiredRule :: [markRule]⟩ (sampleState .null)).2
        = abortedState (sampleState .null) ErrorMessageRequired
    ∧ (abortedState (sampleState .null) ErrorMessageRequired).ctx.ErrorBag.m
        = [⟨"name", ⟨0, "is required"⟩⟩] :=
  ⟨⟨rfl, rfl⟩,
   congrArg Prod.snd (required_null_one_error 0 [markRule] (sampleState .null) rfl rfl).1.1,
   (required_null_one_error 0 [markRule] (sampleState .null) rfl rfl).2.2.2.1 rfl⟩

/-- C2: on a schema of any of the four variants whose first rule is the one
`Optional()` prepends, or on which none of `Required`, `Optional`, `Default`
was called (the tri-state is still unset, whatever its rules are), validating
`nil` ends in the state `Skip()` leaves, whatever the other rules are: the
bag is the one before the call, the value is still `nil`, `skip` is set. -/
theorem optional_null_skips (p : Int) (rest rules : List Rule) (st : State)
    (hnull : st.ctx.Value = .null) :
    ((StringSchema.Validate ⟨p, some false, optionalRule :: rest⟩ st).2 = Context.Skip st
      ∧ (NumberSchema.Validate ⟨p, some false, optionalRule :: rest⟩ st).2 = Context.Skip st
      ∧ (ArraySchema.Validate ⟨p, some false, optionalRule :: rest⟩ st).2 = Context.Skip st
      ∧ (ObjectSchema.Validate ⟨p, some false, optionalRule :: rest⟩ st).2 = Context.Skip st)
    ∧ ((StringSchema.Validate ⟨p, none, rules⟩ st).2 = Context.Skip st
      ∧ (NumberSchema.Validate ⟨p, none, rules⟩ st).2 = Context.Skip st
      ∧ (ArraySchema.Validate ⟨p, none, rules⟩ st).2 = Context.Skip st
      ∧ (ObjectSchema.Validate ⟨p, none, rules⟩ st).2 = Context.Skip st)
    ∧ (Context.Skip st).ctx.ErrorBag = st.ctx.ErrorBag
    ∧ (Context.Skip st).ctx.Value = .null
    ∧ (Context.Skip st).ctx.skip = true := by
  have hr := optionalRule_null st hnull
  have hs : (optionalRule st).ctx.skip = true := by rw [hr]; rfl
  refine ⟨⟨?_, ?_, ?_, ?_⟩, ⟨?_, ?_, ?_, ?_⟩, rfl, hnull, rfl⟩
  · simp only [StringSchema.Validate, hnull]
    simp [runRules_cons_skip _ _ _ hs, hr]
  · simp only [NumberSchema.Validate, hnull]
    simp [numberRunRules_cons_skip _ _ _ hs, hr]
  · simp only [ArraySchema.Validate, hnull]
    simp [runRules_cons_skip _ _ _ hs, hr]
  · simp only [ObjectSchema.Validate, hnull]
    simp [runRules_cons_skip _ _ _ hs, hr]
  · simp only [StringSchema.Validate, hnull]
    simp [StringSchema.Optional, StringSchema.PrependTransform, runRules_cons_skip _ _ _ hs, hr]
  · simp only [NumberSchema.Validate, hnull]
    simp [NumberSchema.Optional, NumberSchema.PrependTransform,
      numberRunRules_cons_skip _ _ _ hs, hr]
  · simp only [ArraySchema.Validate, hnull]
    simp [ArraySchema.Optional, ArraySchema.PrependTransform, runRules_cons_skip _ _ _ hs, hr]
  · simp only [ObjectSchema.Validate, hnull]
    simp [ObjectSchema.Optional, ObjectSchema.PrependTransform, runRules_cons_skip _ _ _ hs, hr]

/-- Witness of C2: an unconfigured object schema with one rule, on `nil`: the
bag stays empty and the rule is not run. -/
theorem optional_null_skips_witness :
    (sampleState .null).ctx.Value = .null
    ∧ (ObjectSchema.Validate ⟨0, none, [markRule]⟩ (sampleState .null)).2
        = Context.Skip (sampleState .null)
    ∧ (Context.Skip (sampleState .null)).ctx.ErrorBag.m = [] :=
  ⟨rfl, (optional_null_skips 0 [] [markRule] (sampleState .null) rfl).2.1.2.2.2, rfl⟩

/-- C3: for a string, array or object schema with any rules and a value that is
not `nil` and not of the schema's native kind, `Validate` ends in the state
`Abort` leaves for the schema's type error and leaves the schema as it was; no
rule contributes.  In that state the bag is the old bag with the type error at
the field path inserted (appended when the bag's errors are older than the
allocation counter), `skip` is set, value, path and heap are as before. -/
theorem type_mismatch_aborts (p : Int) (req : Option Bool) (rules : List Rule) (st : State)
    (hpresent : st.ctx.Value ≠ .null) :
    (st.ctx.Value.kind ≠ Kind.String →
        StringSchema.Validate ⟨p, req, rules⟩ st
          = (⟨p, req, rules⟩, abortedState st ErrorMessageTypeString))
    ∧ (st.ctx.Value.kind ≠ Kind.Slice →
        ArraySchema.Validate ⟨p, req, rules⟩ st
          = (⟨p, req, rules⟩, abortedState st ErrorMessageTypeArray))
    ∧ (st.ctx.Value.kind ≠ Kind.Map →
        ObjectSchema.Validate ⟨p, req, rules⟩ st
          = (⟨p, req, rules⟩, abortedState st ErrorMessageTypeObject))
    ∧ (∀ msg : String,
        (abortedState st msg).ctx.ErrorBag.m
            = mapInsert st.ctx.ErrorBag.m (reportedError st msg)
        ∧ (st.fresh → (abortedState st msg).ctx.ErrorBag.m
            = st.ctx.ErrorBag.m ++ [reportedError st msg])
        ∧ (reportedError st msg).Field = st.ctx.FieldPath
        ∧ (st.ctx.ErrorBag.tmpl = "" →
            reportedError st msg = ⟨st.ctx.FieldPath, ⟨st.nextErr, msg⟩⟩)
        ∧ (abortedState st msg).ctx.skip = true
        ∧ (abortedState st msg).ctx.Value = st.ctx.Value
        ∧ (abortedState st msg).ctx.fields = st.ctx.fields
        ∧ (abortedState st msg).heap = st.heap) := by
  refine ⟨?_, ?_, ?_, ?_⟩
  · intro hk
    unfold StringSchema.Validate
    cases hv : st.ctx.Value <;> simp_all [Value.kind] <;>
      exact abortWith_NewError st ErrorMessageTypeString
  · intro hk
    unfold ArraySchema.Validate
    cases hv : st.ctx.Value <;> simp_all [Value.kind, Context.AssertKind] <;>
      exact abortWith_NewError st ErrorMessageTypeArray
  · intro hk
    unfold ObjectSchema.Validate
    cases hv : st.ctx.Value <;> simp_all [Value.kind] <;>
      exact abortWith_NewError st ErrorMessageTypeObject
  · intro msg
    exact ⟨rfl, abortedState_bag_fresh st msg, reportedError_Field st msg,
      reportedError_plain st msg, rfl, rfl, rfl, rfl⟩

/-- Witness of C3: a string schema with a rule, on the number 5 at the path
`name`: the bag holds `name must be a string` and the rule is not run. -/
theorem type_mismatch_aborts_witness :
    (sampleState (.float 5)).ctx.Value ≠ .null
    ∧ (StringSchema.Validate ⟨0, none, [markRule]⟩ (sampleState (.float 5))).2.ctx.ErrorBag.m
        = [⟨"name", ⟨0, "must be a string"⟩⟩]
    ∧ (StringSchema.Validate ⟨0, none, [markRule]⟩ (sampleState (.float 5))).2.ctx.Value
        = .float 5 := by
  have h := type_mismatch_aborts 0 none [markRule] (sampleState (.float 5)) (by decide)
  have h1 := h.1 (by decide)
  refine ⟨by decide, ?_, ?_⟩
  · rw [h1]; rfl
  · rw [h1]; rfl

/-! ## The final type check of `NumberSchema.Validate` -/

theorem absenceRule_present (rule : Rule) (st : State)
    (hrule : rule = requiredRule ∨ rule = optionalRule) (hpresent : st.ctx.Value ≠ .null) :
    rule st = st := by
  rcases hrule with h | h <;> subst h
  · unfold requiredRule
    split
    · rename_i hv; exact absurd hv hpresent
    · rfl
  · unfold optionalRule
    split
    · rename_i hv; exact absurd hv hpresent
    · rfl

theorem numberRunRules_absence (rules : List Rule) (st : State)
    (hrules : ∀ rule ∈ rules, rule = requiredRule ∨ rule = optionalRule)
    (hpresent : st.ctx.Value ≠ .null) (hskip : st.ctx.skip = false) :
    NumberSchema.runRules rules st = NumberSchema.finish st := by
  induction rules with
  | nil => rfl
  | cons rule rest ih =>
    have h1 := absenceRule_present rule st (hrules rule (List.mem_cons_self _ _)) hpresent
    simp only [NumberSchema.runRules, h1, hskip]
    exact ih (fun r hr => hrules r (List.mem_cons_of_mem _ hr))

/-- C4, counterexample: `Number()` validating the string `abc` in a context
whose bag already holds an error records no type error: the bag is unchanged
and `skip` is not set.  The same happens with `Number().Required()`.  Such a
context arises from a new one: `Keys` on the map `{"n": "abc"}` with the keys
`a` (required string, priority 1, absent) and `n` (`Number()`) ends with the
single error `a is required`.  Nothing is recorded either in a context with
an empty bag whose `skip` flag is already set. -/
theorem number_type_error_not_recorded :
    (NumberSchema.Validate jioNumber stateWithOldError).2.ctx.ErrorBag.m
        = [⟨"other", ⟨0, "is required"⟩⟩]
    ∧ (NumberSchema.Validate jioNumber stateWithOldError).2.ctx.skip = false
    ∧ (NumberSchema.Validate jioNumber.Required stateWithOldError).2.ctx.ErrorBag.m
        = [⟨"other", ⟨0, "is required"⟩⟩]
    ∧ (keysRule numberKeys numberDocState).ctx.ErrorBag.m = [⟨"a", ⟨0, "is required"⟩⟩]
    ∧ (NumberSchema.Validate jioNumber stateWithSkipSet).2.ctx.ErrorBag.m = [] := by
  refine ⟨rfl, rfl, rfl, by decide, rfl⟩

/-- C4 as amended: for a number schema whose rules are only those of
`Required()` and `Optional()`, a context whose `skip` flag is clear and a
present value that is neither a `float64` nor an `int` (a string, boolean,
sequence or mapping): when the bag is empty, `Validate` ends in the state
`Abort` leaves for the number type error at the field path; when the bag
already holds an error, `Validate` leaves the context as it was. -/
theorem number_type_error_when_bag_empty (p : Int) (req : Option Bool) (rules : List Rule)
    (st : State)
    (hrules : ∀ rule ∈ rules, rule = requiredRule ∨ rule = optionalRule)
    (hpresent : st.ctx.Value ≠ .null)
    (hint : st.ctx.Value.kind ≠ Kind.Int) (hfloat : st.ctx.Value.kind ≠ Kind.Float64)
    (hskip : st.ctx.skip = false) :
    (st.ctx.ErrorBag.m = [] →
        (NumberSchema.Validate ⟨p, req, rules⟩ st).2 = abortedState st ErrorMessageTypeNumber
        ∧ (abortedState st ErrorMessageTypeNumber).ctx.ErrorBag.m
            = [reportedError st ErrorMessageTypeNumber]
        ∧ (reportedError st ErrorMessageTypeNumber).Field = st.ctx.FieldPath
        ∧ (st.ctx.ErrorBag.tmpl = "" → reportedError st ErrorMessageTypeNumber
            = ⟨st.ctx.FieldPath, ⟨st.nextErr, "must be a number"⟩⟩))
    ∧ (st.ctx.ErrorBag.m ≠ [] → (NumberSchema.Validate ⟨p, req, rules⟩ st).2 = st) := by
  have hrules2 : ∀ rule ∈ (if req = none then NumberSchema.Optional ⟨p, req, rules⟩
      else ⟨p, req, rules⟩).rules, rule = requiredRule ∨ rule = optionalRule := by
    intro rule hmem
    split at hmem
    · simp only [NumberSchema.Optional, NumberSchema.PrependTransform, List.singleton_append,
        List.mem_cons] at hmem
      rcases hmem with h | h
      · exact Or.inr h
      · exact hrules rule h
    · exact hrules rule hmem
  have hrun : (NumberSchema.Validate ⟨p, req, rules⟩ st).2 = NumberSchema.finish st := by
    unfold NumberSchema.Validate
    cases hv : st.ctx.Value with
    | int n => simp [hv, Value.kind] at hint
    | _ =>
      simp only
      exact numberRunRules_absence _ st hrules2 hpresent hskip
  refine ⟨?_, ?_⟩
  · intro hempty
    refine ⟨?_, ?_, reportedError_Field st _, ?_⟩
    · rw [hrun]
      unfold NumberSchema.finish
      cases hv : st.ctx.Value with
      | float x => simp [hv, Value.kind] at hfloat
      | _ =>
        simp only [ErrorBag.Empty, hempty, List.length_nil, beq_self_eq_true, if_true]
        exact abortWith_NewError st ErrorMessageTypeNumber
    · simp [abortedState, hempty, mapInsert]
    · intro ht
      simp [reportedError, ht, ErrorMessageTypeNumber, ErrorMessageType]
  · intro hne
    rw [hrun]
    unfold NumberSchema.finish
    have : st.ctx.ErrorBag.Empty = false := by
      cases hm : st.ctx.ErrorBag.m with
      | nil => exact absurd hm hne
      | cons e es => simp [ErrorBag.Empty, hm]
    simp [this]

/-- Witness of C4 as amended: `Number().Required()` on the string `abc` with an
empty bag records `name must be a number`. -/
theorem number_type_error_when_bag_empty_witness :
    ((sampleState (.str "abc")).ctx.Value ≠ .null
      ∧ (sampleState (.str "abc")).ctx.Value.kind ≠ Kind.Int
      ∧ (sampleState (.str "abc")).ctx.Value.kind ≠ Kind.Float64
      ∧ (sampleState (.str "abc")).ctx.skip = false)
    ∧ (NumberSchema.Validate ⟨0, some true, [requiredRule]⟩ (sampleState (.str "abc"))).2
        = abortedState (sampleState (.str "abc")) ErrorMessageTypeNumber
    ∧ (abortedState (sampleState (.str "abc")) ErrorMessageTypeNumber).ctx.ErrorBag.m
        = [⟨"name", ⟨0, "must be a number"⟩⟩] :=
  ⟨⟨by decide, by decide, by decide, rfl⟩,
   ((number_type_error_when_bag_empty 0 (some true) [requiredRule] (sampleState (.str "abc"))
      (by simp) (by decide) (by decide) (by decide) rfl).1 rfl).1,
   rfl⟩

/-! ## String lengths -/

/-- C5, the code at the failing input: the string `é` has one character and two
bytes; `Length(1)` rejects it with the message `must have exactly 1 character`,
`Max(1)` rejects it, and `Min(2)` accepts it. -/
theorem string_length_counts_bytes :
    "é".length = 1 ∧ "é".utf8ByteSize = 2
    ∧ (StringSchema.Validate (jioString.Length 1) (sampleState (.str "é"))).2.ctx.ErrorBag.m
        = [⟨"name", ⟨0, "must have exactly 1 character"⟩⟩]
    ∧ (StringSchema.Validate (jioString.Max 1) (sampleState (.str "é"))).2.ctx.ErrorBag.m ≠ []
    ∧ (StringSchema.Validate (jioString.Min 2) (sampleState (.str "é"))).2.ctx.ErrorBag.m = [] := by
  refine ⟨by decide, by decide, by decide, by decide, by decide⟩

/-! ## `K.sort` and the order of the loop of `Keys` -/

theorem insertLess_perm {α : Type} (less : α → α → Bool) (x : α) (l : List α) :
    (insertLess less x l).Perm (x :: l) := by
  induction l with
  | nil => exact List.Perm.refl _
  | cons y ys ih =>
    unfold insertLess
    split
    · exact List.Perm.refl _
    · exact (List.Perm.cons y ih).trans (List.Perm.swap x y ys)

theorem foldl_insertLess_perm {α : Type} (less : α → α → Bool) (xs acc : List α) :
    (xs.foldl (fun acc x => insertLess less x acc) acc).Perm (xs ++ acc) := by
  induction xs generalizing acc with
  | nil => exact List.Perm.refl _
  | cons x xs ih =>
    simp only [List.foldl_cons, List.cons_append]
    refine (ih (insertLess less x acc)).trans ?_
    refine (List.Perm.append_left xs (insertLess_perm less x acc)).trans ?_
    exact List.perm_middle

theorem sortSlice_perm {α : Type} (less : α → α → Bool) (xs : List α) :
    (sortSlice less xs).Perm xs := by
  have h := foldl_insertLess_perm less xs []
  simpa [sortSlice] using h

theorem insertLess_sorted {α : Type} (f : α → Int) (x : α) (l : List α)
    (h : l.Pairwise (fun a b => f a ≥ f b)) :
    (insertLess (fun a b => decide (f a > f b)) x l).Pairwise (fun a b => f a ≥ f b) := by
  induction l with
  | nil => simp [insertLess]
  | cons y ys ih =>
    rw [List.pairwise_cons] at h
    unfold insertLess
    split
    · rename_i hlt
      have hxy : f x > f y := by simpa using hlt
      refine List.Pairwise.cons ?_ (List.Pairwise.cons h.1 h.2)
      intro b hb
      rcases List.mem_cons.mp hb with hb | hb
      · subst hb; exact le_of_lt hxy
      · exact le_trans (h.1 b hb) (le_of_lt hxy)
    · rename_i hge
      have hyx : f y ≥ f x := by
        have : ¬ f x > f y := by simpa using hge
        exact not_lt.mp this
      refine List.Pairwise.cons ?_ (ih h.2)
      intro b hb
      have hb2 : b ∈ x :: ys := (insertLess_perm _ x ys).subset hb
      rcases List.mem_cons.mp hb2 with hb3 | hb3
      · subst hb3; exact hyx
      · exact h.1 b hb3

theorem sortSlice_sorted {α : Type} (f : α → Int) (xs : List α) :
    (sortSlice (fun a b => decide (f a > f b)) xs).Pairwise (fun a b => f a ≥ f b) := by
  have key : ∀ (ys acc : List α), acc.Pairwise (fun a b => f a ≥ f b) →
      (ys.foldl (fun acc x => insertLess (fun a b => decide (f a > f b)) x acc) acc).Pairwise
        (fun a b => f a ≥ f b) := by
    intro ys
    induction ys with
    | nil => intro acc h; exact h
    | cons y ys ih =>
      intro acc h
      exact ih _ (insertLess_sorted f y acc h)
  exact key xs [] List.Pairwise.nil

theorem keysLoop_append (a : Addr) (fields : List String) (l1 l2 : List objectItem)
    (st : State) :
    keysLoop a fields (l1 ++ l2) st = keysLoop a fields l2 (keysLoop a fields l1 st) := by
  induction l1 generalizing st with
  | nil => rfl
  | cons obj rest ih => exact ih _

theorem sorted_split {α : Type} (f : α → Int) (l : List α) (x y : α)
    (hsorted : l.Pairwise (fun a b => f a ≥ f b)) (hx : x ∈ l) (hy : y ∈ l)
    (hlt : f x > f y) :
    ∃ pre mid post, l = pre ++ x :: (mid ++ y :: post) := by
  obtain ⟨pre, rest, hl⟩ := List.append_of_mem hx
  subst hl
  rw [List.pairwise_append] at hsorted
  obtain ⟨_, hrest, hcross⟩ := hsorted
  rcases List.mem_append.mp hy with hy1 | hy1
  · have := hcross y hy1 x (List.mem_cons_self _ _)
    exact absurd hlt (not_lt.mpr this)
  · rcases List.mem_cons.mp hy1 with hy2 | hy2
    · subst hy2; exact absurd hlt (lt_irrefl _)
    · obtain ⟨mid, post, hr⟩ := List.append_of_mem hy2
      exact ⟨pre, mid, post, by rw [hr]⟩

theorem K_sort_perm (k : K) : (K.sort k).Perm (k.map fun e => objectItem.mk e.1 e.2) :=
  sortSlice_perm _ _

theorem K_sort_keys_perm (k : K) : ((K.sort k).map objectItem.key).Perm (k.map Prod.fst) := by
  have h := (K_sort_perm k).map objectItem.key
  simpa [List.map_map, Function.comp_def] using h

theorem K_sort_sorted (k : K) :
    (K.sort k).Pairwise (fun x y => x.schema.Priority ≥ y.schema.Priority) :=
  sortSlice_sorted (fun x : objectItem => x.schema.Priority) _

/-- C6: for every key map (in every order of enumeration), `K.sort` returns a
permutation of the entries, so every declared key occurs as often as in the
map (once, the keys of a map being distinct), and the priorities along the
result never increase.  Hence for entries `A` and `B` of the map with
`Priority(A) > Priority(B)` the sorted list is `pre ++ A :: mid ++ B :: post`
and the loop of `Keys` runs the whole iteration of `A` (validation and
write-back) before the iterations of `mid` and then of `B`. -/
theorem keys_sorted_by_priority (k : K) :
    (K.sort k).Perm (k.map fun e => objectItem.mk e.1 e.2)
    ∧ ((K.sort k).map objectItem.key).Perm (k.map Prod.fst)
    ∧ ((k.map Prod.fst).Nodup → ((K.sort k).map objectItem.key).Nodup)
    ∧ (K.sort k).Pairwise (fun x y => x.schema.Priority ≥ y.schema.Priority)
    ∧ ∀ (keyA keyB : String) (sA sB : Schema),
        (keyA, sA) ∈ k → (keyB, sB) ∈ k → sA.Priority > sB.Priority →
        ∃ pre mid post,
          K.sort k = pre ++ objectItem.mk keyA sA :: (mid ++ objectItem.mk keyB sB :: post)
          ∧ ∀ (a : Addr) (fields : List String) (st : State),
              keysLoop a fields (K.sort k) st
                = keysLoop a fields post
                    (keysStep a fields (objectItem.mk keyB sB)
                      (keysLoop a fields mid
                        (keysStep a fields (objectItem.mk keyA sA)
                          (keysLoop a fields pre st)))) := by
  have hperm := K_sort_perm k
  have hkeys := K_sort_keys_perm k
  have hsorted := K_sort_sorted k
  refine ⟨hperm, hkeys, fun hnd => (List.Perm.nodup_iff hkeys).mpr hnd, hsorted, ?_⟩
  intro keyA keyB sA sB hA hB hlt
  have hA2 : objectItem.mk keyA sA ∈ K.sort k :=
    hperm.symm.subset (List.mem_map.mpr ⟨(keyA, sA), hA, rfl⟩)
  have hB2 : objectItem.mk keyB sB ∈ K.sort k :=
    hperm.symm.subset (List.mem_map.mpr ⟨(keyB, sB), hB, rfl⟩)
  obtain ⟨pre, mid, post, hsplit⟩ :=
    sorted_split (fun x : objectItem => x.schema.Priority) (K.sort k) _ _ hsorted hA2 hB2 hlt
  refine ⟨pre, mid, post, hsplit, ?_⟩
  intro a fields st
  rw [hsplit, keysLoop_append]
  show keysLoop a fields (mid ++ objectItem.mk keyB sB :: post) _ = _
  rw [keysLoop_append]
  rfl

/-- Witness of C6: in the sample key map the key `a` (priority 10) is sorted
before the key `b` (priority 0) although `range` visits `b` first. -/
theorem keys_sorted_by_priority_witness :
    (K.sort sampleKeys).map objectItem.key = ["a", "b"]
    ∧ ∃ pre mid post,
        K.sort sampleKeys
          = pre ++ objectItem.mk "a" (jioString.SetPriority 10).toSchema
              :: (mid ++ objectItem.mk "b" jioString.toSchema :: post) :=
  ⟨by decide,
   let ⟨pre, mid, post, h, _⟩ := (keys_sorted_by_priority sampleKeys).2.2.2.2 "a" "b"
      (jioString.SetPriority 10).toSchema jioString.toSchema
      (List.mem_cons_of_mem _ (List.mem_cons_self _ _)) (List.mem_cons_self _ _) (by decide)
   ⟨pre, mid, post, h⟩⟩

/-! ## Write-back in the loop of `Keys` -/

/-- C7, counterexample: on the map `{"b": "X"}` with the keys `a` (required,
priority 1, absent) and `b` (`String().Set("x")`), the key `a` is evaluated
first and reports `a is required`.  Validating `b` then adds no error, does not
skip and turns the value into `x`, yet the map still holds `X` under `b`. -/
theorem keys_no_write_back_after_other_error :
    (K.sort requiredFirstKeys).map objectItem.key = ["a", "b"]
    ∧ (keysStep 0 [] ⟨"a", (jioString.SetPriority 1).Required.toSchema⟩ docState).ctx.ErrorBag.m
        = [⟨"a", ⟨0, "is required"⟩⟩]
    ∧ ((jioString.Set "x").toSchema.validate
          (keysPrepare 0 [] ⟨"b", (jioString.Set "x").toSchema⟩
            (keysStep 0 [] ⟨"a", (jioString.SetPriority 1).Required.toSchema⟩
              docState))).ctx.ErrorBag.m
        = [⟨"a", ⟨0, "is required"⟩⟩]
    ∧ ((jioString.Set "x").toSchema.validate
          (keysPrepare 0 [] ⟨"b", (jioString.Set "x").toSchema⟩
            (keysStep 0 [] ⟨"a", (jioString.SetPriority 1).Required.toSchema⟩
              docState))).ctx.skip = false
    ∧ ((jioString.Set "x").toSchema.validate
          (keysPrepare 0 [] ⟨"b", (jioString.Set "x").toSchema⟩
            (keysStep 0 [] ⟨"a", (jioString.SetPriority 1).Required.toSchema⟩
              docState))).ctx.Value = .str "x"
    ∧ (keysRule requiredFirstKeys docState).heap 0 "b" = some (.str "X") := by
  refine ⟨by decide, by decide, by decide, by decide, by decide, by decide⟩

/-- C7 as amended: one iteration of the loop of `Keys`, for any key, sub-schema
and state.  If after the sub-schema's validation the bag is empty and `skip` is
clear, the resulting value is stored in the map under the key and nothing else
of the heap changes.  If the bag is not empty (whichever field put the error
there) or `skip` is set, the loop stores nothing: the heap is the one the
sub-schema left, so with a sub-schema that does not write to the heap the entry
is as it was (an absent key stays absent).  The context is in both cases the
one the sub-schema left. -/
theorem keys_write_back_iff_bag_empty (a : Addr) (fields : List String) (obj : objectItem)
    (st : State) :
    (keysStep a fields obj st).ctx = (obj.schema.validate (keysPrepare a fields obj st)).ctx
    ∧ ((obj.schema.validate (keysPrepare a fields obj st)).ctx.ErrorBag.m = []
        ∧ (obj.schema.validate (keysPrepare a fields obj st)).ctx.skip = false →
        (keysStep a fields obj st).heap a obj.key
            = some (obj.schema.validate (keysPrepare a fields obj st)).ctx.Value
        ∧ (∀ key, key ≠ obj.key → (keysStep a fields obj st).heap a key
            = (obj.schema.validate (keysPrepare a fields obj st)).heap a key)
        ∧ (∀ b, b ≠ a → (keysStep a fields obj st).heap b
            = (obj.schema.validate (keysPrepare a fields obj st)).heap b))
    ∧ ((obj.schema.validate (keysPrepare a fields obj st)).ctx.ErrorBag.m ≠ []
        ∨ (obj.schema.validate (keysPrepare a fields obj st)).ctx.skip = true →
        (keysStep a fields obj st).heap
            = (obj.schema.validate (keysPrepare a fields obj st)).heap
        ∧ ((obj.schema.validate (keysPrepare a fields obj st)).heap = st.heap →
            (keysStep a fields obj st).heap a obj.key = st.heap a obj.key)) := by
  refine ⟨?_, ?_, ?_⟩
  · unfold keysStep keysWriteBack
    split <;> rfl
  · rintro ⟨hm, hs⟩
    have hcond : ((obj.schema.validate (keysPrepare a fields obj st)).ctx.ErrorBag.Empty
        && !(obj.schema.validate (keysPrepare a fields obj st)).ctx.skip) = true := by
      simp [ErrorBag.Empty, hm, hs]
    unfold keysStep keysWriteBack
    rw [if_pos hcond]
    refine ⟨?_, ?_, ?_⟩
    · simp [Heap.store, Mapping.set]
    · intro key hk
      simp [Heap.store, Mapping.set, hk]
    · intro b hb
      simp [Heap.store, hb]
  · intro h
    have hcond : ((obj.schema.validate (keysPrepare a fields obj st)).ctx.ErrorBag.Empty
        && !(obj.schema.validate (keysPrepare a fields obj st)).ctx.skip) = false := by
      rcases h with hm | hs
      · cases hl : (obj.schema.validate (keysPrepare a fields obj st)).ctx.ErrorBag.m with
        | nil => exact absurd hl hm
        | cons e es => simp [ErrorBag.Empty, hl]
      · simp [hs]
    have hheap : (keysStep a fields obj st).heap
        = (obj.schema.validate (keysPrepare a fields obj st)).heap := by
      unfold keysStep keysWriteBack
      simp [hcond]
    exact ⟨hheap, fun hsame => by rw [hheap, hsame]⟩

/-- Witness of C7 as amended: on the map `{"b": "X"}` with an empty bag, the
iteration for the key `b` with `String().Set("x")` stores `x` under `b`; the
iteration for the absent required key `a` leaves `a` absent. -/
theorem keys_write_back_iff_bag_empty_witness :
    (keysStep 0 [] ⟨"b", (jioString.Set "x").toSchema⟩ docState).heap 0 "b" = some (.str "x")
    ∧ (keysStep 0 [] ⟨"a", jioString.Required.toSchema⟩ docState).heap 0 "a" = none :=
  ⟨((keys_write_back_iff_bag_empty 0 [] ⟨"b", (jioString.Set "x").toSchema⟩ docState).2.1
      ⟨by decide, by decide⟩).1,
   ((keys_write_back_iff_bag_empty 0 [] ⟨"a", jioString.Required.toSchema⟩ docState).2.2
      (Or.inr (by decide))).2 rfl⟩

/-! ## Every key is evaluated -/

theorem keysCalls_fst (a : Addr) (fields : List String) (l : List objectItem) (st : State) :
    (keysCalls a fields l st).map Prod.fst = l := by
  induction l generalizing st with
  | nil => rfl
  | cons obj rest ih => simp [keysCalls, ih]

theorem keysCalls_append (a : Addr) (fields : List String) (l1 l2 : List objectItem)
    (st : State) :
    keysCalls a fields (l1 ++ l2) st
      = keysCalls a fields l1 st ++ keysCalls a fields l2 (keysLoop a fields l1 st) := by
  induction l1 generalizing st with
  | nil => rfl
  | cons obj rest ih => simp [keysCalls, keysLoop, ih]

theorem keysCalls_state (a : Addr) (fields : List String) (l : List objectItem) (st : State) :
    ∀ c ∈ keysCalls a fields l st,
      c.2.ctx.skip = false ∧ c.2.ctx.fields = fields ++ [c.1.key] ∧ c.2.ctx.parent = .map a := by
  induction l generalizing st with
  | nil => intro c hc; simp [keysCalls] at hc
  | cons obj rest ih =>
    intro c hc
    simp only [keysCalls, List.mem_cons] at hc
    rcases hc with hc | hc
    · subst hc
      simp only [keysPrepare]
      split <;> simp
    · exact ih _ c hc

theorem keysStep_bag (a : Addr) (fields : List String) (obj : objectItem) (st : State) :
    (keysStep a fields obj st).ctx.ErrorBag
      = (obj.schema.validate (keysPrepare a fields obj st)).ctx.ErrorBag := by
  unfold keysStep keysWriteBack
  split <;> rfl

theorem keysPrepare_bag (a : Addr) (fields : List String) (obj : objectItem) (st : State) :
    (keysPrepare a fields obj st).ctx.ErrorBag = st.ctx.ErrorBag := by
  simp only [keysPrepare]
  split <;> rfl

theorem keysLoop_bag_mono (a : Addr) (fields : List String) (l : List objectItem)
    (hmono : ∀ obj ∈ l, ∀ (s : State) (x : FieldError),
      x ∈ s.ctx.ErrorBag.m → x ∈ (obj.schema.validate s).ctx.ErrorBag.m)
    (st : State) (x : FieldError) (hx : x ∈ st.ctx.ErrorBag.m) :
    x ∈ (keysLoop a fields l st).ctx.ErrorBag.m := by
  induction l generalizing st with
  | nil => exact hx
  | cons obj rest ih =>
    apply ih (fun o ho => hmono o (List.mem_cons_of_mem _ ho))
    rw [keysStep_bag]
    apply hmono obj (List.mem_cons_self _ _)
    rw [keysPrepare_bag]
    exact hx

theorem keysCalls_errors_kept (a : Addr) (fields : List String) (l : List objectItem)
    (hmono : ∀ obj ∈ l, ∀ (s : State) (x : FieldError),
      x ∈ s.ctx.ErrorBag.m → x ∈ (obj.schema.validate s).ctx.ErrorBag.m)
    (st : State) :
    ∀ c ∈ keysCalls a fields l st, ∀ x ∈ (c.1.schema.validate c.2).ctx.ErrorBag.m,
      x ∈ (keysLoop a fields l st).ctx.ErrorBag.m := by
  induction l generalizing st with
  | nil => intro c hc; simp [keysCalls] at hc
  | cons obj rest ih =>
    intro c hc x hx
    simp only [keysCalls, List.mem_cons] at hc
    rcases hc with hc | hc
    · subst hc
      apply keysLoop_bag_mono a fields rest (fun o ho => hmono o (List.mem_cons_of_mem _ ho))
      rw [keysStep_bag]
      exact hx
    · exact ih (fun o ho => hmono o (List.mem_cons_of_mem _ ho)) _ c hc x hx

theorem keysRule_map (children : K) (st : State) (a : Addr) (hv : st.ctx.Value = .map a) :
    keysRule children st
      = { keysLoop a st.ctx.fields children.sort st with
          ctx := { (keysLoop a st.ctx.fields children.sort st).ctx with
            fields := st.ctx.fields, Value := .map a } } := by
  unfold keysRule
  rw [hv]

theorem addError_keeps (st : State) (e x : FieldError) (hx : x ∈ st.ctx.ErrorBag.m) :
    x ∈ (State.addError st e).ctx.ErrorBag.m := by
  simp only [State.addError, ErrorBag.Add]
  exact (mem_mapInsert _ _ _).mpr (Or.inl hx)

theorem abort_keeps (st : State) (e x : FieldError) (hx : x ∈ st.ctx.ErrorBag.m) :
    x ∈ (Context.Abort st e).ctx.ErrorBag.m := by
  simp only [Context.Abort, ErrorBag.Add]
  exact (mem_mapInsert _ _ _).mpr (Or.inl hx)

theorem abortWith_keeps (msg : String) : keepsErrors (abortWith fun s => NewError s msg) := by
  intro st x hx
  exact abort_keeps _ _ x hx

theorem requiredRule_keeps : keepsErrors requiredRule := by
  intro st x hx
  unfold requiredRule
  split
  · exact abortWith_keeps _ st x hx
  · exact hx

theorem optionalRule_keeps : keepsErrors optionalRule := by
  intro st x hx
  unfold optionalRule
  split
  · exact hx
  · exact hx

theorem defaultRule_keeps (value : Value) : keepsErrors (defaultRule value) := by
  intro st x hx
  unfold defaultRule
  split
  · exact hx
  · exact hx

theorem stringSetRule_keeps (value : String) : keepsErrors (stringSetRule value) :=
  fun _ _ hx => hx

theorem stringCheckRule_keeps (f : String → Option String) : keepsErrors (stringCheckRule f) := by
  intro st x hx
  unfold stringCheckRule
  split
  · split
    · exact addError_keeps _ _ x hx
    · exact hx
  · exact abortWith_keeps _ st x hx

theorem stringConvertRule_keeps (f : String → String) : keepsErrors (stringConvertRule f) := by
  intro st x hx
  unfold stringConvertRule
  split
  · exact hx
  · exact abortWith_keeps _ st x hx

theorem numberCheckRule_keeps (f : Float64 → Option String) :
    keepsErrors (numberCheckRule f) := by
  intro st x hx
  unfold numberCheckRule
  split
  · split
    · exact addError_keeps _ _ x hx
    · exact hx
  · exact abortWith_keeps _ st x hx

theorem parseStringRule_keeps (parseFloat : String → Option Float64) :
    keepsErrors (parseStringRule parseFloat) := by
  intro st x hx
  unfold parseStringRule
  split
  · split
    · exact abortWith_keeps _ st x hx
    · exact hx
  · exact hx

theorem withRule_keeps (keys : List String) : keepsErrors (withRule keys) := by
  intro st x hx
  unfold withRule
  split
  · simp only
    split
    · exact addError_keeps _ _ x hx
    · exact hx
  · exact abortWith_keeps _ st x hx

theorem withoutRule_keeps (keys : List String) : keepsErrors (withoutRule keys) := by
  intro st x hx
  have h1 : x ∈ (match st.ctx.Value with
      | .map _ => st
      | _ => State.addError (ErrorTypeObject st).2 (ErrorTypeObject st).1).ctx.ErrorBag.m := by
    split
    · exact hx
    · exact addError_keeps _ _ x hx
  unfold withoutRule
  simp only
  split
  · exact addError_keeps _ _ x h1
  · exact h1

theorem addBag_keeps (st : State) (bag : ErrorBag) (x : FieldError)
    (hx : x ∈ st.ctx.ErrorBag.m) : x ∈ (State.addBag st bag).ctx.ErrorBag.m := by
  have hfold : ∀ (l : List FieldError) (b : ErrorBag) (n : Nat), x ∈ b.m →
      x ∈ (l.foldl (fun r err => r.1.Add err r.2) (b, n)).1.m := by
    intro l
    induction l with
    | nil => exact fun _ _ h => h
    | cons e rest ih =>
      intro b n h
      simp only [List.foldl_cons]
      apply ih
      simp only [ErrorBag.Add]
      exact (mem_mapInsert _ _ _).mpr (Or.inl h)
  exact hfold bag.m st.ctx.ErrorBag st.nextErr hx

theorem itemsRule_keeps (schemas : List Schema) : keepsErrors (itemsRule schemas) := by
  intro st x hx
  unfold itemsRule arrayCheckRule
  split
  · unfold itemsCheck
    split
    · exact addBag_keeps _ _ x hx
    · exact addBag_keeps _ _ x hx
  · exact abortWith_keeps _ st x hx

theorem runRules_keeps (rules : List Rule) (h : ∀ rule ∈ rules, keepsErrors rule) :
    keepsErrors (runRules rules) := by
  induction rules with
  | nil => exact fun _ _ hx => hx
  | cons rule rest ih =>
    intro st x hx
    have h1 := h rule (List.mem_cons_self _ _) st x hx
    simp only [runRules]
    split
    · exact h1
    · exact ih (fun r hr => h r (List.mem_cons_of_mem _ hr)) _ x h1

theorem numberFinish_keeps : keepsErrors NumberSchema.finish := by
  intro st x hx
  unfold NumberSchema.finish
  split
  · split
    · exact hx
    · exact abortWith_keeps _ st x hx
  · exact hx

theorem numberRunRules_keeps (rules : List Rule) (h : ∀ rule ∈ rules, keepsErrors rule) :
    keepsErrors (NumberSchema.runRules rules) := by
  induction rules with
  | nil => exact numberFinish_keeps
  | cons rule rest ih =>
    intro st x hx
    have h1 := h rule (List.mem_cons_self _ _) st x hx
    simp only [NumberSchema.runRules]
    split
    · exact h1
    · exact ih (fun r hr => h r (List.mem_cons_of_mem _ hr)) _ x h1

theorem stringSchema_keeps (s : StringSchema) (h : ∀ rule ∈ s.rules, keepsErrors rule) :
    keepsErrors s.toSchema.validate := by
  have hgo : ∀ st x, x ∈ st.ctx.ErrorBag.m →
      x ∈ (runRules (if s.required = none then s.Optional else s).rules st).ctx.ErrorBag.m := by
    intro st x hx
    apply runRules_keeps _ _ st x hx
    intro rule hrule
    split at hrule
    · simp only [StringSchema.Optional, StringSchema.PrependTransform, List.singleton_append,
        List.mem_cons] at hrule
      rcases hrule with hr | hr
      · rw [hr]; exact optionalRule_keeps
      · exact h rule hr
    · exact h rule hrule
  intro st x hx
  show x ∈ (s.Validate st).2.ctx.ErrorBag.m
  unfold StringSchema.Validate
  cases hval : st.ctx.Value <;>
    first | exact hgo st x hx | exact abortWith_keeps _ st x hx

theorem numberSchema_keeps (n : NumberSchema) (h : ∀ rule ∈ n.rules, keepsErrors rule) :
    keepsErrors n.toSchema.validate := by
  intro st x hx
  show x ∈ (n.Validate st).2.ctx.ErrorBag.m
  unfold NumberSchema.Validate
  apply numberRunRules_keeps
  · intro rule hrule
    split at hrule
    · simp only [NumberSchema.Optional, NumberSchema.PrependTransform, List.singleton_append,
        List.mem_cons] at hrule
      rcases hrule with hr | hr
      · rw [hr]; exact optionalRule_keeps
      · exact h rule hr
    · exact h rule hrule
  · split
    · exact hx
    · exact hx

theorem arraySchema_keeps (a : ArraySchema) (h : ∀ rule ∈ a.rules, keepsErrors rule) :
    keepsErrors a.toSchema.validate := by
  have hgo : ∀ st x, x ∈ st.ctx.ErrorBag.m →
      x ∈ (runRules (if a.required = none then a.Optional else a).rules st).ctx.ErrorBag.m := by
    intro st x hx
    apply runRules_keeps _ _ st x hx
    intro rule hrule
    split at hrule
    · simp only [ArraySchema.Optional, ArraySchema.PrependTransform, List.singleton_append,
        List.mem_cons] at hrule
      rcases hrule with hr | hr
      · rw [hr]; exact optionalRule_keeps
      · exact h rule hr
    · exact h rule hrule
  intro st x hx
  show x ∈ (a.Validate st).2.ctx.ErrorBag.m
  unfold ArraySchema.Validate
  cases hval : st.ctx.Value <;> by_cases hk : st.ctx.AssertKind Kind.Slice = true <;>
    simp only [hk, if_true, if_false] <;>
    first | exact hgo st x hx | exact abortWith_keeps _ st x hx

theorem objectSchema_keeps (o : ObjectSchema) (h : ∀ rule ∈ o.rules, keepsErrors rule) :
    keepsErrors o.toSchema.validate := by
  have hgo : ∀ st x, x ∈ st.ctx.ErrorBag.m →
      x ∈ (runRules (if o.required = none then o.Optional else o).rules st).ctx.ErrorBag.m := by
    intro st x hx
    apply runRules_keeps _ _ st x hx
    intro rule hrule
    split at hrule
    · simp only [ObjectSchema.Optional, ObjectSchema.PrependTransform, List.singleton_append,
        List.mem_cons] at hrule
      rcases hrule with hr | hr
      · rw [hr]; exact optionalRule_keeps
      · exact h rule hr
    · exact h rule hrule
  intro st x hx
  show x ∈ (o.Validate st).2.ctx.ErrorBag.m
  unfold ObjectSchema.Validate
  cases hval : st.ctx.Value <;>
    first | exact hgo st x hx | exact abortWith_keeps _ st x hx

theorem keysRule_keeps (children : K) (h : ∀ e ∈ children, keepsErrors e.2.validate) :
    keepsErrors (keysRule children) := by
  intro st x hx
  unfold keysRule
  split
  · apply keysLoop_bag_mono _ _ _ _ st x hx
    intro obj hobj
    have hmem := (K_sort_perm children).subset hobj
    obtain ⟨e, he, heq⟩ := List.mem_map.mp hmem
    subst heq
    exact h e he
  · exact abortWith_keeps _ st x hx

theorem numberValidate_absence_only (n : NumberSchema) (st : State)
    (hrules : ∀ rule ∈ n.rules, rule = requiredRule ∨ rule = optionalRule)
    (hpresent : st.ctx.Value ≠ .null) (hint : st.ctx.Value.kind ≠ Kind.Int)
    (hskip : st.ctx.skip = false) :
    (n.Validate st).2 = NumberSchema.finish st := by
  have hrules2 : ∀ rule ∈ (if n.required = none then n.Optional else n).rules,
      rule = requiredRule ∨ rule = optionalRule := by
    intro rule hmem
    split at hmem
    · simp only [NumberSchema.Optional, NumberSchema.PrependTransform, List.singleton_append,
        List.mem_cons] at hmem
      rcases hmem with h | h
      · exact Or.inr h
      · exact hrules rule h
    · exact hrules rule hmem
  unfold NumberSchema.Validate
  cases hv : st.ctx.Value with
  | int n => simp [hv, Value.kind] at hint
  | _ =>
    simp only
    exact numberRunRules_absence _ st hrules2 hpresent hskip

theorem numberFinish_not_number (st : State) (hfloat : st.ctx.Value.kind ≠ Kind.Float64) :
    NumberSchema.finish st
      = if st.ctx.ErrorBag.Empty then abortedState st ErrorMessageTypeNumber else st := by
  unfold NumberSchema.finish
  split
  · cases hv : st.ctx.Value with
    | float x => simp [hv, Value.kind] at hfloat
    | _ => exact abortWith_NewError st ErrorMessageTypeNumber
  · rfl

theorem reportedError_mem_aborted (st : State) (msg : String) :
    reportedError st msg ∈ (abortedState st msg).ctx.ErrorBag.m :=
  (mem_mapInsert _ _ _).mpr (Or.inr rfl)

/-- C8, counterexample: `Keys` on the map `{"s": 5, "n": "abc", "t": 7}` with the
keys `s` (`String().SetPriority(1)`) and `n` (`Number()`).  Both sub-schemas
are called, `n` after `s`, on the number 5 and on the string `abc`.  The key
`n` fails its sub-schema: validated alone, it is reported with
`n must be a number`.  After the failure of `s` it is not reported: the bag
holds the single error `s must be a string`. -/
theorem keys_number_key_not_reported :
    ((keysCalls 0 mixedDocState.ctx.fields stringThenNumberKeys.sort mixedDocState).map
        fun c => (c.1.key, c.2.ctx.Value)) = [("s", .float 5), ("n", .str "abc")]
    ∧ (keysRule stringThenNumberKeys mixedDocState).ctx.ErrorBag.m
        = [⟨"s", ⟨0, "must be a string"⟩⟩]
    ∧ (keysRule onlyNumberKeys mixedDocState).ctx.ErrorBag.m
        = [⟨"n", ⟨0, "must be a number"⟩⟩] := by
  refine ⟨by decide, by decide, by decide⟩

/-- C8 as amended: the loop of `Keys` on a map at address `a`, for any key map
and any sub-schemas.  The loop calls `Validate` once per entry of `K.sort`, in
order, hence once per declared key; each call is made with `skip` reset, with
the path of the object extended by the key and with `parent` bound to the map;
whatever the iterations before it did, the iteration of an entry is the
validation of its sub-schema in such a state, followed by the write-back.  All
the calls work on the one bag of the context: a validation starts with the bag
the iterations before it left, the next one with the bag it leaves, and `Keys`
returns with the bag the last one left.  If the sub-schemas only append
to the bag, as the contract of rule steps has it and as the built-in rules do,
every error in the bag after any of these validations is in the bag when
`Keys` returns.  A key whose value is present and of the wrong kind for
its string, array or object sub-schema gets the type error at its path
whatever the bag holds; a key whose value is present and not a number, for a
number sub-schema with absence rules only, gets the type error only if the bag
is empty at that point, and its validation changes nothing otherwise. -/
theorem keys_validates_every_key (children : K) (a : Addr) (st : State)
    (hv : st.ctx.Value = .map a) :
    (keysCalls a st.ctx.fields children.sort st).map Prod.fst = children.sort
    ∧ ((keysCalls a st.ctx.fields children.sort st).map fun c => c.1.key).Perm
        (children.map Prod.fst)
    ∧ (∀ c ∈ keysCalls a st.ctx.fields children.sort st,
        c.2.ctx.skip = false ∧ c.2.ctx.fields = st.ctx.fields ++ [c.1.key]
        ∧ c.2.ctx.parent = .map a)
    ∧ (∀ (l1 l2 : List objectItem) (obj : objectItem), children.sort = l1 ++ obj :: l2 →
        (obj, keysPrepare a st.ctx.fields obj (keysLoop a st.ctx.fields l1 st))
            ∈ keysCalls a st.ctx.fields children.sort st
        ∧ keysLoop a st.ctx.fields children.sort st
            = keysLoop a st.ctx.fields l2
                (keysWriteBack a obj
                  (obj.schema.validate
                    (keysPrepare a st.ctx.fields obj (keysLoop a st.ctx.fields l1 st)))))
    ∧ ((∀ e ∈ children, keepsErrors e.2.validate) →
        ∀ c ∈ keysCalls a st.ctx.fields children.sort st,
          ∀ x ∈ (c.1.schema.validate c.2).ctx.ErrorBag.m,
            x ∈ (keysRule children st).ctx.ErrorBag.m)
    ∧ (∀ c ∈ keysCalls a st.ctx.fields children.sort st, c.2.ctx.Value ≠ .null →
        (∀ s : StringSchema, c.1.schema = s.toSchema → c.2.ctx.Value.kind ≠ Kind.String →
          c.1.schema.validate c.2 = abortedState c.2 ErrorMessageTypeString)
        ∧ (∀ s : ArraySchema, c.1.schema = s.toSchema → c.2.ctx.Value.kind ≠ Kind.Slice →
          c.1.schema.validate c.2 = abortedState c.2 ErrorMessageTypeArray)
        ∧ (∀ s : ObjectSchema, c.1.schema = s.toSchema → c.2.ctx.Value.kind ≠ Kind.Map →
          c.1.schema.validate c.2 = abortedState c.2 ErrorMessageTypeObject)
        ∧ (∀ n : NumberSchema, c.1.schema = n.toSchema →
            (∀ rule ∈ n.rules, rule = requiredRule ∨ rule = optionalRule) →
            c.2.ctx.Value.kind ≠ Kind.Int → c.2.ctx.Value.kind ≠ Kind.Float64 →
          c.1.schema.validate c.2
            = if c.2.ctx.ErrorBag.Empty then abortedState c.2 ErrorMessageTypeNumber else c.2)
        ∧ ∀ msg : String,
            reportedError c.2 msg ∈ (abortedState c.2 msg).ctx.ErrorBag.m
            ∧ (reportedError c.2 msg).Field
                = String.intercalate fieldSeparator (st.ctx.fields ++ [c.1.key]))
    ∧ (∀ (l1 l2 : List objectItem) (obj : objectItem), children.sort = l1 ++ obj :: l2 →
        (keysPrepare a st.ctx.fields obj (keysLoop a st.ctx.fields l1 st)).ctx.ErrorBag
            = (keysLoop a st.ctx.fields l1 st).ctx.ErrorBag
        ∧ (keysLoop a st.ctx.fields (l1 ++ [obj]) st).ctx.ErrorBag
            = (obj.schema.validate
                (keysPrepare a st.ctx.fields obj (keysLoop a st.ctx.fields l1 st))).ctx.ErrorBag)
    ∧ (keysRule children st).ctx.ErrorBag
        = (keysLoop a st.ctx.fields children.sort st).ctx.ErrorBag := by
  have hperm := K_sort_keys_perm children
  have hstate := keysCalls_state a st.ctx.fields children.sort st
  refine ⟨keysCalls_fst _ _ _ _, ?_, hstate, ?_, ?_, ?_, ?_, ?_⟩
  · have h : ((keysCalls a st.ctx.fields children.sort st).map fun c => c.1.key)
        = (children.sort).map objectItem.key := by
      conv_rhs => rw [← keysCalls_fst a st.ctx.fields children.sort st]
      simp [List.map_map, Function.comp_def]
    rw [h]
    exact hperm
  · intro l1 l2 obj hsplit
    refine ⟨?_, ?_⟩
    · rw [hsplit, keysCalls_append]
      exact List.mem_append_right _ (List.mem_cons_self _ _)
    · rw [hsplit, keysLoop_append]
      rfl
  · intro hmono c hc x hx
    have hmono2 : ∀ obj ∈ children.sort, ∀ (s : State) (x : FieldError),
        x ∈ s.ctx.ErrorBag.m → x ∈ (obj.schema.validate s).ctx.ErrorBag.m := by
      intro obj hobj
      have hmem := (K_sort_perm children).subset hobj
      obtain ⟨e, he, heq⟩ := List.mem_map.mp hmem
      subst heq
      exact hmono e he
    rw [keysRule_map children st a hv]
    exact keysCalls_errors_kept a st.ctx.fields children.sort hmono2 st c hc x hx
  · intro c hc hpresent
    obtain ⟨hskip, hfields, -⟩ := hstate c hc
    refine ⟨?_, ?_, ?_, ?_, ?_⟩
    · intro s hs hk
      rw [hs]
      show (s.Validate c.2).2 = _
      unfold StringSchema.Validate
      cases hval : c.2.ctx.Value <;> simp_all [Value.kind] <;>
        exact abortWith_NewError c.2 ErrorMessageTypeString
    · intro s hs hk
      rw [hs]
      show (s.Validate c.2).2 = _
      unfold ArraySchema.Validate
      cases hval : c.2.ctx.Value <;> simp_all [Value.kind, Context.AssertKind] <;>
        exact abortWith_NewError c.2 ErrorMessageTypeArray
    · intro s hs hk
      rw [hs]
      show (s.Validate c.2).2 = _
      unfold ObjectSchema.Validate
      cases hval : c.2.ctx.Value <;> simp_all [Value.kind] <;>
        exact abortWith_NewError c.2 ErrorMessageTypeObject
    · intro n hn hrules hint hfloat
      rw [hn]
      show (n.Validate c.2).2 = _
      rw [numberValidate_absence_only n c.2 hrules hpresent hint hskip,
        numberFinish_not_number c.2 hfloat]
    · intro msg
      refine ⟨reportedError_mem_aborted c.2 msg, ?_⟩
      rw [reportedError_Field, Context.FieldPath, hfields]
  · intro l1 l2 obj _
    refine ⟨keysPrepare_bag _ _ _ _, ?_⟩
    rw [keysLoop_append]
    exact keysStep_bag _ _ _ _
  · rw [keysRule_map children st a hv]

/-- Witness of C8 as amended: on the map `{"s": 5, "n": "abc", "t": 7}` with the
string sub-schemas `s` (priority 1) and `t`, both sub-schemas are called, `t`
after `s` has aborted, each with `skip` reset; both type errors are in the bag
when `Keys` returns, as is every error a validation left. -/
theorem keys_validates_every_key_witness :
    mixedDocState.ctx.Value = .map 0
    ∧ ((keysCalls 0 mixedDocState.ctx.fields twoStringKeys.sort mixedDocState).map
        fun c => (c.1.key, c.2.ctx.skip, c.2.ctx.fields, (c.1.schema.validate c.2).ctx.skip))
        = [("s", false, ["s"], true), ("t", false, ["t"], true)]
    ∧ (keysRule twoStringKeys mixedDocState).ctx.ErrorBag.m
        = [⟨"s", ⟨0, "must be a string"⟩⟩, ⟨"t", ⟨1, "must be a string"⟩⟩]
    ∧ ∀ c ∈ keysCalls 0 mixedDocState.ctx.fields twoStringKeys.sort mixedDocState,
        ∀ x ∈ (c.1.schema.validate c.2).ctx.ErrorBag.m,
          x ∈ (keysRule twoStringKeys mixedDocState).ctx.ErrorBag.m :=
  ⟨rfl, by decide, by decide,
   (keys_validates_every_key twoStringKeys 0 mixedDocState rfl).2.2.2.2.1 (by
      intro e he
      simp only [twoStringKeys, List.mem_cons, List.mem_singleton, List.not_mem_nil,
        or_false] at he
      rcases he with h | h <;> subst h
      · exact stringSchema_keeps _ (fun _ hr => absurd hr (List.not_mem_nil _))
      · exact stringSchema_keeps _ (fun _ hr => absurd hr (List.not_mem_nil _)))⟩

/-! ## Scope of the mutations of `Keys` -/

/-- C9: for every state whose value is a map, every key map and any
sub-schemas, after the rule of `Keys` the path of the context is the path it
had before and the value is the map again. -/
theorem keys_restores_path_and_value (children : K) (a : Addr) (st : State)
    (hv : st.ctx.Value = .map a) :
    (keysRule children st).ctx.fields = st.ctx.fields
    ∧ (keysRule children st).ctx.Value = .map a
    ∧ (keysRule children st).ctx.Value = st.ctx.Value := by
  rw [keysRule_map children st a hv]
  exact ⟨rfl, rfl, hv.symm⟩

/-- Witness of C9: on the map `{"b": "X"}` with the keys `a` and `b`, the last
key evaluated is `b` (value `x`, path `b`); after `Keys` the value is the map
and the path is empty. -/
theorem keys_restores_path_and_value_witness :
    docState.ctx.Value = .map 0
    ∧ (keysLoop 0 [] requiredFirstKeys.sort docState).ctx.Value = .str "x"
    ∧ (keysLoop 0 [] requiredFirstKeys.sort docState).ctx.fields = ["b"]
    ∧ (keysRule requiredFirstKeys docState).ctx.fields = []
    ∧ (keysRule requiredFirstKeys docState).ctx.Value = .map 0 :=
  ⟨rfl, by decide, by decide,
   (keys_restores_path_and_value requiredFirstKeys 0 docState rfl).1,
   (keys_restores_path_and_value requiredFirstKeys 0 docState rfl).2.1⟩

/-! ## `With` -/

theorem addError_NewError (st : State) (msg : String) :
    State.addError (NewError st msg).2 (NewError st msg).1 = recordedState st msg := by
  unfold State.addError NewError ErrorBag.Add applyErrorMessageTemplate recordedState
    reportedError
  by_cases h : st.ctx.ErrorBag.tmpl = "" <;> simp [h, Context.FieldPath]

theorem missingKeys_foldl (m : Mapping) (keys acc : List String) :
    keys.foldl (fun missing key => if (m key).isNone then missing ++ [key] else missing) acc
      = acc ++ keys.filter (fun key => (m key).isNone) := by
  induction keys generalizing acc with
  | nil => simp
  | cons key rest ih =>
    simp only [List.foldl_cons, List.filter_cons]
    rw [ih]
    split <;> simp

theorem missingKeys_eq_filter (m : Mapping) (keys : List String) :
    missingKeys m keys = keys.filter (fun key => (m key).isNone) := by
  unfold missingKeys
  rw [missingKeys_foldl]
  simp

/-- C10: the rule of `With(keys...)` in a state whose value is the map at
address `a`.  The list it collects is the keys of the argument list that are
absent from the map, in the order given.  If every listed key is present the
state is left as it was.  Otherwise the only change is that the bag gets one
entry: the missing-keys error for that list at the field path (inserted into
the bag; appended as a new entry when the bag's errors are older than the
allocation counter); `skip`, the value and the heap are as before. -/
theorem with_reports_missing_keys (keys : List String) (a : Addr) (st : State)
    (hv : st.ctx.Value = .map a) :
    missingKeys (st.heap a) keys = keys.filter (fun key => (st.heap a key).isNone)
    ∧ ((∀ key ∈ keys, (st.heap a key).isSome) → withRule keys st = st)
    ∧ ((∃ key ∈ keys, (st.heap a key).isNone) →
        withRule keys st
          = recordedState st (ErrorMessageObjectMissingRequiredKeys
              (keys.filter (fun key => (st.heap a key).isNone)))
        ∧ (st.fresh → (withRule keys st).ctx.ErrorBag.m
            = st.ctx.ErrorBag.m ++ [reportedError st (ErrorMessageObjectMissingRequiredKeys
                (keys.filter (fun key => (st.heap a key).isNone)))])
        ∧ (reportedError st (ErrorMessageObjectMissingRequiredKeys
            (keys.filter (fun key => (st.heap a key).isNone)))).Field = st.ctx.FieldPath
        ∧ (st.ctx.ErrorBag.tmpl = "" →
            reportedError st (ErrorMessageObjectMissingRequiredKeys
                (keys.filter (fun key => (st.heap a key).isNone)))
              = ⟨st.ctx.FieldPath, ⟨st.nextErr, "is missing required keys ["
                  ++ String.intercalate ", " (keys.filter (fun key => (st.heap a key).isNone))
                  ++ "]"⟩⟩)
        ∧ (withRule keys st).ctx.skip = st.ctx.skip
        ∧ (withRule keys st).ctx.Value = st.ctx.Value
        ∧ (withRule keys st).heap = st.heap) := by
  have hfilter := missingKeys_eq_filter (st.heap a) keys
  refine ⟨hfilter, ?_, ?_⟩
  · intro hall
    have hnil : keys.filter (fun key => (st.heap a key).isNone) = [] := by
      rw [List.filter_eq_nil_iff]
      intro key hkey
      have := hall key hkey
      cases hk : st.heap a key <;> simp_all
    unfold withRule
    rw [hv]
    simp [hfilter, hnil]
  · rintro ⟨key, hkey, habsent⟩
    have hpos : 0 < (keys.filter (fun key => (st.heap a key).isNone)).length := by
      apply List.length_pos_of_mem
      exact List.mem_filter.mpr ⟨hkey, by simpa using habsent⟩
    have hrule : withRule keys st
        = recordedState st (ErrorMessageObjectMissingRequiredKeys
            (keys.filter (fun key => (st.heap a key).isNone))) := by
      unfold withRule
      rw [hv]
      simp only [hfilter, gt_iff_lt, hpos, if_true, ErrorObjectMissingRequiredKeys]
      exact addError_NewError st _
    refine ⟨hrule, ?_, reportedError_Field st _, ?_, ?_, ?_, ?_⟩
    · intro hfresh
      rw [hrule]
      exact mapInsert_fresh st _ hfresh
    · intro ht
      rw [reportedError_plain st _ ht]
      rfl
    · rw [hrule]; rfl
    · rw [hrule]; rfl
    · rw [hrule]; rfl

/-- Witness of C10: `With("a", "b")` on the map `{"a": 1}` at the path `name`
reports the missing key `b` only. -/
theorem with_reports_missing_keys_witness :
    oneKeyState.ctx.Value = .map 0
    ∧ (withRule ["a", "b"] oneKeyState).ctx.ErrorBag.m
        = [⟨"name", ⟨0, "is missing required keys [b]"⟩⟩]
    ∧ withRule ["a"] oneKeyState = oneKeyState := by
  have h := with_reports_missing_keys ["a", "b"] 0 oneKeyState rfl
  have h2 := with_reports_missing_keys ["a"] 0 oneKeyState rfl
  refine ⟨rfl, ?_, h2.2.1 (by decide)⟩
  rw [(h.2.2 ⟨"b", by decide, by decide⟩).1]
  decide

/-! ## `Without` -/

theorem forbiddenKeys_foldl (m : Mapping) (keys acc : List String) :
    keys.foldl (fun forbidden key => if (m key).isSome then forbidden ++ [key] else forbidden)
        acc
      = acc ++ keys.filter (fun key => (m key).isSome) := by
  induction keys generalizing acc with
  | nil => simp
  | cons key rest ih =>
    simp only [List.foldl_cons, List.filter_cons]
    rw [ih]
    split <;> simp

theorem forbiddenKeys_eq_filter (m : Mapping) (keys : List String) :
    forbiddenKeys m keys = keys.filter (fun key => (m key).isSome) := by
  unfold forbiddenKeys
  rw [forbiddenKeys_foldl]
  simp

theorem two_members_of_length {α : Type} (l : List α) (hnd : l.Nodup) :
    1 < l.length ↔ ∃ x ∈ l, ∃ y ∈ l, x ≠ y := by
  constructor
  · intro h
    match l, hnd, h with
    | x :: y :: rest, hnd, _ =>
      refine ⟨x, List.mem_cons_self _ _, y, List.mem_cons_of_mem _ (List.mem_cons_self _ _), ?_⟩
      intro hxy
      rw [List.nodup_cons] at hnd
      exact hnd.1 (hxy ▸ List.mem_cons_self _ _)
  · rintro ⟨x, hx, y, hy, hne⟩
    match l, hx, hy with
    | [z], hx, hy =>
      simp only [List.mem_singleton] at hx hy
      exact absurd (hx.trans hy.symm) hne
    | _ :: _ :: _, _, _ => simp

/-- C11: the rule of `Without(keys...)` in a state whose value is the map at
address `a`.  The list it collects is the listed keys present in the map, in
the order given.  If that list has more than one element (for pairwise
distinct keys: if two different listed keys are present), the only change is
that the bag gets one entry, the forbidden-keys error for that list at the
field path; otherwise (no listed key or exactly one listed key present) the
state is left as it was. -/
theorem without_reports_present_keys (keys : List String) (a : Addr) (st : State)
    (hv : st.ctx.Value = .map a) :
    forbiddenKeys (st.heap a) keys = keys.filter (fun key => (st.heap a key).isSome)
    ∧ (keys.Nodup →
        (1 < (keys.filter (fun key => (st.heap a key).isSome)).length
          ↔ ∃ k1 ∈ keys, ∃ k2 ∈ keys,
              k1 ≠ k2 ∧ (st.heap a k1).isSome ∧ (st.heap a k2).isSome))
    ∧ (1 < (keys.filter (fun key => (st.heap a key).isSome)).length →
        withoutRule keys st
          = recordedState st (ErrorMessageObjectContainsForbiddenKeys
              (keys.filter (fun key => (st.heap a key).isSome)))
        ∧ (st.fresh → (withoutRule keys st).ctx.ErrorBag.m
            = st.ctx.ErrorBag.m ++ [reportedError st (ErrorMessageObjectContainsForbiddenKeys
                (keys.filter (fun key => (st.heap a key).isSome)))])
        ∧ (reportedError st (ErrorMessageObjectContainsForbiddenKeys
            (keys.filter (fun key => (st.heap a key).isSome)))).Field = st.ctx.FieldPath
        ∧ (st.ctx.ErrorBag.tmpl = "" →
            reportedError st (ErrorMessageObjectContainsForbiddenKeys
                (keys.filter (fun key => (st.heap a key).isSome)))
              = ⟨st.ctx.FieldPath, ⟨st.nextErr, "contains forbidden keys ["
                  ++ String.intercalate ", " (keys.filter (fun key => (st.heap a key).isSome))
                  ++ "]"⟩⟩))
    ∧ (¬ 1 < (keys.filter (fun key => (st.heap a key).isSome)).length →
        withoutRule keys st = st)
    ∧ ((∃ key, keys.filter (fun key => (st.heap a key).isSome) = [key]) →
        withoutRule keys st = st) := by
  have hfilter := forbiddenKeys_eq_filter (st.heap a) keys
  have hno : ¬ 1 < (keys.filter (fun key => (st.heap a key).isSome)).length →
      withoutRule keys st = st := by
    intro hle
    unfold withoutRule
    simp only [hv, hfilter, gt_iff_lt, hle, if_false]
  refine ⟨hfilter, ?_, ?_, hno, ?_⟩
  · intro hnd
    rw [two_members_of_length _ (hnd.filter _)]
    constructor
    · rintro ⟨x, hx, y, hy, hne⟩
      rw [List.mem_filter] at hx hy
      exact ⟨x, hx.1, y, hy.1, hne, hx.2, hy.2⟩
    · rintro ⟨x, hx, y, hy, hne, hpx, hpy⟩
      exact ⟨x, List.mem_filter.mpr ⟨hx, hpx⟩, y, List.mem_filter.mpr ⟨hy, hpy⟩, hne⟩
  · intro hgt
    have hrule : withoutRule keys st
        = recordedState st (ErrorMessageObjectContainsForbiddenKeys
            (keys.filter (fun key => (st.heap a key).isSome))) := by
      unfold withoutRule
      simp only [hv, hfilter, gt_iff_lt, hgt, if_true, ErrorObjectContainsForbiddenKeys]
      exact addError_NewError st _
    refine ⟨hrule, ?_, reportedError_Field st _, ?_⟩
    · intro hfresh
      rw [hrule]
      exact mapInsert_fresh st _ hfresh
    · intro ht
      rw [reportedError_plain st _ ht]
      rfl
  · rintro ⟨key, hkey⟩
    apply hno
    rw [hkey]
    simp

/-- Witness of C11: on the map `{"a": 1, "b": 2}` at the path `name`,
`Without("a", "c", "b")` reports the keys `a, b`; on the map `{"a": 1}`,
`Without("a", "b")` changes nothing. -/
theorem without_reports_present_keys_witness :
    twoKeyState.ctx.Value = .map 0
    ∧ (withoutRule ["a", "c", "b"] twoKeyState).ctx.ErrorBag.m
        = [⟨"name", ⟨0, "contains forbidden keys [a, b]"⟩⟩]
    ∧ withoutRule ["a", "b"] oneKeyState = oneKeyState := by
  have h := without_reports_present_keys ["a", "c", "b"] 0 twoKeyState rfl
  have h2 := without_reports_present_keys ["a", "b"] 0 oneKeyState rfl
  refine ⟨rfl, ?_, h2.2.2.2.1 (by decide)⟩
  rw [(h.2.2.1 (by decide)).1]
  decide

/-! ## `UniqueObjects` -/

theorem compositeKeyLoop_strings (obj : Mapping) (fields : List String) (key : String)
    (h : ∀ field ∈ fields, ∃ v, obj field = some (.str v)) :
    compositeKeyLoop obj fields key = some (key ++ compositeKey obj fields) := by
  induction fields generalizing key with
  | nil => simp [compositeKeyLoop, compositeKey]
  | cons field rest ih =>
    obtain ⟨v, hv⟩ := h field (List.mem_cons_self _ _)
    simp only [compositeKeyLoop, compositeKey, hv]
    rw [ih _ (fun f hf => h f (List.mem_cons_of_mem _ hf)), String.append_assoc]

theorem unseen_cons_iff (k : String) (ks seen : List String) (hseen : k ∉ seen) :
    (ks.Nodup ∧ ∀ key ∈ ks, key ∉ k :: seen)
      ↔ ((k :: ks).Nodup ∧ ∀ key ∈ k :: ks, key ∉ seen) := by
  constructor
  · rintro ⟨hnd, hall⟩
    refine ⟨List.nodup_cons.mpr ⟨fun hk => hall k hk (List.mem_cons_self _ _), hnd⟩, ?_⟩
    intro key hkey hks
    rcases List.mem_cons.mp hkey with h | h
    · exact hseen (h ▸ hks)
    · exact hall key h (List.mem_cons_of_mem _ hks)
  · rintro ⟨hnd, hall⟩
    rw [List.nodup_cons] at hnd
    refine ⟨hnd.2, ?_⟩
    intro key hkey hks
    rcases List.mem_cons.mp hks with h | h
    · exact hnd.1 (h ▸ hkey)
    · exact hall key (List.mem_cons_of_mem _ hkey) h

theorem uniqueObjectsLoop_strings (heap : Heap) (fields : List String) (xs : List Value)
    (seen : List String)
    (h : ∀ x ∈ xs, ∃ a, x = .map a ∧ ∀ field ∈ fields, ∃ v, heap a field = some (.str v)) :
    uniqueObjectsLoop heap fields xs seen
      = some (if (elementKeys heap fields xs).Nodup
            ∧ ∀ key ∈ elementKeys heap fields xs, key ∉ seen
          then none else some (ErrorMessageArrayUniqueObjects fields)) := by
  induction xs generalizing seen with
  | nil => simp [uniqueObjectsLoop, elementKeys]
  | cons x rest ih =>
    obtain ⟨a, hx, hfields⟩ := h x (List.mem_cons_self _ _)
    subst hx
    have hkey := compositeKeyLoop_strings (heap a) fields "" hfields
    have hrest := ih (compositeKey (heap a) fields :: seen)
      (fun y hy => h y (List.mem_cons_of_mem _ hy))
    have hcons : elementKeys heap fields (Value.map a :: rest)
        = compositeKey (heap a) fields :: elementKeys heap fields rest := rfl
    simp only [uniqueObjectsLoop, hkey, String.empty_append, hcons]
    by_cases hseen : compositeKey (heap a) fields ∈ seen
    · have hneg : ¬ ((compositeKey (heap a) fields :: elementKeys heap fields rest).Nodup
          ∧ ∀ key ∈ compositeKey (heap a) fields :: elementKeys heap fields rest,
              key ∉ seen) :=
        fun hh => hh.2 _ (List.mem_cons_self _ _) hseen
      simp only [hseen, if_true, if_neg hneg]
    · simp only [hseen, if_false, hrest]
      congr 1
      exact if_congr (unseen_cons_iff _ _ _ hseen) rfl rfl

theorem nodup_iff_no_repeat (ks : List String) :
    ¬ ks.Nodup ↔ ∃ i j, i < j ∧ j < ks.length ∧ ks[i]? = ks[j]? := by
  rw [List.nodup_iff_getElem?_ne_getElem?]
  push_neg
  rfl

/-- C12: the rule of `UniqueObjects(fields...)` on a sequence of maps in which
every named field holds a string.  The rule returns.  If two elements have the
same composite key (the concatenation of the values of the named fields in the
order given), the only change is that the bag gets one entry, the uniqueness
error at the field path; if the composite keys are pairwise distinct, the state
is left as it was. -/
theorem unique_objects_by_composite_key (fields : List String) (xs : List Value) (st : State)
    (hv : st.ctx.Value = .seq xs)
    (hstrings : ∀ x ∈ xs, ∃ a, x = .map a
      ∧ ∀ field ∈ fields, ∃ v, st.heap a field = some (.str v)) :
    ((∃ i j, i < j ∧ j < (elementKeys st.heap fields xs).length
          ∧ (elementKeys st.heap fields xs)[i]? = (elementKeys st.heap fields xs)[j]?) →
        uniqueObjectsRule fields st
          = some (recordedState st (ErrorMessageArrayUniqueObjects fields))
        ∧ (st.fresh → (recordedState st (ErrorMessageArrayUniqueObjects fields)).ctx.ErrorBag.m
            = st.ctx.ErrorBag.m ++ [reportedError st (ErrorMessageArrayUniqueObjects fields)])
        ∧ (reportedError st (ErrorMessageArrayUniqueObjects fields)).Field = st.ctx.FieldPath
        ∧ (st.ctx.ErrorBag.tmpl = "" →
            reportedError st (ErrorMessageArrayUniqueObjects fields)
              = ⟨st.ctx.FieldPath, ⟨st.nextErr, "must be unique [fields: "
                  ++ String.intercalate ", " fields ++ "]"⟩⟩))
    ∧ ((elementKeys st.heap fields xs).Nodup → uniqueObjectsRule fields st = some st)
    ∧ ((elementKeys st.heap fields xs).Nodup
        ↔ ¬ ∃ i j, i < j ∧ j < (elementKeys st.heap fields xs).length
          ∧ (elementKeys st.heap fields xs)[i]? = (elementKeys st.heap fields xs)[j]?) := by
  have hloop := uniqueObjectsLoop_strings st.heap fields xs [] hstrings
  have hkind : st.ctx.AssertKind Kind.Slice = true := by
    simp [Context.AssertKind, hv, Value.kind]
  refine ⟨?_, ?_, ?_⟩
  · intro hrep
    have hnd : ¬ (elementKeys st.heap fields xs).Nodup := (nodup_iff_no_repeat _).mpr hrep
    refine ⟨?_, mapInsert_fresh st _, reportedError_Field st _, ?_⟩
    · unfold uniqueObjectsRule arrayCheckPartial uniqueObjectsCheck
      simp only [hkind, if_true, hv, hloop, hnd, false_and, if_false, checkOutcome]
      exact congrArg some (addError_NewError st _)
    · intro ht
      rw [reportedError_plain st _ ht]
      rfl
  · intro hnd
    unfold uniqueObjectsRule arrayCheckPartial uniqueObjectsCheck
    simp [hkind, hv, hloop, hnd, checkOutcome]
  · rw [← nodup_iff_no_repeat, not_not]

/-- Witness of C12: `UniqueObjects("id")` at the path `name` reports one error
on `[{"id": "a"}, {"id": "a"}]` and none on `[{"id": "a"}, {"id": "b"}]`. -/
theorem unique_objects_by_composite_key_witness :
    ((uniqueObjectsRule ["id"] (idState [.map 0, .map 1])).map fun r => r.ctx.ErrorBag.m)
        = some [⟨"name", ⟨0, "must be unique [fields: id]"⟩⟩]
    ∧ ((uniqueObjectsRule ["id"] (idState [.map 0, .map 2])).map fun r => r.ctx.ErrorBag.m)
        = some [] := by
  have h1 := unique_objects_by_composite_key ["id"] [.map 0, .map 1] (idState [.map 0, .map 1])
    rfl (by
      intro x hx
      simp only [List.mem_cons, List.mem_singleton, List.not_mem_nil, or_false] at hx
      rcases hx with h | h <;> subst h
      · exact ⟨0, rfl, fun field hf => ⟨"a", by
          simp only [List.mem_singleton] at hf; subst hf; rfl⟩⟩
      · exact ⟨1, rfl, fun field hf => ⟨"a", by
          simp only [List.mem_singleton] at hf; subst hf; rfl⟩⟩)
  have h2 := unique_objects_by_composite_key ["id"] [.map 0, .map 2] (idState [.map 0, .map 2])
    rfl (by
      intro x hx
      simp only [List.mem_cons, List.mem_singleton, List.not_mem_nil, or_false] at hx
      rcases hx with h | h <;> subst h
      · exact ⟨0, rfl, fun field hf => ⟨"a", by
          simp only [List.mem_singleton] at hf; subst hf; rfl⟩⟩
      · exact ⟨2, rfl, fun field hf => ⟨"b", by
          simp only [List.mem_singleton] at hf; subst hf; rfl⟩⟩)
  refine ⟨?_, ?_⟩
  · rw [(h1.1 ⟨0, 1, by decide, by decide, by decide⟩).1]
    decide
  · rw [h2.2.1 (by decide)]
    rfl

/-- C13, counterexample: with the fields `a` and `b`, the objects
`{"a": "x", "b": "yz"}` and `{"a": "xy", "b": "z"}` differ on both fields and
have the same composite key `xyz`; the rule reports them as not unique. -/
theorem unique_objects_key_collision :
    collidingHeap 0 "a" ≠ collidingHeap 1 "a"
    ∧ collidingHeap 0 "b" ≠ collidingHeap 1 "b"
    ∧ elementKeys collidingHeap ["a", "b"] [.map 0, .map 1] = ["xyz", "xyz"]
    ∧ ((uniqueObjectsRule ["a", "b"] collidingState).map fun r => r.ctx.ErrorBag.m)
        = some [⟨"name", ⟨0, "must be unique [fields: a, b]"⟩⟩] := by
  refine ⟨by decide, by decide, by decide, by decide⟩

theorem elementKeys_nodup (heap : Heap) (fields : List String) (xs : List Value)
    (hstrings : ∀ x ∈ xs, ∃ a, x = .map a
      ∧ ∀ field ∈ fields, ∃ v, heap a field = some (.str v))
    (hkeys : ∀ (i j : Nat) (a b : Addr), i < j → xs[i]? = some (Value.map a) → xs[j]? = some (Value.map b) →
      compositeKey (heap a) fields ≠ compositeKey (heap b) fields) :
    (elementKeys heap fields xs).Nodup := by
  by_contra hnd
  obtain ⟨i, j, hij, hj, heq⟩ := (nodup_iff_no_repeat _).mp hnd
  have hlen : (elementKeys heap fields xs).length = xs.length := by simp [elementKeys]
  rw [hlen] at hj
  have hi : i < xs.length := by omega
  obtain ⟨a, ha, -⟩ := hstrings xs[i] (List.getElem_mem _)
  obtain ⟨b, hb, -⟩ := hstrings xs[j] (List.getElem_mem _)
  have hxi : xs[i]? = some (.map a) := by rw [List.getElem?_eq_getElem hi, ha]
  have hxj : xs[j]? = some (.map b) := by rw [List.getElem?_eq_getElem hj, hb]
  apply hkeys i j a b hij hxi hxj
  simp only [elementKeys, List.getElem?_map, hxi, hxj, Option.map_some'] at heq
  exact Option.some.inj heq

theorem uniqueObjectsRule_nodup (fields : List String) (xs : List Value) (st : State)
    (hv : st.ctx.Value = .seq xs)
    (hstrings : ∀ x ∈ xs, ∃ a, x = .map a
      ∧ ∀ field ∈ fields, ∃ v, st.heap a field = some (.str v))
    (hnd : (elementKeys st.heap fields xs).Nodup) :
    uniqueObjectsRule fields st = some st := by
  have hloop := uniqueObjectsLoop_strings st.heap fields xs [] hstrings
  have hkind : st.ctx.AssertKind Kind.Slice = true := by
    simp [Context.AssertKind, hv, Value.kind]
  unfold uniqueObjectsRule arrayCheckPartial uniqueObjectsCheck
  simp [hkind, hv, hloop, hnd, checkOutcome]

theorem compositeKey_single (obj : Mapping) (field v : String)
    (h : obj field = some (.str v)) : compositeKey obj [field] = v := by
  simp [compositeKey, h]

/-- C13 as amended: the rule of `UniqueObjects(fields...)` on a sequence of
maps in which every named field holds a string and no two elements agree on
all named fields.  If no two elements have the same concatenation of the
values of the named fields, the rule returns and leaves the state as it was: no
uniqueness error is added.  With a single named field that is always so.  When
the rule does change the state, two elements that differ on a named field have
the same concatenation. -/
theorem unique_objects_without_collision (fields : List String) (xs : List Value) (st : State)
    (hv : st.ctx.Value = .seq xs)
    (hstrings : ∀ x ∈ xs, ∃ a, x = .map a
      ∧ ∀ field ∈ fields, ∃ v, st.heap a field = some (.str v))
    (hdistinct : ∀ (i j : Nat) (a b : Addr), i < j → xs[i]? = some (Value.map a) → xs[j]? = some (Value.map b) →
      ∃ field ∈ fields, st.heap a field ≠ st.heap b field) :
    ((∀ (i j : Nat) (a b : Addr), i < j → xs[i]? = some (Value.map a) → xs[j]? = some (Value.map b) →
        compositeKey (st.heap a) fields ≠ compositeKey (st.heap b) fields) →
      uniqueObjectsRule fields st = some st)
    ∧ (fields.length = 1 → uniqueObjectsRule fields st = some st)
    ∧ (uniqueObjectsRule fields st ≠ some st →
        ∃ (i j : Nat) (a b : Addr), i < j ∧ xs[i]? = some (Value.map a) ∧ xs[j]? = some (Value.map b)
          ∧ (∃ field ∈ fields, st.heap a field ≠ st.heap b field)
          ∧ compositeKey (st.heap a) fields = compositeKey (st.heap b) fields) := by
  have hmain : (∀ (i j : Nat) (a b : Addr), i < j → xs[i]? = some (Value.map a) → xs[j]? = some (Value.map b) →
        compositeKey (st.heap a) fields ≠ compositeKey (st.heap b) fields) →
      uniqueObjectsRule fields st = some st := fun hkeys =>
    uniqueObjectsRule_nodup fields xs st hv hstrings
      (elementKeys_nodup st.heap fields xs hstrings hkeys)
  refine ⟨hmain, ?_, ?_⟩
  · intro hlen
    obtain ⟨field, hfield⟩ := List.length_eq_one.mp hlen
    subst hfield
    apply hmain
    intro i j a b hij hi hj hkey
    obtain ⟨f, hf, hne⟩ := hdistinct i j a b hij hi hj
    rw [List.mem_singleton] at hf
    subst hf
    obtain ⟨a2, ha2, hsa⟩ := hstrings _ (List.getElem?_mem hi)
    obtain ⟨b2, hb2, hsb⟩ := hstrings _ (List.getElem?_mem hj)
    obtain rfl : a = a2 := by injection ha2
    obtain rfl : b = b2 := by injection hb2
    obtain ⟨va, hva⟩ := hsa f (List.mem_singleton_self _)
    obtain ⟨vb, hvb⟩ := hsb f (List.mem_singleton_self _)
    rw [compositeKey_single _ _ _ hva, compositeKey_single _ _ _ hvb] at hkey
    apply hne
    rw [hva, hvb, hkey]
  · intro hrule
    by_contra hno
    apply hrule
    apply hmain
    intro i j a b hij hi hj hkey
    exact hno ⟨i, j, a, b, hij, hi, hj, hdistinct i j a b hij hi hj, hkey⟩

/-- Witness of C13 as amended: with the fields `a` and `b`, the objects
`{"a": "x", "b": "yz"}` and `{"a": "x", "b": "y"}` differ on `b` and have the
keys `xyz` and `xy`; the rule adds no error. -/
theorem unique_objects_without_collision_witness :
    ((uniqueObjectsRule ["a", "b"] distinctState).map fun r => r.ctx.ErrorBag.m) = some []
    ∧ elementKeys distinctHeap ["a", "b"] [.map 0, .map 1] = ["xyz", "xy"]
    ∧ uniqueObjectsRule ["a", "b"] distinctState = some distinctState := by
  have h := unique_objects_without_collision ["a", "b"] [.map 0, .map 1] distinctState rfl
    (by
      intro x hx
      simp only [List.mem_cons, List.mem_singleton, List.not_mem_nil, or_false] at hx
      rcases hx with h | h <;> subst h
      · refine ⟨0, rfl, fun field hf => ?_⟩
        simp only [List.mem_cons, List.mem_singleton, List.not_mem_nil, or_false] at hf
        rcases hf with h | h <;> subst h
        · exact ⟨"x", rfl⟩
        · exact ⟨"yz", rfl⟩
      · refine ⟨1, rfl, fun field hf => ?_⟩
        simp only [List.mem_cons, List.mem_singleton, List.not_mem_nil, or_false] at hf
        rcases hf with h | h <;> subst h
        · exact ⟨"x", rfl⟩
        · exact ⟨"y", rfl⟩)
    (by
      intro i j a b hij hi hj
      have hj2 : j < 2 := by
        by_contra hge
        have : ([Value.map 0, Value.map 1] : List Value)[j]? = none :=
          List.getElem?_eq_none (by simp; omega)
        rw [this] at hj
        cases hj
      have hi0 : i = 0 := by omega
      have hj1 : j = 1 := by omega
      subst hi0 hj1
      simp at hi hj
      subst hi hj
      exact ⟨"b", by simp, by decide⟩)
  have hrule := h.1 (by
      intro i j a b hij hi hj
      have hj2 : j < 2 := by
        by_contra hge
        have : ([Value.map 0, Value.map 1] : List Value)[j]? = none :=
          List.getElem?_eq_none (by simp; omega)
        rw [this] at hj
        cases hj
      have hi0 : i = 0 := by omega
      have hj1 : j = 1 := by omega
      subst hi0 hj1
      simp at hi hj
      subst hi hj
      decide)
  exact ⟨by rw [hrule]; rfl, by decide, hrule⟩

/-- C14, the code at the failing input: `UniqueObjects("id")` panics on the
sequence `[{"name": "x"}]`, whose element has no field `id`, and on the
sequence `[{"id": 1}]`, whose field `id` holds a number. -/
theorem unique_objects_panics :
    uniqueObjectsRule ["id"] (idState [.map 3]) = none
    ∧ uniqueObjectsRule ["id"] (idState [.map 4]) = none := by
  refine ⟨rfl, rfl⟩

/-! ## `Items` -/

theorem AddBag_foldl_plain (l : List FieldError) (bag : ErrorBag) (n : Nat)
    (h : bag.tmpl = "") :
    (l.foldl (fun r err => r.1.Add err r.2) (bag, n)).2 = n
    ∧ (l.foldl (fun r err => r.1.Add err r.2) (bag, n)).1.tmpl = ""
    ∧ ∀ x, x ∈ (l.foldl (fun r err => r.1.Add err r.2) (bag, n)).1.m ↔ x ∈ bag.m ∨ x ∈ l := by
  induction l generalizing bag with
  | nil => simp [h]
  | cons e rest ih =>
    have hadd : bag.Add e n = ({ bag with m := mapInsert bag.m e }, n) := by
      simp [ErrorBag.Add, h]
    simp only [List.foldl_cons, hadd]
    obtain ⟨h1, h2, h3⟩ := ih { bag with m := mapInsert bag.m e } h
    refine ⟨h1, h2, ?_⟩
    intro x
    rw [h3 x, mem_mapInsert, List.mem_cons]
    tauto

theorem AddBag_plain (bag bag2 : ErrorBag) (n : Nat) (h : bag.tmpl = "") :
    (bag.AddBag bag2 n).2 = n
    ∧ (bag.AddBag bag2 n).1.tmpl = ""
    ∧ ∀ x, x ∈ (bag.AddBag bag2 n).1.m ↔ x ∈ bag.m ∨ x ∈ bag2.m :=
  AddBag_foldl_plain bag2.m bag n h

theorem AddBag_foldl_template (l : List FieldError) (bag : ErrorBag) (n : Nat)
    (h : bag.tmpl ≠ "") :
    (l.foldl (fun r err => r.1.Add err r.2) (bag, n)).2 = n + l.length
    ∧ (l.foldl (fun r err => r.1.Add err r.2) (bag, n)).1.tmpl = bag.tmpl
    ∧ ∀ e, e ∈ (l.foldl (fun r err => r.1.Add err r.2) (bag, n)).1.m
        ↔ e ∈ bag.m
          ∨ ∃ (k : Nat) (x : FieldError), l[k]? = some x
              ∧ e = ⟨x.Field, ⟨n + k, Sprintf1 bag.tmpl x.Err.msg⟩⟩ := by
  induction l generalizing bag n with
  | nil => simp
  | cons e0 rest ih =>
    have hadd : bag.Add e0 n
        = ({ bag with m := mapInsert bag.m ⟨e0.Field, ⟨n, Sprintf1 bag.tmpl e0.Err.msg⟩⟩ },
            n + 1) := by
      simp [ErrorBag.Add, h, applyErrorMessageTemplate]
    simp only [List.foldl_cons, hadd]
    obtain ⟨h1, h2, h3⟩ := ih
      { bag with m := mapInsert bag.m ⟨e0.Field, ⟨n, Sprintf1 bag.tmpl e0.Err.msg⟩⟩ } (n + 1) h
    refine ⟨by rw [h1, List.length_cons]; omega, h2, ?_⟩
    intro e
    rw [h3 e, mem_mapInsert]
    constructor
    · rintro ((hx | hx) | ⟨k, x, hk, hx⟩)
      · exact Or.inl hx
      · exact Or.inr ⟨0, e0, by simp, by rw [hx]; rfl⟩
      · refine Or.inr ⟨k + 1, x, by simpa using hk, ?_⟩
        rw [hx]
        show _ = (⟨x.Field, ⟨n + (k + 1), _⟩⟩ : FieldError)
        rw [Nat.add_assoc, Nat.add_comm 1 k]
    · rintro (hx | ⟨k, x, hk, hx⟩)
      · exact Or.inl (Or.inl hx)
      · cases k with
        | zero =>
          simp only [List.getElem?_cons_zero, Option.some.injEq] at hk
          subst hk
          exact Or.inl (Or.inr (by rw [hx]; rfl))
        | succ k =>
          refine Or.inr ⟨k, x, by simpa using hk, ?_⟩
          rw [hx]
          show _ = (⟨x.Field, ⟨n + 1 + k, _⟩⟩ : FieldError)
          rw [Nat.add_assoc, Nat.add_comm 1 k]

theorem itemsStep_errs (ctx : Context) (i : Nat) (rv : Value) (acc : ItemsAcc)
    (schema : Schema) (h : acc.errs.tmpl = "") :
    (itemsStep ctx i rv acc schema).errs.tmpl = ""
    ∧ ∀ x, x ∈ (itemsStep ctx i rv acc schema).errs.m
        ↔ x ∈ acc.errs.m
          ∨ x ∈ (schema.validate ⟨itemContext ctx i rv, acc.heap, acc.nextErr⟩).ctx.ErrorBag.m := by
  unfold itemsStep
  exact (AddBag_plain acc.errs _ _ h).2

theorem itemsInner_errs (ctx : Context) (i : Nat) (rv : Value) (schemas : List Schema)
    (acc : ItemsAcc) (h : acc.errs.tmpl = "") :
    (schemas.foldl (itemsStep ctx i rv) acc).errs.tmpl = ""
    ∧ ∀ x, x ∈ (schemas.foldl (itemsStep ctx i rv) acc).errs.m
        ↔ x ∈ acc.errs.m
          ∨ ∃ c ∈ itemsInnerCalls ctx i rv schemas acc,
              x ∈ (c.2.1.validate c.2.2).ctx.ErrorBag.m := by
  induction schemas generalizing acc with
  | nil => simp [h, itemsInnerCalls]
  | cons schema rest ih =>
    obtain ⟨h1, h2⟩ := itemsStep_errs ctx i rv acc schema h
    obtain ⟨h3, h4⟩ := ih (itemsStep ctx i rv acc schema) h1
    refine ⟨h3, ?_⟩
    intro x
    simp only [List.foldl_cons, itemsInnerCalls, List.mem_cons, exists_eq_or_imp]
    rw [h4 x, h2 x]
    tauto

theorem itemsLoop_errs (ctx : Context) (schemas : List Schema) (i : Nat) (xs : List Value)
    (acc : ItemsAcc) (h : acc.errs.tmpl = "") :
    (itemsLoop ctx schemas i xs acc).errs.tmpl = ""
    ∧ ∀ x, x ∈ (itemsLoop ctx schemas i xs acc).errs.m
        ↔ x ∈ acc.errs.m
          ∨ ∃ c ∈ itemsCalls ctx schemas i xs acc,
              x ∈ (c.2.1.validate c.2.2).ctx.ErrorBag.m := by
  induction xs generalizing i acc with
  | nil => simp [h, itemsLoop, itemsCalls]
  | cons rv rest ih =>
    obtain ⟨h1, h2⟩ := itemsInner_errs ctx i rv schemas acc h
    obtain ⟨h3, h4⟩ := ih (i + 1) (schemas.foldl (itemsStep ctx i rv) acc) h1
    refine ⟨h3, ?_⟩
    intro x
    simp only [itemsLoop, itemsCalls, List.mem_append]
    rw [h4 x, h2 x]
    constructor
    · rintro ((hx | ⟨c, hc, hx⟩) | ⟨c, hc, hx⟩)
      · exact Or.inl hx
      · exact Or.inr ⟨c, Or.inl hc, hx⟩
      · exact Or.inr ⟨c, Or.inr hc, hx⟩
    · rintro (hx | ⟨c, hc | hc, hx⟩)
      · exact Or.inl (Or.inl hx)
      · exact Or.inl (Or.inr ⟨c, hc, hx⟩)
      · exact Or.inr ⟨c, hc, hx⟩

theorem itemsInnerCalls_spec (ctx : Context) (i : Nat) (rv : Value) (schemas : List Schema)
    (acc : ItemsAcc) :
    (itemsInnerCalls ctx i rv schemas acc).map (fun c => (c.1, c.2.1))
        = schemas.map (fun schema => (i, schema))
    ∧ ∀ c ∈ itemsInnerCalls ctx i rv schemas acc, c.1 = i ∧ c.2.2.ctx = itemContext ctx i rv := by
  induction schemas generalizing acc with
  | nil => simp [itemsInnerCalls]
  | cons schema rest ih =>
    obtain ⟨h1, h2⟩ := ih (itemsStep ctx i rv acc schema)
    refine ⟨by simp [itemsInnerCalls, h1], ?_⟩
    intro c hc
    simp only [itemsInnerCalls, List.mem_cons] at hc
    rcases hc with hc | hc
    · subst hc; exact ⟨rfl, rfl⟩
    · exact h2 c hc

theorem itemsCalls_spec (ctx : Context) (schemas : List Schema) (i : Nat) (xs : List Value)
    (acc : ItemsAcc) :
    ∀ c ∈ itemsCalls ctx schemas i xs acc,
      ∃ rv, i ≤ c.1 ∧ xs[c.1 - i]? = some rv ∧ c.2.2.ctx = itemContext ctx c.1 rv := by
  induction xs generalizing i acc with
  | nil => intro c hc; simp [itemsCalls] at hc
  | cons rv rest ih =>
    intro c hc
    simp only [itemsCalls, List.mem_append] at hc
    rcases hc with hc | hc
    · obtain ⟨h1, h2⟩ := (itemsInnerCalls_spec ctx i rv schemas acc).2 c hc
      refine ⟨rv, by omega, ?_, by rw [h1]; exact h2⟩
      rw [h1]; simp
    · obtain ⟨rv2, h1, h2, h3⟩ := ih (i + 1) _ c hc
      refine ⟨rv2, by omega, ?_, h3⟩
      have : c.1 - i = (c.1 - (i + 1)) + 1 := by omega
      rw [this]
      simpa using h2

theorem range_pairs_shift {α : Type} (n i : Nat) (schemas : List α) :
    schemas.map (fun schema => (i, schema))
        ++ (List.range n).flatMap (fun k => schemas.map fun schema => (i + 1 + k, schema))
      = (List.range (n + 1)).flatMap fun k => schemas.map fun schema => (i + k, schema) := by
  rw [List.range_succ_eq_map, List.flatMap_cons]
  congr 1
  simp only [List.flatMap, List.map_map]
  congr 2
  funext k
  simp only [Function.comp]
  apply List.map_congr_left
  intro schema _
  show (i + 1 + k, schema) = (i + (k + 1), schema)
  rw [Nat.add_assoc, Nat.add_comm 1 k]

theorem itemsCalls_pairs (ctx : Context) (schemas : List Schema) (i : Nat) (xs : List Value)
    (acc : ItemsAcc) :
    (itemsCalls ctx schemas i xs acc).map (fun c => (c.1, c.2.1))
      = (List.range xs.length).flatMap fun k => schemas.map fun schema => (i + k, schema) := by
  induction xs generalizing i acc with
  | nil => simp [itemsCalls]
  | cons rv rest ih =>
    simp only [itemsCalls, List.map_append, (itemsInnerCalls_spec ctx i rv schemas acc).1,
      ih (i + 1), List.length_cons]
    exact range_pairs_shift rest.length i schemas

/-- C15, counterexample: `Items(String())` on the sequence `[1]` at the path
`list`, in a context on whose bag `When` has set the template
`%s when list = a`.  The string schema, validating the element in its new
context, produces the error `list.0 must be a string`; the bag of the array
holds afterwards another error, allocated later, with the message
`must be a string when list = a`, and not the error the schema produced.  This
is the state in which `When("type", "a", Array().Items(String()))` validates
its schema for the key `list` of `{"type": "a", "list": [1]}`. -/
theorem items_template_rewrites_errors :
    (itemsCalls listTemplateState.ctx [jioString.toSchema] 0 [.float 1]
        (itemsStart listTemplateState)).map
      (fun c => (c.1, (c.2.1.validate c.2.2).ctx.ErrorBag.m))
      = [(0, [⟨"list.0", ⟨0, "must be a string"⟩⟩])]
    ∧ (itemsRule [jioString.toSchema] listTemplateState).ctx.ErrorBag.m
      = [⟨"list.0", ⟨1, "must be a string when list = a"⟩⟩]
    ∧ (⟨"list.0", ⟨0, "must be a string"⟩⟩ : FieldError)
        ∉ (itemsRule [jioString.toSchema] listTemplateState).ctx.ErrorBag.m
    ∧ ∀ formatFloat : Float64 → String,
        (whenEqual refKey formatFloat "type" (jioArray.Items [jioString.toSchema]).toSchema
            listKeyState).map (fun r => r.ctx.ErrorBag.m)
          = some [⟨"list.0", ⟨1, "must be a string when list = a"⟩⟩] := by
  refine ⟨by decide, by decide, by decide, fun _ => rfl⟩

/-- C15 as amended: the rule of `Items(schemas...)` on a sequence.  The loops
call `Validate` once for every index and every schema, in order, each time in a
new context for the element (empty bag without template, `skip` clear) whose
path is the array's path extended by the index in decimal.  The bag `errs` the
check function returns holds exactly the errors found in the bags of these
contexts after their validations, and the rule passes every entry of `errs`
to `Add` of the array's bag.  When that bag has no template, its entries after
the rule are its entries before together with those errors.  When it has a
template, its entries after the rule are its entries before together with,
for every entry of `errs`, a newly allocated error at the same path whose
message is the entry's message rendered by the template.  Value, path and
`skip` of the array's context are as before. -/
theorem items_collects_errors (schemas : List Schema) (xs : List Value) (st : State)
    (hv : st.ctx.Value = .seq xs) :
    itemsRule schemas st
        = State.addBag
            { st with
              heap := (itemsLoop st.ctx schemas 0 xs (itemsStart st)).heap,
              nextErr := (itemsLoop st.ctx schemas 0 xs (itemsStart st)).nextErr }
            (itemsLoop st.ctx schemas 0 xs (itemsStart st)).errs
    ∧ (itemsCalls st.ctx schemas 0 xs (itemsStart st)).map (fun c => (c.1, c.2.1))
        = (List.range xs.length).flatMap (fun i => schemas.map fun schema => (i, schema))
    ∧ (∀ c ∈ itemsCalls st.ctx schemas 0 xs (itemsStart st),
        ∃ rv, xs[c.1]? = some rv
          ∧ c.2.2.ctx = itemContext st.ctx c.1 rv
          ∧ c.2.2.ctx.Value = rv
          ∧ c.2.2.ctx.fields = st.ctx.fields ++ [toString c.1]
          ∧ c.2.2.ctx.ErrorBag = NewErrorBag
          ∧ c.2.2.ctx.skip = false)
    ∧ (∀ e, e ∈ (itemsLoop st.ctx schemas 0 xs (itemsStart st)).errs.m
        ↔ ∃ c ∈ itemsCalls st.ctx schemas 0 xs (itemsStart st),
            e ∈ (c.2.1.validate c.2.2).ctx.ErrorBag.m)
    ∧ (st.ctx.ErrorBag.tmpl = "" →
        ∀ e, e ∈ (itemsRule schemas st).ctx.ErrorBag.m
          ↔ e ∈ st.ctx.ErrorBag.m
            ∨ ∃ c ∈ itemsCalls st.ctx schemas 0 xs (itemsStart st),
                e ∈ (c.2.1.validate c.2.2).ctx.ErrorBag.m)
    ∧ (st.ctx.ErrorBag.tmpl ≠ "" →
        ∀ e, e ∈ (itemsRule schemas st).ctx.ErrorBag.m
          ↔ e ∈ st.ctx.ErrorBag.m
            ∨ ∃ (k : Nat) (x : FieldError),
                (itemsLoop st.ctx schemas 0 xs (itemsStart st)).errs.m[k]? = some x
                ∧ e = ⟨x.Field, ⟨(itemsLoop st.ctx schemas 0 xs (itemsStart st)).nextErr + k,
                    Sprintf1 st.ctx.ErrorBag.tmpl x.Err.msg⟩⟩)
    ∧ (itemsRule schemas st).ctx.Value = st.ctx.Value
    ∧ (itemsRule schemas st).ctx.fields = st.ctx.fields
    ∧ (itemsRule schemas st).ctx.skip = st.ctx.skip := by
  have hkind : st.ctx.AssertKind Kind.Slice = true := by
    simp [Context.AssertKind, hv, Value.kind]
  have hrule : itemsRule schemas st
      = State.addBag
          { st with
            heap := (itemsLoop st.ctx schemas 0 xs (itemsStart st)).heap,
            nextErr := (itemsLoop st.ctx schemas 0 xs (itemsStart st)).nextErr }
          (itemsLoop st.ctx schemas 0 xs (itemsStart st)).errs := by
    unfold itemsRule arrayCheckRule itemsCheck
    simp only [hkind, if_true, hv, checkOutcome]
    rfl
  have herrs := itemsLoop_errs st.ctx schemas 0 xs (itemsStart st) rfl
  have hmem : ∀ e, e ∈ (itemsLoop st.ctx schemas 0 xs (itemsStart st)).errs.m
      ↔ ∃ c ∈ itemsCalls st.ctx schemas 0 xs (itemsStart st),
          e ∈ (c.2.1.validate c.2.2).ctx.ErrorBag.m := by
    intro e
    rw [herrs.2 e]
    simp [itemsStart, NewErrorBag]
  refine ⟨hrule, ?_, ?_, hmem, ?_, ?_, ?_, ?_, ?_⟩
  · rw [itemsCalls_pairs]
    simp
  · intro c hc
    obtain ⟨rv, _, h2, h3⟩ := itemsCalls_spec st.ctx schemas 0 xs (itemsStart st) c hc
    refine ⟨rv, by simpa using h2, h3, ?_, ?_, ?_, ?_⟩ <;> rw [h3] <;>
      simp [itemContext, NewContext]
  · intro ht e
    rw [hrule]
    have h := (AddBag_plain st.ctx.ErrorBag
      (itemsLoop st.ctx schemas 0 xs (itemsStart st)).errs
      (itemsLoop st.ctx schemas 0 xs (itemsStart st)).nextErr ht).2.2 e
    simp only [State.addBag]
    rw [h, hmem e]
  · intro ht e
    rw [hrule]
    exact (AddBag_foldl_template (itemsLoop st.ctx schemas 0 xs (itemsStart st)).errs.m
      st.ctx.ErrorBag (itemsLoop st.ctx schemas 0 xs (itemsStart st)).nextErr ht).2.2 e
  · rw [hrule]; exact hv ▸ rfl
  · rw [hrule]; rfl
  · rw [hrule]; rfl

/-- Witness of C15 as amended: `Items(String(), Number())` on the sequence
`[1]` at the path `name`: the element fails the string schema and passes the
number schema, and the bag ends with the single error
`name.0 must be a string`.  With the template `%s when list = a` set on the
bag, `Items(String())` on `[1]` at the path `list` adds the error
`list.0 must be a string when list = a`. -/
theorem items_collects_errors_witness :
    oneItemState.ctx.Value = .seq [.float 1]
    ∧ (itemsRule [jioString.toSchema, jioNumber.toSchema] oneItemState).ctx.ErrorBag.m
        = [⟨"name.0", ⟨0, "must be a string"⟩⟩]
    ∧ (itemsCalls oneItemState.ctx [jioString.toSchema, jioNumber.toSchema] 0 [.float 1]
          (itemsStart oneItemState)).map
        (fun c => (c.1, c.2.2.ctx.fields, (c.2.1.validate c.2.2).ctx.ErrorBag.m))
        = [(0, ["name", "0"], [⟨"name.0", ⟨0, "must be a string"⟩⟩]), (0, ["name", "0"], [])]
    ∧ (∀ e, e ∈ (itemsRule [jioString.toSchema, jioNumber.toSchema] oneItemState).ctx.ErrorBag.m
        ↔ e ∈ oneItemState.ctx.ErrorBag.m
          ∨ ∃ c ∈ itemsCalls oneItemState.ctx [jioString.toSchema, jioNumber.toSchema] 0
                [.float 1] (itemsStart oneItemState),
              e ∈ (c.2.1.validate c.2.2).ctx.ErrorBag.m)
    ∧ listTemplateState.ctx.Value = .seq [.float 1]
    ∧ (itemsLoop listTemplateState.ctx [jioString.toSchema] 0 [.float 1]
          (itemsStart listTemplateState)).errs.m = [⟨"list.0", ⟨0, "must be a string"⟩⟩]
    ∧ (itemsLoop listTemplateState.ctx [jioString.toSchema] 0 [.float 1]
          (itemsStart listTemplateState)).nextErr = 1
    ∧ ∀ e, e ∈ (itemsRule [jioString.toSchema] listTemplateState).ctx.ErrorBag.m
        ↔ e ∈ listTemplateState.ctx.ErrorBag.m
          ∨ ∃ (k : Nat) (x : FieldError),
              (itemsLoop listTemplateState.ctx [jioString.toSchema] 0 [.float 1]
                (itemsStart listTemplateState)).errs.m[k]? = some x
              ∧ e = ⟨x.Field,
                  ⟨(itemsLoop listTemplateState.ctx [jioString.toSchema] 0 [.float 1]
                      (itemsStart listTemplateState)).nextErr + k,
                    Sprintf1 listTemplateState.ctx.ErrorBag.tmpl x.Err.msg⟩⟩ :=
  ⟨rfl, by decide, by decide,
   (items_collects_errors [jioString.toSchema, jioNumber.toSchema] [.float 1] oneItemState
      rfl).2.2.2.2.1 rfl,
   rfl, by decide, by decide,
   (items_collects_errors [jioString.toSchema] [.float 1] listTemplateState
      rfl).2.2.2.2.2.1 (by decide)⟩

/-! ## The error bag: duplicates and rendering -/

theorem charsLess_iff (as bs : List Char) : charsLess as bs = true ↔ as < bs := by
  induction as generalizing bs with
  | nil =>
    cases bs with
    | nil =>
      simp only [charsLess]
      exact ⟨fun h => (by cases h), fun h => (by cases h)⟩
    | cons b bs =>
      simp only [charsLess]
      exact ⟨fun _ => List.Lex.nil, fun _ => trivial⟩
  | cons a as ih =>
    cases bs with
    | nil =>
      simp only [charsLess]
      exact ⟨fun h => (by cases h), fun h => (by cases h)⟩
    | cons b bs =>
      unfold charsLess
      by_cases h1 : a < b
      · simp only [h1, if_true]
        exact ⟨fun _ => List.Lex.rel h1, fun _ => trivial⟩
      · by_cases h2 : b < a
        · simp only [h1, h2, if_true, if_false]
          refine ⟨fun h => (by cases h), fun h => ?_⟩
          cases h with
          | rel h => exact absurd h h1
          | cons h => exact absurd h2 (lt_irrefl _)
        · have hab : a = b := le_antisymm (not_lt.mp h2) (not_lt.mp h1)
          subst hab
          simp only [h1, if_false]
          rw [ih bs]
          refine ⟨fun h => List.Lex.cons h, fun h => ?_⟩
          cases h with
          | rel h => exact absurd h h1
          | cons h => exact h

theorem stringLess_iff (a b : String) : stringLess a b = true ↔ a < b := by
  unfold stringLess
  rw [charsLess_iff]
  exact String.lt_iff_toList_lt.symm

theorem insertLess_ascending {α : Type} [LinearOrder α] (less : α → α → Bool)
    (hless : ∀ a b, less a b = true ↔ a < b) (x : α) (l : List α)
    (h : l.Pairwise (fun a b => a ≤ b)) :
    (insertLess less x l).Pairwise (fun a b => a ≤ b) := by
  induction l with
  | nil => simp [insertLess]
  | cons y ys ih =>
    rw [List.pairwise_cons] at h
    unfold insertLess
    split
    · rename_i hlt
      have hxy : x < y := (hless x y).mp hlt
      refine List.Pairwise.cons ?_ (List.Pairwise.cons h.1 h.2)
      intro b hb
      rcases List.mem_cons.mp hb with hb | hb
      · subst hb; exact le_of_lt hxy
      · exact le_trans (le_of_lt hxy) (h.1 b hb)
    · rename_i hge
      have hyx : y ≤ x := not_lt.mp (fun hlt => hge ((hless x y).mpr hlt))
      refine List.Pairwise.cons ?_ (ih h.2)
      intro b hb
      have hb2 : b ∈ x :: ys := (insertLess_perm _ x ys).subset hb
      rcases List.mem_cons.mp hb2 with hb3 | hb3
      · subst hb3; exact hyx
      · exact h.1 b hb3

theorem sortSlice_ascending {α : Type} [LinearOrder α] (less : α → α → Bool)
    (hless : ∀ a b, less a b = true ↔ a < b) (xs : List α) :
    (sortSlice less xs).Pairwise (fun a b => a ≤ b) := by
  have key : ∀ (ys acc : List α), acc.Pairwise (fun a b => a ≤ b) →
      (ys.foldl (fun acc x => insertLess less x acc) acc).Pairwise (fun a b => a ≤ b) := by
    intro ys
    induction ys with
    | nil => intro acc h; exact h
    | cons y ys ih =>
      intro acc h
      exact ih _ (insertLess_ascending less hless y acc h)
  exact key xs [] List.Pairwise.nil

/-- C17: for every bag, `StringArray()` is a rearrangement of the list that has,
for each entry of the bag, the entry's field path, one space and the entry's
message; it is in ascending order (no string is greater than a later one, in
the lexicographic order of strings); and `Empty()` holds exactly when it is
empty. -/
theorem string_array_sorted (bag : ErrorBag) :
    bag.StringArray.Perm (bag.m.map fun e => e.Field ++ " " ++ e.Err.msg)
    ∧ bag.StringArray.Pairwise (fun a b => a ≤ b)
    ∧ bag.StringArray.Pairwise (fun a b => stringLess b a = false)
    ∧ (∀ a b : String, stringLess a b = true ↔ a < b)
    ∧ (bag.Empty = true ↔ bag.StringArray = []) := by
  have hperm : bag.StringArray.Perm (bag.m.map fun e => e.Field ++ " " ++ e.Err.msg) :=
    sortSlice_perm _ _
  have hsorted : bag.StringArray.Pairwise (fun a b => a ≤ b) :=
    sortSlice_ascending stringLess stringLess_iff _
  refine ⟨hperm, hsorted, ?_, stringLess_iff, ?_⟩
  · refine hsorted.imp ?_
    intro a b hab
    cases hlt : stringLess b a with
    | false => rfl
    | true => exact absurd ((stringLess_iff b a).mp hlt) (not_lt.mpr hab)
  · have hlen := hperm.length_eq
    rw [List.length_map] at hlen
    simp only [ErrorBag.Empty, beq_iff_eq]
    rw [← hlen, List.length_eq_zero]

/-- C16, the code at the failing input: two `FieldError`s with the path `name`
and the message `x`, made by two calls of `errors.New`, are two keys of the
bag, and `StringArray()` renders both, while adding one of them gives one
string.  The same arises in a validation: `String().Min(5).Min(5)` on the
string `abc` leaves two entries with the same path and message. -/
theorem add_keeps_duplicates :
    ((NewErrorBag.Add ⟨"name", ⟨0, "x"⟩⟩ 2).1.Add ⟨"name", ⟨1, "x"⟩⟩ 2).1.m
        = [⟨"name", ⟨0, "x"⟩⟩, ⟨"name", ⟨1, "x"⟩⟩]
    ∧ ((NewErrorBag.Add ⟨"name", ⟨0, "x"⟩⟩ 2).1.Add ⟨"name", ⟨1, "x"⟩⟩ 2).1.StringArray
        = ["name x", "name x"]
    ∧ (NewErrorBag.Add ⟨"name", ⟨0, "x"⟩⟩ 2).1.StringArray = ["name x"]
    ∧ (StringSchema.Validate ((jioString.Min 5).Min 5)
          (sampleState (.str "abc"))).2.ctx.ErrorBag.StringArray
        = ["name must have at least 5 characters", "name must have at least 5 characters"] := by
  refine ⟨by decide, by decide, by decide, by decide⟩

/-! ## `When` -/

theorem Sprintf1_prefix (rest msg : String) :
    Sprintf1 ("%s " ++ rest) msg = msg ++ " " ++ rest := by
  unfold Sprintf1
  have h : ("%s " ++ rest).toList = '%' :: 's' :: (' ' :: rest.toList) := by
    simp [String.toList]
  rw [h]
  simp only [sprintfChars]
  apply String.ext
  simp [String.toList]

theorem whenEqual_not_found (ref : State → String → Option Value)
    (formatFloat : Float64 → String) (refPath : String) (thenSchema : Schema) (st : State)
    (href : ref st refPath = none) :
    whenEqual ref formatFloat refPath thenSchema st = some st := by
  simp [whenEqual, href]

theorem whenEqual_found (ref : State → String → Option Value)
    (formatFloat : Float64 → String) (refPath : String) (thenSchema : Schema) (st : State)
    (value : Value) (last shown : String)
    (href : ref st refPath = some value) (hcomp : value.comparable = true)
    (hlast : st.ctx.fields.getLast? = some last)
    (hshown : formatV formatFloat value = some shown) :
    whenEqual ref formatFloat refPath thenSchema st
      = some ((thenSchema.validate
          (st.setTemplate ("%s " ++ ("when " ++ last ++ " = " ++ shown)))).setTemplate "") := by
  simp [whenEqual, href, hcomp, hlast, hshown]

theorem Add_with_when_template (bag : ErrorBag) (rest : String) (e : FieldError) (n : Nat)
    (ht : bag.tmpl = "%s " ++ rest) :
    bag.Add e n
      = ({ bag with m := mapInsert bag.m ⟨e.Field, ⟨n, e.Err.msg ++ " " ++ rest⟩⟩ }, n + 1) := by
  have hne : bag.tmpl ≠ "" := by
    rw [ht]
    intro h
    have := congrArg String.length h
    simp at this
    exact absurd this.1 (by decide)
  simp only [ErrorBag.Add, applyErrorMessageTemplate, hne, ne_eq, not_false_eq_true, if_true,
    if_false]
  rw [ht, Sprintf1_prefix]

/-- C18, the code at the failing inputs: `whenEqual` panics, whatever the
then-schema, when the path of the context is empty (a top-level object whose
key `type` the reference resolves to), and when the referenced value is a map
(the key `meta` seen from the field `name`).  With the reference `type` seen
from the field `name` it returns. -/
theorem when_panics (formatFloat : Float64 → String) (thenSchema : Schema) :
    refKey whenTopState "type" = some (.str "a")
    ∧ whenEqual refKey formatFloat "type" thenSchema whenTopState = none
    ∧ refKey whenNameState "meta" = some (.map 1)
    ∧ whenEqual refKey formatFloat "meta" thenSchema whenNameState = none
    ∧ (whenEqual refKey formatFloat "type" thenSchema whenNameState).isSome = true := by
  refine ⟨rfl, rfl, rfl, rfl, rfl⟩

/-! ## `ParseString` -/

/-- C20: the rule of `ParseString()`, for any behaviour of the library's
`strconv.ParseFloat`.  On a value that is not a string the state is left as it
was.  On a string that parses, the only change is that the value becomes the
parsed number.  On a string that does not parse, the rule ends in the state
`Abort` leaves for the number type error: the bag gets that one entry at the
field path, `skip` is set and the value is still the string. -/
theorem parse_string_rule (parseFloat : String → Option Float64) (st : State) :
    ((∀ v, st.ctx.Value ≠ .str v) → parseStringRule parseFloat st = st)
    ∧ (∀ v x, st.ctx.Value = .str v → parseFloat v = some x →
        parseStringRule parseFloat st = { st with ctx := { st.ctx with Value := .float x } })
    ∧ (∀ v, st.ctx.Value = .str v → parseFloat v = none →
        parseStringRule parseFloat st = abortedState st ErrorMessageTypeNumber
        ∧ (abortedState st ErrorMessageTypeNumber).ctx.ErrorBag.m
            = mapInsert st.ctx.ErrorBag.m (reportedError st ErrorMessageTypeNumber)
        ∧ (st.fresh → (abortedState st ErrorMessageTypeNumber).ctx.ErrorBag.m
            = st.ctx.ErrorBag.m ++ [reportedError st ErrorMessageTypeNumber])
        ∧ (reportedError st ErrorMessageTypeNumber).Field = st.ctx.FieldPath
        ∧ (st.ctx.ErrorBag.tmpl = "" → reportedError st ErrorMessageTypeNumber
            = ⟨st.ctx.FieldPath, ⟨st.nextErr, "must be a number"⟩⟩)
        ∧ (abortedState st ErrorMessageTypeNumber).ctx.skip = true
        ∧ (abortedState st ErrorMessageTypeNumber).ctx.Value = .str v) := by
  refine ⟨?_, ?_, ?_⟩
  · intro hv
    unfold parseStringRule
    cases h : st.ctx.Value with
    | str v => exact absurd h (hv v)
    | _ => rfl
  · intro v x hv hp
    unfold parseStringRule
    simp only [hv, hp]
  · intro v hv hp
    refine ⟨?_, rfl, abortedState_bag_fresh st _, reportedError_Field st _, ?_, rfl, hv⟩
    · unfold parseStringRule
      simp only [hv, hp]
      exact abortWith_NewError st ErrorMessageTypeNumber
    · intro ht
      rw [reportedError_plain st _ ht]
      rfl

/-- Witness of C20: with a parser that accepts `3.5` only, the rule turns the
string `3.5` into the number, reports `name must be a number` for the string
`abc` and leaves the number 2 alone. -/
theorem parse_string_rule_witness :
    parseStringRule sampleParseFloat (sampleState (.str "3.5"))
        = { sampleState (.str "3.5") with
            ctx := { (sampleState (.str "3.5")).ctx with Value := .float (7 / 2) } }
    ∧ (parseStringRule sampleParseFloat (sampleState (.str "abc"))).ctx.ErrorBag.m
        = [⟨"name", ⟨0, "must be a number"⟩⟩]
    ∧ parseStringRule sampleParseFloat (sampleState (.float 2)) = sampleState (.float 2) := by
  refine ⟨?_, ?_, ?_⟩
  · exact (parse_string_rule sampleParseFloat (sampleState (.str "3.5"))).2.1 "3.5" (7 / 2)
      rfl rfl
  · rw [((parse_string_rule sampleParseFloat (sampleState (.str "abc"))).2.2 "abc" rfl rfl).1]
    rfl
  · exact (parse_string_rule sampleParseFloat (sampleState (.float 2))).1
      (fun v h => by cases h)

/-! ## Revalidation of a validated string -/

theorem mapInsert_ne_nil (m : List FieldError) (e : FieldError) : mapInsert m e ≠ [] := by
  unfold mapInsert
  split
  · rename_i h
    intro hm
    rw [hm] at h
    exact absurd h (List.not_mem_nil _)
  · simp

theorem runRules_cons_noskip (rule : Rule) (rest : List Rule) (st : State)
    (h : (rule st).ctx.skip = false) : runRules (rule :: rest) st = runRules rest (rule st) := by
  simp [runRules, h]

theorem absenceOp_present (a : AbsenceOp) (st : State) (hpresent : st.ctx.Value ≠ .null) :
    a.rule st = st := by
  cases a with
  | required => exact absenceRule_present _ st (Or.inl rfl) hpresent
  | optional => exact absenceRule_present _ st (Or.inr rfl) hpresent
  | default value =>
    show defaultRule (.str value) st = st
    unfold defaultRule
    split
    · rename_i hv; exact absurd hv hpresent
    · rfl

theorem runRules_absence_present (abs : List AbsenceOp) (rest : List Rule) (st : State)
    (hpresent : st.ctx.Value ≠ .null) (hskip : st.ctx.skip = false) :
    runRules (abs.map AbsenceOp.rule ++ rest) st = runRules rest st := by
  induction abs with
  | nil => rfl
  | cons a tail ih =>
    have hrule := absenceOp_present a st hpresent
    rw [List.map_cons, List.cons_append, runRules_cons_noskip _ _ _ (by rw [hrule]; exact hskip),
      hrule]
    exact ih

theorem transformOp_string (u : UnicodeTables) (t : TransformOp) (st : State) (x : String)
    (hv : st.ctx.Value = .str x) :
    t.rule u st = { st with ctx := { st.ctx with Value := .str (t.apply u x) } } := by
  cases t <;> simp [TransformOp.rule, TransformOp.apply, stringSetRule, stringConvertRule, hv]

theorem runRules_transforms (u : UnicodeTables) (ts : List TransformOp) (rest : List Rule) (st : State)
    (x : String) (hv : st.ctx.Value = .str x) (hskip : st.ctx.skip = false) :
    runRules (ts.map (TransformOp.rule u) ++ rest) st
      = runRules rest { st with ctx := { st.ctx with Value := .str (applyTransforms u ts x) } } := by
  induction ts generalizing st x with
  | nil =>
    simp only [List.map_nil, List.nil_append, applyTransforms, List.foldl_nil]
    rw [← hv]
  | cons t tail ih =>
    have hrule := transformOp_string u t st x hv
    rw [List.map_cons, List.cons_append, runRules_cons_noskip _ _ _ (by rw [hrule]; exact hskip),
      hrule]
    exact ih { st with ctx := { st.ctx with Value := .str (t.apply u x) } } (t.apply u x) rfl hskip

theorem runRules_checks (gs : List (String → Option String)) (st : State) (x : String)
    (hv : st.ctx.Value = .str x) (hskip : st.ctx.skip = false) :
    (runRules (gs.map stringCheckRule) st).ctx.Value = .str x
    ∧ ((runRules (gs.map stringCheckRule) st).ctx.ErrorBag.m = []
        ↔ st.ctx.ErrorBag.m = [] ∧ ∀ g ∈ gs, g x = none) := by
  induction gs generalizing st with
  | nil => simp [runRules, hv]
  | cons g tail ih =>
    cases hg : g x with
    | none =>
      have hrule : stringCheckRule g st = st := by
        simp [stringCheckRule, hv, hg]
      rw [List.map_cons, runRules_cons_noskip _ _ _ (by rw [hrule]; exact hskip), hrule]
      obtain ⟨h1, h2⟩ := ih st hv hskip
      refine ⟨h1, ?_⟩
      rw [h2]
      simp [hg]
    | some msg =>
      have hrule : stringCheckRule g st = recordedState st msg := by
        simp only [stringCheckRule, hv, hg]
        exact addError_NewError st msg
      have hskip2 : (recordedState st msg).ctx.skip = false := hskip
      rw [List.map_cons, runRules_cons_noskip _ _ _ (by rw [hrule]; exact hskip2), hrule]
      obtain ⟨h1, h2⟩ := ih (recordedState st msg) hv hskip2
      refine ⟨h1, ?_⟩
      rw [h2]
      constructor
      · intro h
        exact absurd h.1 (mapInsert_ne_nil _ _)
      · intro h
        have := h.2 g (List.mem_cons_self _ _)
        rw [hg] at this
        cases this

theorem runRules_string (u : UnicodeTables) (abs : List AbsenceOp) (ts : List TransformOp)
    (gs : List (String → Option String)) (st : State) (x : String)
    (hv : st.ctx.Value = .str x) (hskip : st.ctx.skip = false) :
    (runRules (abs.map AbsenceOp.rule
        ++ (ts.map (TransformOp.rule u) ++ gs.map stringCheckRule)) st).ctx.Value
        = .str (applyTransforms u ts x)
    ∧ ((runRules (abs.map AbsenceOp.rule
        ++ (ts.map (TransformOp.rule u) ++ gs.map stringCheckRule)) st).ctx.ErrorBag.m = []
        ↔ st.ctx.ErrorBag.m = [] ∧ ∀ g ∈ gs, g (applyTransforms u ts x) = none) := by
  rw [runRules_absence_present abs _ st (by rw [hv]; exact fun h => by cases h) hskip,
    runRules_transforms u ts _ st x hv hskip]
  exact runRules_checks gs _ (applyTransforms u ts x) rfl hskip

theorem stringValidate_rules (p : Int) (req : Option Bool) (abs : List AbsenceOp)
    (rest : List Rule) (st : State)
    (hv : st.ctx.Value = .null ∨ ∃ x, st.ctx.Value = .str x) :
    (StringSchema.Validate ⟨p, req, abs.map AbsenceOp.rule ++ rest⟩ st).2
      = runRules ((if req = none then AbsenceOp.optional :: abs else abs).map AbsenceOp.rule
          ++ rest) st := by
  have hgo : (StringSchema.Validate ⟨p, req, abs.map AbsenceOp.rule ++ rest⟩ st).2
      = runRules (if req = none
          then (StringSchema.Optional ⟨p, req, abs.map AbsenceOp.rule ++ rest⟩)
          else ⟨p, req, abs.map AbsenceOp.rule ++ rest⟩).rules st := by
    unfold StringSchema.Validate
    rcases hv with h | ⟨x, h⟩ <;> simp only [h]
  rw [hgo]
  by_cases hreq : req = none
  · simp only [hreq, if_true, StringSchema.Optional, StringSchema.PrependTransform]
    rfl
  · simp only [hreq, if_false]

theorem caseWord_lower (u : UnicodeTables) (hu : u.stable) (f : Char → Char)
    (hf : caseWord u f) : caseWord u (fun c => u.ToLower (f c)) := by
  obtain ⟨hll, huu, hlulu, hulul, -, -⟩ := hu
  rcases hf with h | h | h | h | h | h | h <;> subst h
  · exact Or.inr (Or.inl rfl)
  · exact Or.inr (Or.inl (funext fun c => hll c))
  · exact Or.inr (Or.inr (Or.inr (Or.inl rfl)))
  · exact Or.inr (Or.inr (Or.inr (Or.inl (funext fun c => hll _))))
  · exact Or.inr (Or.inr (Or.inr (Or.inr (Or.inr (Or.inl rfl)))))
  · exact Or.inr (Or.inr (Or.inr (Or.inr (Or.inr (Or.inl (funext fun c => hll _))))))
  · exact Or.inr (Or.inr (Or.inr (Or.inl (funext fun c => hlulu c))))

theorem caseWord_upper (u : UnicodeTables) (hu : u.stable) (f : Char → Char)
    (hf : caseWord u f) : caseWord u (fun c => u.ToUpper (f c)) := by
  obtain ⟨hll, huu, hlulu, hulul, -, -⟩ := hu
  rcases hf with h | h | h | h | h | h | h <;> subst h
  · exact Or.inr (Or.inr (Or.inl rfl))
  · exact Or.inr (Or.inr (Or.inr (Or.inr (Or.inl rfl))))
  · exact Or.inr (Or.inr (Or.inl (funext fun c => huu c)))
  · exact Or.inr (Or.inr (Or.inr (Or.inr (Or.inr (Or.inr rfl)))))
  · exact Or.inr (Or.inr (Or.inr (Or.inr (Or.inl (funext fun c => huu _)))))
  · exact Or.inr (Or.inr (Or.inr (Or.inr (Or.inl (funext fun c => hulul c)))))
  · exact Or.inr (Or.inr (Or.inr (Or.inr (Or.inr (Or.inr (funext fun c => huu _))))))

theorem caseWord_idem (u : UnicodeTables) (hu : u.stable) (f : Char → Char)
    (hf : caseWord u f) (c : Char) : f (f c) = f c := by
  obtain ⟨hll, huu, hlulu, hulul, -, -⟩ := hu
  rcases hf with h | h | h | h | h | h | h <;> subst h
  · rfl
  · exact hll c
  · exact huu c
  · exact hlulu c
  · exact hulul c
  · show u.ToLower (u.ToUpper (u.ToLower (u.ToLower (u.ToUpper (u.ToLower c))))) = _
    rw [hll, hlulu]
  · show u.ToUpper (u.ToLower (u.ToUpper (u.ToUpper (u.ToLower (u.ToUpper c))))) = _
    rw [huu, hulul]

theorem caseWord_space (u : UnicodeTables) (hu : u.stable) (f : Char → Char)
    (hf : caseWord u f) (c : Char) : u.IsSpace (f c) = u.IsSpace c := by
  obtain ⟨-, -, -, -, hsl, hsu⟩ := hu
  rcases hf with h | h | h | h | h | h | h <;> subst h <;> simp [hsl, hsu]

theorem dropWhile_map_space (p : Char → Bool) (f : Char → Char) (hp : ∀ c, p (f c) = p c)
    (l : List Char) : (l.map f).dropWhile p = (l.dropWhile p).map f := by
  induction l with
  | nil => rfl
  | cons a rest ih =>
    simp only [List.map_cons, List.dropWhile_cons, hp]
    split
    · exact ih
    · rfl

theorem trimChars_map (p : Char → Bool) (f : Char → Char) (hp : ∀ c, p (f c) = p c)
    (l : List Char) : trimChars p (l.map f) = (trimChars p l).map f := by
  unfold trimChars List.rdropWhile
  rw [dropWhile_map_space p f hp, ← List.map_reverse, dropWhile_map_space p f hp,
    List.map_reverse]

theorem dropWhile_rdropWhile (p : Char → Bool) (l : List Char) :
    ((l.dropWhile p).rdropWhile p).dropWhile p = (l.dropWhile p).rdropWhile p := by
  cases hd : l.dropWhile p with
  | nil => simp
  | cons a rest =>
    have ha : p a = false := by
      have := List.head_dropWhile_not p l (by rw [hd]; simp)
      simpa [hd] using this
    have hpre : List.rdropWhile p (a :: rest) <+: a :: rest := List.rdropWhile_prefix p _
    have hne : List.rdropWhile p (a :: rest) ≠ [] := by
      intro h
      rw [List.rdropWhile_eq_nil_iff] at h
      have := h a (List.mem_cons_self _ _)
      rw [ha] at this
      cases this
    obtain ⟨b, rest2, hb⟩ := List.exists_cons_of_ne_nil hne
    rw [hb] at hpre ⊢
    have hba : b = a := by
      obtain ⟨t, ht⟩ := hpre
      simp at ht
      exact ht.1
    subst hba
    simp [List.dropWhile_cons, ha]

theorem trimChars_idem (p : Char → Bool) (l : List Char) :
    trimChars p (trimChars p l) = trimChars p l := by
  unfold trimChars
  rw [dropWhile_rdropWhile, List.rdropWhile_idempotent]

theorem applyTransforms_shape (u : UnicodeTables) (hu : u.stable) (ts : List TransformOp) :
    (∃ k, ∀ x, applyTransforms u ts x = k)
    ∨ ∃ (f : Char → Char) (trimmed : Bool), caseWord u f
        ∧ ∀ x, (applyTransforms u ts x).toList
            = if trimmed then trimChars u.IsSpace (x.toList.map f) else x.toList.map f := by
  induction ts using List.reverseRecOn with
  | nil => exact Or.inr ⟨id, false, Or.inl rfl, fun x => by simp [applyTransforms]⟩
  | append_singleton ts t ih =>
    have hsnoc : ∀ x, applyTransforms u (ts ++ [t]) x = t.apply u (applyTransforms u ts x) := by
      intro x
      simp [applyTransforms, List.foldl_append]
    rcases ih with ⟨k, hk⟩ | ⟨f, trimmed, hf, hshape⟩
    · exact Or.inl ⟨t.apply u k, fun x => by rw [hsnoc, hk]⟩
    · cases t with
      | set value => exact Or.inl ⟨value, fun x => by rw [hsnoc]; rfl⟩
      | lowercase =>
        refine Or.inr ⟨fun c => u.ToLower (f c), trimmed, caseWord_lower u hu f hf, ?_⟩
        intro x
        rw [hsnoc]
        show ((applyTransforms u ts x).toList.map u.ToLower) = _
        rw [hshape]
        cases trimmed
        · simp [List.map_map, Function.comp_def]
        · simp only [if_true]
          rw [← trimChars_map _ _ hu.2.2.2.2.1, List.map_map]
          rfl
      | uppercase =>
        refine Or.inr ⟨fun c => u.ToUpper (f c), trimmed, caseWord_upper u hu f hf, ?_⟩
        intro x
        rw [hsnoc]
        show ((applyTransforms u ts x).toList.map u.ToUpper) = _
        rw [hshape]
        cases trimmed
        · simp [List.map_map, Function.comp_def]
        · simp only [if_true]
          rw [← trimChars_map _ _ hu.2.2.2.2.2, List.map_map]
          rfl
      | trim =>
        refine Or.inr ⟨f, true, hf, ?_⟩
        intro x
        rw [hsnoc]
        show trimChars u.IsSpace (applyTransforms u ts x).toList = _
        rw [hshape]
        cases trimmed
        · simp
        · simp only [if_true]
          exact trimChars_idem _ _

theorem applyTransforms_idem (u : UnicodeTables) (hu : u.stable) (ts : List TransformOp)
    (x : String) :
    applyTransforms u ts (applyTransforms u ts x) = applyTransforms u ts x := by
  rcases applyTransforms_shape u hu ts with ⟨k, hk⟩ | ⟨f, trimmed, hf, hshape⟩
  · rw [hk, hk]
  · apply String.ext
    show (applyTransforms u ts (applyTransforms u ts x)).toList = (applyTransforms u ts x).toList
    rw [hshape (applyTransforms u ts x), hshape x]
    have hmap : ∀ l : List Char, (l.map f).map f = l.map f := by
      intro l
      rw [List.map_map]
      exact List.map_congr_left (fun c _ => caseWord_idem u hu f hf c)
    cases trimmed
    · simpa using hmap x.toList
    · simp only [if_true]
      rw [← trimChars_map _ _ (caseWord_space u hu f hf), hmap, trimChars_idem]

theorem toNat_ofNat_ascii (n : Nat) (h : n < 128) : (Char.ofNat n).toNat = n := by
  interval_cases n <;> rfl

theorem char_eq_of_toNat (a b : Char) (h : a.toNat = b.toNat) : a = b := by
  have := congrArg Char.ofNat h
  rwa [Char.ofNat_toNat, Char.ofNat_toNat] at this

theorem asciiToLower_toNat (c : Char) :
    (asciiTables.ToLower c).toNat
      = if 65 ≤ c.toNat ∧ c.toNat ≤ 90 then c.toNat + 32 else c.toNat := by
  show (if 65 ≤ c.toNat ∧ c.toNat ≤ 90 then Char.ofNat (c.toNat + 32) else c).toNat = _
  split
  · rename_i h
    exact toNat_ofNat_ascii _ (by omega)
  · rfl

theorem asciiToUpper_toNat (c : Char) :
    (asciiTables.ToUpper c).toNat
      = if 97 ≤ c.toNat ∧ c.toNat ≤ 122 then c.toNat - 32 else c.toNat := by
  show (if 97 ≤ c.toNat ∧ c.toNat ≤ 122 then Char.ofNat (c.toNat - 32) else c).toNat = _
  split
  · rename_i h
    exact toNat_ofNat_ascii _ (by omega)
  · rfl

theorem asciiTables_stable : asciiTables.stable := by
  refine ⟨?_, ?_, ?_, ?_, ?_, ?_⟩
  · intro c
    apply char_eq_of_toNat
    simp only [asciiToLower_toNat]
    split_ifs <;> omega
  · intro c
    apply char_eq_of_toNat
    simp only [asciiToUpper_toNat]
    split_ifs <;> omega
  · intro c
    apply char_eq_of_toNat
    simp only [asciiToLower_toNat, asciiToUpper_toNat]
    split_ifs <;> omega
  · intro c
    apply char_eq_of_toNat
    simp only [asciiToLower_toNat, asciiToUpper_toNat]
    split_ifs <;> omega
  · intro c
    show decide _ = decide _
    rw [asciiToLower_toNat]
    split_ifs with h
    · have h1 : ¬ (c.toNat + 32 = 32 ∨ (9 ≤ c.toNat + 32 ∧ c.toNat + 32 ≤ 13)) := by omega
      have h2 : ¬ (c.toNat = 32 ∨ (9 ≤ c.toNat ∧ c.toNat ≤ 13)) := by omega
      rw [decide_eq_false h1, decide_eq_false h2]
    · rfl
  · intro c
    show decide _ = decide _
    rw [asciiToUpper_toNat]
    split_ifs with h
    · have h1 : ¬ (c.toNat - 32 = 32 ∨ (9 ≤ c.toNat - 32 ∧ c.toNat - 32 ≤ 13)) := by omega
      have h2 : ¬ (c.toNat = 32 ∨ (9 ≤ c.toNat ∧ c.toNat ≤ 13)) := by omega
      rw [decide_eq_false h1, decide_eq_false h2]
    · rfl

/-- C19, counterexample: `String().Length(3).Set("x")` validates the string
`abc` with an empty bag and the result `x`; validating `x` through the same
schema reports `must have exactly 3 characters`. -/
theorem revalidation_fails_after_set :
    (StringSchema.Validate ((jioString.Length 3).Set "x")
        (freshState (.str "abc"))).2.ctx.ErrorBag.m = []
    ∧ (StringSchema.Validate ((jioString.Length 3).Set "x")
        (freshState (.str "abc"))).2.ctx.Value = .str "x"
    ∧ (StringSchema.Validate ((jioString.Length 3).Set "x")
        (freshState (.str "x"))).2.ctx.ErrorBag.m
        = [⟨"", ⟨0, "must have exactly 3 characters"⟩⟩] := by
  refine ⟨by decide, by decide, by decide⟩

/-- C19 as amended: a string schema whose rules are absence rules
(`Required`, `Optional`, `Default`), then value-changing rules (`Set`,
`Lowercase`, `Uppercase`, `Trim`), then checks (`Check`, that is `Min`, `Max`,
`Length`, `Equal`, `Valid`), the conversions working rune by rune over tables
of package `unicode` with the properties `UnicodeTables.stable`.  If a
validation started with `skip` clear ends with an empty bag, then validating
its result value again, in any state with an empty bag and `skip` clear, ends
with an empty bag and the same value. -/
theorem revalidation_after_transforms_first (u : UnicodeTables) (hu : u.stable)
    (p : Int) (req : Option Bool) (abs : List AbsenceOp) (ts : List TransformOp) (gs : List (String → Option String))
    (st1 st2 : State)
    (hconf : req = none ∨ abs ≠ [])
    (hskip1 : st1.ctx.skip = false) (hskip2 : st2.ctx.skip = false)
    (hok : (StringSchema.Validate ⟨p, req, abs.map AbsenceOp.rule
        ++ (ts.map (TransformOp.rule u) ++ gs.map stringCheckRule)⟩ st1).2.ctx.ErrorBag.m = [])
    (hbag2 : st2.ctx.ErrorBag.m = [])
    (hval : st2.ctx.Value = (StringSchema.Validate ⟨p, req, abs.map AbsenceOp.rule
        ++ (ts.map (TransformOp.rule u) ++ gs.map stringCheckRule)⟩ st1).2.ctx.Value) :
    (StringSchema.Validate ⟨p, req, abs.map AbsenceOp.rule
        ++ (ts.map (TransformOp.rule u) ++ gs.map stringCheckRule)⟩ st2).2.ctx.ErrorBag.m = []
    ∧ (StringSchema.Validate ⟨p, req, abs.map AbsenceOp.rule
        ++ (ts.map (TransformOp.rule u) ++ gs.map stringCheckRule)⟩ st2).2.ctx.Value
        = st2.ctx.Value := by
  -- the absence rules in force, `Optional()` included when `Validate` adds it
  obtain ⟨a, tail, heff⟩ : ∃ a tail,
      (if req = none then AbsenceOp.optional :: abs else abs) = a :: tail := by
    by_cases hreq : req = none
    · exact ⟨AbsenceOp.optional, abs, by simp [hreq]⟩
    · rcases hconf with h | h
      · exact absurd h hreq
      · cases abs with
        | nil => exact absurd rfl h
        | cons a tail => exact ⟨a, tail, by simp [hreq]⟩
  -- a string that passed: validating the converted string again
  have hstring : ∀ x, st2.ctx.Value = .str (applyTransforms u ts x) →
      (∀ g ∈ gs, g (applyTransforms u ts x) = none) →
      (StringSchema.Validate ⟨p, req, abs.map AbsenceOp.rule
          ++ (ts.map (TransformOp.rule u) ++ gs.map stringCheckRule)⟩ st2).2.ctx.ErrorBag.m = []
      ∧ (StringSchema.Validate ⟨p, req, abs.map AbsenceOp.rule
          ++ (ts.map (TransformOp.rule u) ++ gs.map stringCheckRule)⟩ st2).2.ctx.Value
          = st2.ctx.Value := by
    intro x hv2 hpass
    rw [stringValidate_rules p req abs _ st2 (Or.inr ⟨_, hv2⟩)]
    obtain ⟨h1, h2⟩ := runRules_string u (if req = none then AbsenceOp.optional :: abs else abs)
      ts gs st2 _ hv2 hskip2
    rw [applyTransforms_idem u hu ts x] at h1 h2
    exact ⟨h2.mpr ⟨hbag2, hpass⟩, h1.trans hv2.symm⟩
  cases hv1 : st1.ctx.Value with
  | str x =>
    rw [stringValidate_rules p req abs _ st1 (Or.inr ⟨x, hv1⟩)] at hok hval
    obtain ⟨h1, h2⟩ := runRules_string u (if req = none then AbsenceOp.optional :: abs else abs)
      ts gs st1 x hv1 hskip1
    exact hstring x (hval.trans h1) (h2.mp hok).2
  | null =>
    rw [stringValidate_rules p req abs _ st1 (Or.inl hv1), heff] at hok hval
    cases a with
    | required =>
      have hr := requiredRule_null st1 hv1
      have hs : (requiredRule st1).ctx.skip = true := by rw [hr]; rfl
      rw [List.map_cons, List.cons_append] at hok
      rw [show AbsenceOp.required.rule = requiredRule from rfl,
        runRules_cons_skip _ _ _ hs, hr] at hok
      exact absurd hok (mapInsert_ne_nil _ _)
    | optional =>
      have hr := optionalRule_null st1 hv1
      have hs : (optionalRule st1).ctx.skip = true := by rw [hr]; rfl
      rw [List.map_cons, List.cons_append,
        show AbsenceOp.optional.rule = optionalRule from rfl,
        runRules_cons_skip _ _ _ hs, hr] at hval
      have hv2 : st2.ctx.Value = .null := hval.trans hv1
      have hr2 := optionalRule_null st2 hv2
      have hs2 : (optionalRule st2).ctx.skip = true := by rw [hr2]; rfl
      rw [stringValidate_rules p req abs _ st2 (Or.inl hv2), heff, List.map_cons,
        List.cons_append, show AbsenceOp.optional.rule = optionalRule from rfl,
        runRules_cons_skip _ _ _ hs2, hr2]
      exact ⟨hbag2, rfl⟩
    | default d =>
      have hr : (AbsenceOp.default d).rule st1
          = { st1 with ctx := { st1.ctx with Value := .str d } } := by
        show defaultRule (.str d) st1 = _
        unfold defaultRule
        rw [hv1]
      rw [List.map_cons, List.cons_append,
        runRules_cons_noskip _ _ _ (by rw [hr]; exact hskip1), hr] at hok hval
      obtain ⟨h1, h2⟩ := runRules_string u tail ts gs
        { st1 with ctx := { st1.ctx with Value := .str d } } d rfl hskip1
      exact hstring d (hval.trans h1) (h2.mp hok).2
  | bool b =>
    have : (StringSchema.Validate ⟨p, req, abs.map AbsenceOp.rule
        ++ (ts.map (TransformOp.rule u) ++ gs.map stringCheckRule)⟩ st1).2
        = abortedState st1 ErrorMessageTypeString := by
      unfold StringSchema.Validate
      simp only [hv1]
      exact abortWith_NewError st1 _
    rw [this] at hok
    exact absurd hok (mapInsert_ne_nil _ _)
  | int n =>
    have : (StringSchema.Validate ⟨p, req, abs.map AbsenceOp.rule
        ++ (ts.map (TransformOp.rule u) ++ gs.map stringCheckRule)⟩ st1).2
        = abortedState st1 ErrorMessageTypeString := by
      unfold StringSchema.Validate
      simp only [hv1]
      exact abortWith_NewError st1 _
    rw [this] at hok
    exact absurd hok (mapInsert_ne_nil _ _)
  | float y =>
    have : (StringSchema.Validate ⟨p, req, abs.map AbsenceOp.rule
        ++ (ts.map (TransformOp.rule u) ++ gs.map stringCheckRule)⟩ st1).2
        = abortedState st1 ErrorMessageTypeString := by
      unfold StringSchema.Validate
      simp only [hv1]
      exact abortWith_NewError st1 _
    rw [this] at hok
    exact absurd hok (mapInsert_ne_nil _ _)
  | seq xs =>
    have : (StringSchema.Validate ⟨p, req, abs.map AbsenceOp.rule
        ++ (ts.map (TransformOp.rule u) ++ gs.map stringCheckRule)⟩ st1).2
        = abortedState st1 ErrorMessageTypeString := by
      unfold StringSchema.Validate
      simp only [hv1]
      exact abortWith_NewError st1 _
    rw [this] at hok
    exact absurd hok (mapInsert_ne_nil _ _)
  | map b =>
    have : (StringSchema.Validate ⟨p, req, abs.map AbsenceOp.rule
        ++ (ts.map (TransformOp.rule u) ++ gs.map stringCheckRule)⟩ st1).2
        = abortedState st1 ErrorMessageTypeString := by
      unfold StringSchema.Validate
      simp only [hv1]
      exact abortWith_NewError st1 _
    rw [this] at hok
    exact absurd hok (mapInsert_ne_nil _ _)

/-- Witness of C19 as amended: with the tables on ASCII,
`String().Trim().Lowercase().Uppercase().Lowercase().Length(3)` validates the
string `  AbC ` followed by a line feed to `abc` with an empty bag, and
validating `abc` again ends with an empty bag and the value `abc`. -/
theorem revalidation_after_transforms_first_witness :
    asciiTables.stable
    ∧ (StringSchema.Validate
        (((((jioString.Trim asciiTables).Lowercase asciiTables).Uppercase asciiTables).Lowercase
          asciiTables).Length 3)
        (freshState (.str "  AbC \n"))).2.ctx.ErrorBag.m = []
    ∧ (StringSchema.Validate
        (((((jioString.Trim asciiTables).Lowercase asciiTables).Uppercase asciiTables).Lowercase
          asciiTables).Length 3)
        (freshState (.str "  AbC \n"))).2.ctx.Value = .str "abc"
    ∧ (StringSchema.Validate
        (((((jioString.Trim asciiTables).Lowercase asciiTables).Uppercase asciiTables).Lowercase
          asciiTables).Length 3)
        (freshState (.str "abc"))).2.ctx.ErrorBag.m = []
    ∧ (StringSchema.Validate
        (((((jioString.Trim asciiTables).Lowercase asciiTables).Uppercase asciiTables).Lowercase
          asciiTables).Length 3)
        (freshState (.str "abc"))).2.ctx.Value = .str "abc" :=
  ⟨asciiTables_stable, by decide, by decide,
   revalidation_after_transforms_first asciiTables asciiTables_stable 0 none []
      [.trim, .lowercase, .uppercase, .lowercase]
      [fun ctxValue =>
        if (ctxValue.utf8ByteSize : Int) ≠ 3 then some (ErrorMessageStringLengthEqual 3)
        else none]
      (freshState (.str "  AbC \n")) (freshState (.str "abc"))
      (Or.inl rfl) rfl rfl (by decide) rfl (by decide)⟩

/-! ## What `Validate` does to the schema -/

/-- C21, counterexample: `String()` has no rule and an unset tri-state;
after validating `nil` it has one rule and the tri-state "optional".  The same
happens to `Number()`, `Array()` and `Object()`. -/
theorem validate_configures_schema :
    jioString.required = none ∧ jioString.rules.length = 0
    ∧ (StringSchema.Validate jioString (freshState .null)).1.required = some false
    ∧ (StringSchema.Validate jioString (freshState .null)).1.rules.length = 1
    ∧ (NumberSchema.Validate jioNumber (freshState (.float 1))).1.required = some false
    ∧ (NumberSchema.Validate jioNumber (freshState (.float 1))).1.rules.length = 1
    ∧ (ArraySchema.Validate jioArray (freshState .null)).1.rules.length = 1
    ∧ (ObjectSchema.Validate Object (freshState .null)).1.rules.length = 1 := by
  refine ⟨rfl, rfl, rfl, rfl, rfl, rfl, rfl, rfl⟩

/-- C21 as amended: for the four variants, any rules and any state.  `Validate`
returns a schema on which `Required`, `Optional` or `Default` was called (the
tri-state is set) as it got it.  A schema with an unset tri-state is returned
as it was when the type check at the head of `Validate` fails (string, array
and object schemas) and with `Optional()` applied otherwise: the tri-state is
"optional" and the rule of `Optional()` is prepended to the rule list; the
schema so configured is no more changed by a later call. -/
theorem validate_schema_frame (p : Int) (req : Option Bool) (rules : List Rule) (st st2 : State) :
    (req ≠ none →
        (StringSchema.Validate ⟨p, req, rules⟩ st).1 = ⟨p, req, rules⟩
        ∧ (NumberSchema.Validate ⟨p, req, rules⟩ st).1 = ⟨p, req, rules⟩
        ∧ (ArraySchema.Validate ⟨p, req, rules⟩ st).1 = ⟨p, req, rules⟩
        ∧ (ObjectSchema.Validate ⟨p, req, rules⟩ st).1 = ⟨p, req, rules⟩)
    ∧ ((st.ctx.Value = .null ∨ st.ctx.Value.kind = Kind.String →
          (StringSchema.Validate ⟨p, none, rules⟩ st).1 = ⟨p, some false, optionalRule :: rules⟩)
        ∧ (st.ctx.Value ≠ .null → st.ctx.Value.kind ≠ Kind.String →
          (StringSchema.Validate ⟨p, none, rules⟩ st).1 = ⟨p, none, rules⟩)
        ∧ (NumberSchema.Validate ⟨p, none, rules⟩ st).1 = ⟨p, some false, optionalRule :: rules⟩
        ∧ (st.ctx.Value = .null ∨ st.ctx.Value.kind = Kind.Slice →
          (ArraySchema.Validate ⟨p, none, rules⟩ st).1 = ⟨p, some false, optionalRule :: rules⟩)
        ∧ (st.ctx.Value ≠ .null → st.ctx.Value.kind ≠ Kind.Slice →
          (ArraySchema.Validate ⟨p, none, rules⟩ st).1 = ⟨p, none, rules⟩)
        ∧ (st.ctx.Value = .null ∨ st.ctx.Value.kind = Kind.Map →
          (ObjectSchema.Validate ⟨p, none, rules⟩ st).1 = ⟨p, some false, optionalRule :: rules⟩)
        ∧ (st.ctx.Value ≠ .null → st.ctx.Value.kind ≠ Kind.Map →
          (ObjectSchema.Validate ⟨p, none, rules⟩ st).1 = ⟨p, none, rules⟩))
    ∧ ((StringSchema.Validate ⟨p, some false, optionalRule :: rules⟩ st2).1
          = ⟨p, some false, optionalRule :: rules⟩
        ∧ (NumberSchema.Validate ⟨p, some false, optionalRule :: rules⟩ st2).1
          = ⟨p, some false, optionalRule :: rules⟩
        ∧ (ArraySchema.Validate ⟨p, some false, optionalRule :: rules⟩ st2).1
          = ⟨p, some false, optionalRule :: rules⟩
        ∧ (ObjectSchema.Validate ⟨p, some false, optionalRule :: rules⟩ st2).1
          = ⟨p, some false, optionalRule :: rules⟩) := by
  have hset : ∀ (r : Option Bool) (rs : List Rule) (s : State), r ≠ none →
      (StringSchema.Validate ⟨p, r, rs⟩ s).1 = ⟨p, r, rs⟩
      ∧ (NumberSchema.Validate ⟨p, r, rs⟩ s).1 = ⟨p, r, rs⟩
      ∧ (ArraySchema.Validate ⟨p, r, rs⟩ s).1 = ⟨p, r, rs⟩
      ∧ (ObjectSchema.Validate ⟨p, r, rs⟩ s).1 = ⟨p, r, rs⟩ := by
    intro r rs s hr
    refine ⟨?_, ?_, ?_, ?_⟩
    · unfold StringSchema.Validate
      cases s.ctx.Value <;> simp [hr]
    · unfold NumberSchema.Validate
      simp [hr]
    · unfold ArraySchema.Validate
      cases s.ctx.Value <;> simp [hr] <;> split <;> rfl
    · unfold ObjectSchema.Validate
      cases s.ctx.Value <;> simp [hr]
  refine ⟨hset req rules st, ⟨?_, ?_, ?_, ?_, ?_, ?_, ?_⟩, hset (some false) _ st2 (by simp)⟩
  · intro h
    unfold StringSchema.Validate
    cases hv : st.ctx.Value <;> simp_all [Value.kind, StringSchema.Optional,
      StringSchema.PrependTransform]
  · intro h1 h2
    unfold StringSchema.Validate
    cases hv : st.ctx.Value <;> simp_all [Value.kind]
  · unfold NumberSchema.Validate
    simp [NumberSchema.Optional, NumberSchema.PrependTransform]
  · intro h
    unfold ArraySchema.Validate
    cases hv : st.ctx.Value <;> simp_all [Value.kind, ArraySchema.Optional,
      ArraySchema.PrependTransform, Context.AssertKind]
  · intro h1 h2
    unfold ArraySchema.Validate
    cases hv : st.ctx.Value <;> simp_all [Value.kind, Context.AssertKind]
  · intro h
    unfold ObjectSchema.Validate
    cases hv : st.ctx.Value <;> simp_all [Value.kind, ObjectSchema.Optional,
      ObjectSchema.PrependTransform]
  · intro h1 h2
    unfold ObjectSchema.Validate
    cases hv : st.ctx.Value <;> simp_all [Value.kind]

/-- Witness of C21 as amended: `String()` validated on `nil` comes back with
`Optional()` applied, and validating a string with the schema so configured
leaves it as it is. -/
theorem validate_schema_frame_witness :
    (StringSchema.Validate jioString (freshState .null)).1
        = ⟨0, some false, [optionalRule]⟩
    ∧ (StringSchema.Validate ⟨0, some false, [optionalRule]⟩ (freshState (.str "a"))).1
        = ⟨0, some false, [optionalRule]⟩ :=
  ⟨(validate_schema_frame 0 none [] (freshState .null) (freshState (.str "a"))).2.1.1
      (Or.inl rfl),
   (validate_schema_frame 0 none [] (freshState .null) (freshState (.str "a"))).2.2.1⟩

/-! ## `Check` -/

theorem numberRunRules_cons_noskip (rule : Rule) (rest : List Rule) (st : State)
    (h : (rule st).ctx.skip = false) :
    NumberSchema.runRules (rule :: rest) st = NumberSchema.runRules rest (rule st) := by
  simp [NumberSchema.runRules, h]

/-- C22: the rules of `StringSchema.Check(f)` and `NumberSchema.Check(g)`.  On a
value of the native kind for which the check function returns an error, the
only change is that the bag gets one entry, the returned message at the field
path (inserted into the bag; appended as a new entry when the bag's errors are
older than the allocation counter); `skip` and the value are as before, and
with `skip` clear the loop of `Validate` goes on with the remaining rules.  On
a value that is not of the native kind the rule ends in the state `Abort`
leaves for the type error, whatever the check function is. -/
theorem check_is_not_fatal (f : String → Option String) (g : Float64 → Option String)
    (rest : List Rule) (st : State) :
    (∀ x msg, st.ctx.Value = .str x → f x = some msg →
        stringCheckRule f st = recordedState st msg
        ∧ (st.ctx.skip = false →
            runRules (stringCheckRule f :: rest) st = runRules rest (recordedState st msg)))
    ∧ (∀ x msg, st.ctx.Value = .float x → g x = some msg →
        numberCheckRule g st = recordedState st msg
        ∧ (st.ctx.skip = false →
            NumberSchema.runRules (numberCheckRule g :: rest) st
              = NumberSchema.runRules rest (recordedState st msg)))
    ∧ (st.ctx.Value.kind ≠ Kind.String →
        stringCheckRule f st = abortedState st ErrorMessageTypeString)
    ∧ (st.ctx.Value.kind ≠ Kind.Float64 →
        numberCheckRule g st = abortedState st ErrorMessageTypeNumber)
    ∧ (∀ msg : String,
        (recordedState st msg).ctx.ErrorBag.m
            = mapInsert st.ctx.ErrorBag.m (reportedError st msg)
        ∧ (st.fresh → (recordedState st msg).ctx.ErrorBag.m
            = st.ctx.ErrorBag.m ++ [reportedError st msg])
        ∧ (reportedError st msg).Field = st.ctx.FieldPath
        ∧ (st.ctx.ErrorBag.tmpl = "" →
            reportedError st msg = ⟨st.ctx.FieldPath, ⟨st.nextErr, msg⟩⟩)
        ∧ (recordedState st msg).ctx.skip = st.ctx.skip
        ∧ (recordedState st msg).ctx.Value = st.ctx.Value
        ∧ (abortedState st msg).ctx.skip = true
        ∧ (abortedState st msg).ctx.Value = st.ctx.Value) := by
  refine ⟨?_, ?_, ?_, ?_, ?_⟩
  · intro x msg hv hf
    have hrule : stringCheckRule f st = recordedState st msg := by
      simp only [stringCheckRule, hv, hf]
      exact addError_NewError st msg
    refine ⟨hrule, fun hskip => ?_⟩
    rw [runRules_cons_noskip _ _ _ (by rw [hrule]; exact hskip), hrule]
  · intro x msg hv hg
    have hrule : numberCheckRule g st = recordedState st msg := by
      simp only [numberCheckRule, hv, hg]
      exact addError_NewError st msg
    refine ⟨hrule, fun hskip => ?_⟩
    rw [numberRunRules_cons_noskip _ _ _ (by rw [hrule]; exact hskip), hrule]
  · intro hk
    unfold stringCheckRule
    cases hv : st.ctx.Value <;> simp_all [Value.kind] <;>
      exact abortWith_NewError st ErrorMessageTypeString
  · intro hk
    unfold numberCheckRule
    cases hv : st.ctx.Value <;> simp_all [Value.kind] <;>
      exact abortWith_NewError st ErrorMessageTypeNumber
  · intro msg
    exact ⟨rfl, mapInsert_fresh st msg, reportedError_Field st msg,
      reportedError_plain st msg, rfl, rfl, rfl, rfl⟩

/-- Witness of C22: `String().Min(5).Max(2)` on the string `abc` at the path
`name` leaves two entries in the bag, one per check, and `skip` clear; a check
on the number 5 in a string schema aborts. -/
theorem check_is_not_fatal_witness :
    ((StringSchema.Validate ((jioString.Min 5).Max 2) (sampleState (.str "abc"))).2.ctx.ErrorBag.m
        = [⟨"name", ⟨0, "must have at least 5 characters"⟩⟩,
           ⟨"name", ⟨1, "must have at least 2 characters"⟩⟩]
      ∧ (StringSchema.Validate ((jioString.Min 5).Max 2)
          (sampleState (.str "abc"))).2.ctx.skip = false)
    ∧ stringCheckRule (fun _ => some "never") (sampleState (.float 5))
        = abortedState (sampleState (.float 5)) ErrorMessageTypeString
    ∧ stringCheckRule (fun _ => some "short") (sampleState (.str "abc"))
        = recordedState (sampleState (.str "abc")) "short" :=
  ⟨⟨by decide, by decide⟩,
   (check_is_not_fatal (fun _ => some "never") (fun _ => none) [] (sampleState (.float 5))).2.2.1
      (by decide),
   ((check_is_not_fatal (fun _ => some "short") (fun _ => none) []
      (sampleState (.str "abc"))).1 "abc" "short" rfl rfl).1⟩

/-! ## Position of the absence rule -/

theorem buildString_transforms (s : StringSchema) (post : List Rule) :
    (buildString s (post.map BuilderCall.transform)).rules = s.rules ++ post
    ∧ (buildString s (post.map BuilderCall.transform)).required = s.required := by
  induction post generalizing s with
  | nil => simp [buildString]
  | cons f rest ih =>
    obtain ⟨h1, h2⟩ := ih (s.Transform f)
    simp only [buildString, List.map_cons, List.foldl_cons] at h1 h2 ⊢
    rw [show BuilderCall.apply s (BuilderCall.transform f) = s.Transform f from rfl, h1, h2]
    simp [StringSchema.Transform]

theorem absence_apply (s : StringSchema) (a : AbsenceOp) :
    (BuilderCall.apply s (.absence a)).rules = a.rule :: s.rules
    ∧ (BuilderCall.apply s (.absence a)).required ≠ none := by
  cases a <;>
    simp [BuilderCall.apply, StringSchema.Required, StringSchema.Optional, StringSchema.Default,
      StringSchema.PrependTransform, AbsenceOp.rule]

/-- C23, counterexample: on `String().Required().PrependTransform(f)`, where `f`
sets the value to the string `changed`, validating `nil` runs `f` first: the
value is `changed` and no Required error is recorded. -/
theorem prepend_after_required_runs_first :
    (StringSchema.Validate
        (buildString jioString [.absence .required, .prependTransform markRule])
        (freshState .null)).2.ctx.Value = .str "changed"
    ∧ (StringSchema.Validate
        (buildString jioString [.absence .required, .prependTransform markRule])
        (freshState .null)).2.ctx.ErrorBag.m = []
    ∧ (StringSchema.Validate (buildString jioString [.absence .required])
        (freshState .null)).2.ctx.ErrorBag.m = [⟨"", ⟨0, "is required"⟩⟩] := by
  refine ⟨by decide, by decide, by decide⟩

theorem buildNumber_transforms (s : NumberSchema) (post : List Rule) :
    (buildNumber s (post.map SchemaCall.transform)).rules = s.rules ++ post
    ∧ (buildNumber s (post.map SchemaCall.transform)).required = s.required := by
  induction post generalizing s with
  | nil => simp [buildNumber]
  | cons f rest ih =>
    obtain ⟨h1, h2⟩ := ih (s.Transform f)
    simp only [buildNumber, List.map_cons, List.foldl_cons] at h1 h2 ⊢
    rw [show SchemaCall.applyNumber s (SchemaCall.transform f) = s.Transform f from rfl, h1, h2]
    simp [NumberSchema.Transform]

theorem buildArray_transforms (s : ArraySchema) (post : List Rule) :
    (buildArray s (post.map SchemaCall.transform)).rules = s.rules ++ post
    ∧ (buildArray s (post.map SchemaCall.transform)).required = s.required := by
  induction post generalizing s with
  | nil => simp [buildArray]
  | cons f rest ih =>
    obtain ⟨h1, h2⟩ := ih (s.Transform f)
    simp only [buildArray, List.map_cons, List.foldl_cons] at h1 h2 ⊢
    rw [show SchemaCall.applyArray s (SchemaCall.transform f) = s.Transform f from rfl, h1, h2]
    simp [ArraySchema.Transform]

theorem buildObject_transforms (s : ObjectSchema) (post : List Rule) :
    (buildObject s (post.map SchemaCall.transform)).rules = s.rules ++ post
    ∧ (buildObject s (post.map SchemaCall.transform)).required = s.required := by
  induction post generalizing s with
  | nil => simp [buildObject]
  | cons f rest ih =>
    obtain ⟨h1, h2⟩ := ih (s.Transform f)
    simp only [buildObject, List.map_cons, List.foldl_cons] at h1 h2 ⊢
    rw [show SchemaCall.applyObject s (SchemaCall.transform f) = s.Transform f from rfl, h1, h2]
    simp [ObjectSchema.Transform]

theorem applyNumber_absence (s : NumberSchema) (a : AbsenceCall Float64) :
    (SchemaCall.applyNumber s (.absence a)).rules = a.rule Value.float :: s.rules
    ∧ (SchemaCall.applyNumber s (.absence a)).required ≠ none := by
  cases a <;>
    simp [SchemaCall.applyNumber, NumberSchema.Required, NumberSchema.Optional,
      NumberSchema.Default, NumberSchema.PrependTransform, AbsenceCall.rule]

theorem applyArray_absence (s : ArraySchema) (a : AbsenceCall Value) :
    (SchemaCall.applyArray s (.absence a)).rules = a.rule id :: s.rules
    ∧ (SchemaCall.applyArray s (.absence a)).required ≠ none := by
  cases a <;>
    simp [SchemaCall.applyArray, ArraySchema.Required, ArraySchema.Optional,
      ArraySchema.Default, ArraySchema.PrependTransform, AbsenceCall.rule]

theorem applyObject_absence (s : ObjectSchema) (a : AbsenceCall Addr) :
    (SchemaCall.applyObject s (.absence a)).rules = a.rule Value.map :: s.rules
    ∧ (SchemaCall.applyObject s (.absence a)).required ≠ none := by
  cases a <;>
    simp [SchemaCall.applyObject, ObjectSchema.Required, ObjectSchema.Optional,
      ObjectSchema.Default, ObjectSchema.PrependTransform, AbsenceCall.rule]

theorem buildString_absence_last (s0 : StringSchema) (pre : List BuilderCall) (a : AbsenceOp)
    (post : List Rule) :
    (buildString s0 (pre ++ BuilderCall.absence a :: post.map BuilderCall.transform)).rules
        = a.rule :: ((buildString s0 pre).rules ++ post)
    ∧ (buildString s0 (pre ++ BuilderCall.absence a :: post.map BuilderCall.transform)).required
        ≠ none := by
  have hsplit : buildString s0 (pre ++ BuilderCall.absence a :: post.map BuilderCall.transform)
      = buildString (BuilderCall.apply (buildString s0 pre) (.absence a))
          (post.map BuilderCall.transform) := by
    simp [buildString, List.foldl_append]
  obtain ⟨h1, h2⟩ := buildString_transforms
    (BuilderCall.apply (buildString s0 pre) (.absence a)) post
  obtain ⟨h3, h4⟩ := absence_apply (buildString s0 pre) a
  refine ⟨?_, ?_⟩
  · rw [hsplit, h1, h3]; rfl
  · rw [hsplit, h2]; exact h4

theorem buildNumber_absence_last (s0 : NumberSchema) (pre : List (SchemaCall Float64))
    (a : AbsenceCall Float64) (post : List Rule) :
    (buildNumber s0 (pre ++ SchemaCall.absence a :: post.map SchemaCall.transform)).rules
        = a.rule Value.float :: ((buildNumber s0 pre).rules ++ post)
    ∧ (buildNumber s0 (pre ++ SchemaCall.absence a :: post.map SchemaCall.transform)).required
        ≠ none := by
  have hsplit : buildNumber s0 (pre ++ SchemaCall.absence a :: post.map SchemaCall.transform)
      = buildNumber (SchemaCall.applyNumber (buildNumber s0 pre) (.absence a))
          (post.map SchemaCall.transform) := by
    simp [buildNumber, List.foldl_append]
  obtain ⟨h1, h2⟩ := buildNumber_transforms
    (SchemaCall.applyNumber (buildNumber s0 pre) (.absence a)) post
  obtain ⟨h3, h4⟩ := applyNumber_absence (buildNumber s0 pre) a
  refine ⟨?_, ?_⟩
  · rw [hsplit, h1, h3]; rfl
  · rw [hsplit, h2]; exact h4

theorem buildArray_absence_last (s0 : ArraySchema) (pre : List (SchemaCall Value))
    (a : AbsenceCall Value) (post : List Rule) :
    (buildArray s0 (pre ++ SchemaCall.absence a :: post.map SchemaCall.transform)).rules
        = a.rule id :: ((buildArray s0 pre).rules ++ post)
    ∧ (buildArray s0 (pre ++ SchemaCall.absence a :: post.map SchemaCall.transform)).required
        ≠ none := by
  have hsplit : buildArray s0 (pre ++ SchemaCall.absence a :: post.map SchemaCall.transform)
      = buildArray (SchemaCall.applyArray (buildArray s0 pre) (.absence a))
          (post.map SchemaCall.transform) := by
    simp [buildArray, List.foldl_append]
  obtain ⟨h1, h2⟩ := buildArray_transforms
    (SchemaCall.applyArray (buildArray s0 pre) (.absence a)) post
  obtain ⟨h3, h4⟩ := applyArray_absence (buildArray s0 pre) a
  refine ⟨?_, ?_⟩
  · rw [hsplit, h1, h3]; rfl
  · rw [hsplit, h2]; exact h4

theorem buildObject_absence_last (s0 : ObjectSchema) (pre : List (SchemaCall Addr))
    (a : AbsenceCall Addr) (post : List Rule) :
    (buildObject s0 (pre ++ SchemaCall.absence a :: post.map SchemaCall.transform)).rules
        = a.rule Value.map :: ((buildObject s0 pre).rules ++ post)
    ∧ (buildObject s0 (pre ++ SchemaCall.absence a :: post.map SchemaCall.transform)).required
        ≠ none := by
  have hsplit : buildObject s0 (pre ++ SchemaCall.absence a :: post.map SchemaCall.transform)
      = buildObject (SchemaCall.applyObject (buildObject s0 pre) (.absence a))
          (post.map SchemaCall.transform) := by
    simp [buildObject, List.foldl_append]
  obtain ⟨h1, h2⟩ := buildObject_transforms
    (SchemaCall.applyObject (buildObject s0 pre) (.absence a)) post
  obtain ⟨h3, h4⟩ := applyObject_absence (buildObject s0 pre) a
  refine ⟨?_, ?_⟩
  · rw [hsplit, h1, h3]; rfl
  · rw [hsplit, h2]; exact h4

theorem stringValidate_configured (s : StringSchema) (st : State) (hreq : s.required ≠ none)
    (hv : st.ctx.Value = .null ∨ st.ctx.Value.kind = Kind.String) :
    (s.Validate st).2 = runRules s.rules st := by
  unfold StringSchema.Validate
  cases hval : st.ctx.Value <;> simp_all [Value.kind]

theorem numberValidate_configured (s : NumberSchema) (st : State) (hreq : s.required ≠ none) :
    (s.Validate st).2
      = NumberSchema.runRules s.rules
          (match st.ctx.Value with
            | .int ctxValue =>
              { st with ctx := { st.ctx with Value := .float (float64OfInt ctxValue) } }
            | _ => st) := by
  unfold NumberSchema.Validate
  cases hval : st.ctx.Value <;> simp [hreq]

theorem arrayValidate_configured (s : ArraySchema) (st : State) (hreq : s.required ≠ none)
    (hv : st.ctx.Value = .null ∨ st.ctx.Value.kind = Kind.Slice) :
    (s.Validate st).2 = runRules s.rules st := by
  unfold ArraySchema.Validate
  cases hval : st.ctx.Value <;> simp_all [Value.kind, Context.AssertKind]

theorem objectValidate_configured (s : ObjectSchema) (st : State) (hreq : s.required ≠ none)
    (hv : st.ctx.Value = .null ∨ st.ctx.Value.kind = Kind.Map) :
    (s.Validate st).2 = runRules s.rules st := by
  unfold ObjectSchema.Validate
  cases hval : st.ctx.Value <;> simp_all [Value.kind]

/-- C23 as amended: for a schema of any of the four variants built by any chain
of builder calls in which the last call of `Required()`, `Optional()` or
`Default()` is followed by appending calls only (no `PrependTransform`), the
rule list starts with the rule of that last absence call, the tri-state is set
(so `Validate` prepends nothing), and `Validate` runs that rule first: it
returns what the rule leaves when the rule sets `skip`, and otherwise goes on
with the other rules from there.  For the string, array and object schemas
this is on `nil` or a value of the native kind (any other value is rejected
before the rules); the number schema runs its rules on every value, an `int`
being converted first. -/
theorem absence_rule_first :
    (∀ (s0 : StringSchema) (pre : List BuilderCall) (a : AbsenceOp) (post : List Rule),
      ∃ rest,
        (buildString s0 (pre ++ BuilderCall.absence a :: post.map BuilderCall.transform)).rules
            = a.rule :: rest
        ∧ (buildString s0
            (pre ++ BuilderCall.absence a :: post.map BuilderCall.transform)).required ≠ none
        ∧ ∀ st : State, st.ctx.Value = .null ∨ st.ctx.Value.kind = Kind.String →
            (StringSchema.Validate
                (buildString s0 (pre ++ BuilderCall.absence a :: post.map BuilderCall.transform))
                st).2
              = if (a.rule st).ctx.skip then a.rule st else runRules rest (a.rule st))
    ∧ (∀ (n0 : NumberSchema) (pre : List (SchemaCall Float64)) (a : AbsenceCall Float64)
        (post : List Rule),
      ∃ rest,
        (buildNumber n0 (pre ++ SchemaCall.absence a :: post.map SchemaCall.transform)).rules
            = a.rule Value.float :: rest
        ∧ (buildNumber n0
            (pre ++ SchemaCall.absence a :: post.map SchemaCall.transform)).required ≠ none
        ∧ ∀ st st1 : State,
            st1 = (match st.ctx.Value with
              | .int ctxValue =>
                { st with ctx := { st.ctx with Value := .float (float64OfInt ctxValue) } }
              | _ => st) →
            (NumberSchema.Validate
                (buildNumber n0 (pre ++ SchemaCall.absence a :: post.map SchemaCall.transform))
                st).2
              = if (a.rule Value.float st1).ctx.skip then a.rule Value.float st1
                else NumberSchema.runRules rest (a.rule Value.float st1))
    ∧ (∀ (a0 : ArraySchema) (pre : List (SchemaCall Value)) (a : AbsenceCall Value)
        (post : List Rule),
      ∃ rest,
        (buildArray a0 (pre ++ SchemaCall.absence a :: post.map SchemaCall.transform)).rules
            = a.rule id :: rest
        ∧ (buildArray a0
            (pre ++ SchemaCall.absence a :: post.map SchemaCall.transform)).required ≠ none
        ∧ ∀ st : State, st.ctx.Value = .null ∨ st.ctx.Value.kind = Kind.Slice →
            (ArraySchema.Validate
                (buildArray a0 (pre ++ SchemaCall.absence a :: post.map SchemaCall.transform))
                st).2
              = if (a.rule id st).ctx.skip then a.rule id st else runRules rest (a.rule id st))
    ∧ (∀ (o0 : ObjectSchema) (pre : List (SchemaCall Addr)) (a : AbsenceCall Addr)
        (post : List Rule),
      ∃ rest,
        (buildObject o0 (pre ++ SchemaCall.absence a :: post.map SchemaCall.transform)).rules
            = a.rule Value.map :: rest
        ∧ (buildObject o0
            (pre ++ SchemaCall.absence a :: post.map SchemaCall.transform)).required ≠ none
        ∧ ∀ st : State, st.ctx.Value = .null ∨ st.ctx.Value.kind = Kind.Map →
            (ObjectSchema.Validate
                (buildObject o0 (pre ++ SchemaCall.absence a :: post.map SchemaCall.transform))
                st).2
              = if (a.rule Value.map st).ctx.skip then a.rule Value.map st
                else runRules rest (a.rule Value.map st)) := by
  refine ⟨?_, ?_, ?_, ?_⟩
  · intro s0 pre a post
    obtain ⟨h1, h2⟩ := buildString_absence_last s0 pre a post
    refine ⟨_, h1, h2, ?_⟩
    intro st hv
    rw [stringValidate_configured _ st h2 hv, h1]
    rfl
  · intro n0 pre a post
    obtain ⟨h1, h2⟩ := buildNumber_absence_last n0 pre a post
    refine ⟨_, h1, h2, ?_⟩
    intro st st1 hst1
    rw [numberValidate_configured _ st h2, h1, ← hst1]
    rfl
  · intro a0 pre a post
    obtain ⟨h1, h2⟩ := buildArray_absence_last a0 pre a post
    refine ⟨_, h1, h2, ?_⟩
    intro st hv
    rw [arrayValidate_configured _ st h2 hv, h1]
    rfl
  · intro o0 pre a post
    obtain ⟨h1, h2⟩ := buildObject_absence_last o0 pre a post
    refine ⟨_, h1, h2, ?_⟩
    intro st hv
    rw [objectValidate_configured _ st h2 hv, h1]
    rfl

/-- Witness of C23 as amended: in `Number().Transform(f).Required().Transform(f)`
and in `Object().Transform(f).Default(m).Transform(f)` the rule of the absence
call is the first rule; validating `nil` through the former stops there with
the one error `is required`. -/
theorem absence_rule_first_witness :
    (∃ rest,
      (buildNumber jioNumber
          ([SchemaCall.transform markRule] ++ SchemaCall.absence .required
            :: [markRule].map SchemaCall.transform)).rules
        = requiredRule :: rest)
    ∧ (∃ rest,
      (buildObject Object
          ([SchemaCall.transform markRule] ++ SchemaCall.absence (.default 0)
            :: [markRule].map SchemaCall.transform)).rules
        = defaultRule (.map 0) :: rest)
    ∧ (NumberSchema.Validate
        (buildNumber jioNumber
          ([SchemaCall.transform markRule] ++ SchemaCall.absence .required
            :: [markRule].map SchemaCall.transform))
        (freshState .null)).2.ctx.ErrorBag.m = [⟨"", ⟨0, "is required"⟩⟩] :=
  ⟨by
    obtain ⟨rest, h1, _, _⟩ := absence_rule_first.2.1 jioNumber
      [SchemaCall.transform markRule] .required [markRule]
    exact ⟨rest, h1⟩,
   by
    obtain ⟨rest, h1, _, _⟩ := absence_rule_first.2.2.2 Object
      [SchemaCall.transform markRule] (.default 0) [markRule]
    exact ⟨rest, h1⟩,
   by decide⟩

/-! ## Several absence calls -/

theorem absenceLike_present (rule : Rule) (st : State)
    (hrule : rule = requiredRule ∨ rule = optionalRule ∨ ∃ w, rule = defaultRule w)
    (hpresent : st.ctx.Value ≠ .null) :
    rule st = st := by
  rcases hrule with h | h | ⟨w, h⟩
  · exact absenceRule_present rule st (Or.inl h) hpresent
  · exact absenceRule_present rule st (Or.inr h) hpresent
  · subst h
    unfold defaultRule
    split
    · rename_i hv; exact absurd hv hpresent
    · rfl

theorem runRules_absenceLike (earlier rest : List Rule) (st : State)
    (hearlier : ∀ r ∈ earlier, r = requiredRule ∨ r = optionalRule ∨ ∃ w, r = defaultRule w)
    (hpresent : st.ctx.Value ≠ .null) (hskip : st.ctx.skip = false) :
    runRules (earlier ++ rest) st = runRules rest st := by
  induction earlier with
  | nil => rfl
  | cons r tail ih =>
    have hr := absenceLike_present r st (hearlier r (List.mem_cons_self _ _)) hpresent
    rw [List.cons_append, runRules_cons_noskip _ _ _ (by rw [hr]; exact hskip), hr]
    exact ih (fun x hx => hearlier x (List.mem_cons_of_mem _ hx))

theorem numberRunRules_absenceLike (earlier rest : List Rule) (st : State)
    (hearlier : ∀ r ∈ earlier, r = requiredRule ∨ r = optionalRule ∨ ∃ w, r = defaultRule w)
    (hpresent : st.ctx.Value ≠ .null) (hskip : st.ctx.skip = false) :
    NumberSchema.runRules (earlier ++ rest) st = NumberSchema.runRules rest st := by
  induction earlier with
  | nil => rfl
  | cons r tail ih =>
    have hr := absenceLike_present r st (hearlier r (List.mem_cons_self _ _)) hpresent
    rw [List.cons_append, numberRunRules_cons_noskip _ _ _ (by rw [hr]; exact hskip), hr]
    exact ih (fun x hx => hearlier x (List.mem_cons_of_mem _ hx))

theorem validate_null_rules (p : Int) (b : Bool) (rules : List Rule) (st : State)
    (hnull : st.ctx.Value = .null) :
    (StringSchema.Validate ⟨p, some b, rules⟩ st).2 = runRules rules st
    ∧ (NumberSchema.Validate ⟨p, some b, rules⟩ st).2 = NumberSchema.runRules rules st
    ∧ (ArraySchema.Validate ⟨p, some b, rules⟩ st).2 = runRules rules st
    ∧ (ObjectSchema.Validate ⟨p, some b, rules⟩ st).2 = runRules rules st := by
  refine ⟨?_, ?_, ?_, ?_⟩
  · simp [StringSchema.Validate, hnull]
  · simp [NumberSchema.Validate, hnull]
  · simp [ArraySchema.Validate, hnull]
  · simp [ObjectSchema.Validate, hnull]

/-- C24, counterexample: `Array().Required().Default(nil)` validating `nil`
records `is required`, while `Array().Default(nil)` alone records nothing: the
rule of `Default(nil)` leaves the value `nil` and the rule of the earlier
`Required()` then finds it absent. -/
theorem default_nil_keeps_required :
    (ArraySchema.Validate (jioArray.Required.Default .null) (freshState .null)).2.ctx.ErrorBag.m
        = [⟨"", ⟨0, "is required"⟩⟩]
    ∧ (ArraySchema.Validate (jioArray.Default .null) (freshState .null)).2.ctx.ErrorBag.m = []
    ∧ (ArraySchema.Validate (jioArray.Default .null) (freshState .null)).2.ctx.skip = false := by
  refine ⟨by decide, by decide, by decide⟩

/-- C24 as amended: for the four variants, a schema whose rule list is the rule
of the last absence call, then the rules of earlier absence calls, then other
rules, validating `nil`.  With `Required()` last the result is the state
`Abort(ErrorRequired(ctx))` leaves; with `Optional()` last it is the state
`Skip()` leaves; with `Default(v)` last, `v` not `nil` (and `skip` clear), it is
what the other rules make of the state with the value `v`.  None of the three
depends on the earlier absence calls. -/
theorem last_absence_call_decides (p : Int) (b : Bool) (earlier rest : List Rule) (v : Value)
    (st : State)
    (hearlier : ∀ r ∈ earlier, r = requiredRule ∨ r = optionalRule ∨ ∃ w, r = defaultRule w)
    (hnull : st.ctx.Value = .null) :
    ((StringSchema.Validate ⟨p, some b, requiredRule :: (earlier ++ rest)⟩ st).2
          = abortedState st ErrorMessageRequired
      ∧ (NumberSchema.Validate ⟨p, some b, requiredRule :: (earlier ++ rest)⟩ st).2
          = abortedState st ErrorMessageRequired
      ∧ (ArraySchema.Validate ⟨p, some b, requiredRule :: (earlier ++ rest)⟩ st).2
          = abortedState st ErrorMessageRequired
      ∧ (ObjectSchema.Validate ⟨p, some b, requiredRule :: (earlier ++ rest)⟩ st).2
          = abortedState st ErrorMessageRequired)
    ∧ ((StringSchema.Validate ⟨p, some b, optionalRule :: (earlier ++ rest)⟩ st).2
          = Context.Skip st
      ∧ (NumberSchema.Validate ⟨p, some b, optionalRule :: (earlier ++ rest)⟩ st).2
          = Context.Skip st
      ∧ (ArraySchema.Validate ⟨p, some b, optionalRule :: (earlier ++ rest)⟩ st).2
          = Context.Skip st
      ∧ (ObjectSchema.Validate ⟨p, some b, optionalRule :: (earlier ++ rest)⟩ st).2
          = Context.Skip st)
    ∧ (v ≠ .null → st.ctx.skip = false →
        (StringSchema.Validate ⟨p, some b, defaultRule v :: (earlier ++ rest)⟩ st).2
          = runRules rest { st with ctx := { st.ctx with Value := v } }
        ∧ (NumberSchema.Validate ⟨p, some b, defaultRule v :: (earlier ++ rest)⟩ st).2
          = NumberSchema.runRules rest { st with ctx := { st.ctx with Value := v } }
        ∧ (ArraySchema.Validate ⟨p, some b, defaultRule v :: (earlier ++ rest)⟩ st).2
          = runRules rest { st with ctx := { st.ctx with Value := v } }
        ∧ (ObjectSchema.Validate ⟨p, some b, defaultRule v :: (earlier ++ rest)⟩ st).2
          = runRules rest { st with ctx := { st.ctx with Value := v } }) := by
  have hreq := requiredRule_null st hnull
  have hreqs : (requiredRule st).ctx.skip = true := by rw [hreq]; rfl
  have hopt := optionalRule_null st hnull
  have hopts : (optionalRule st).ctx.skip = true := by rw [hopt]; rfl
  refine ⟨?_, ?_, ?_⟩
  · obtain ⟨h1, h2, h3, h4⟩ := validate_null_rules p b (requiredRule :: (earlier ++ rest)) st hnull
    rw [h1, h2, h3, h4, runRules_cons_skip _ _ _ hreqs, numberRunRules_cons_skip _ _ _ hreqs, hreq]
    exact ⟨rfl, rfl, rfl, rfl⟩
  · obtain ⟨h1, h2, h3, h4⟩ := validate_null_rules p b (optionalRule :: (earlier ++ rest)) st hnull
    rw [h1, h2, h3, h4, runRules_cons_skip _ _ _ hopts, numberRunRules_cons_skip _ _ _ hopts, hopt]
    exact ⟨rfl, rfl, rfl, rfl⟩
  · intro hv hskip
    have hdef : defaultRule v st = { st with ctx := { st.ctx with Value := v } } := by
      unfold defaultRule
      rw [hnull]
    have hskip2 : (defaultRule v st).ctx.skip = false := by rw [hdef]; exact hskip
    obtain ⟨h1, h2, h3, h4⟩ := validate_null_rules p b (defaultRule v :: (earlier ++ rest)) st hnull
    have ha := runRules_absenceLike earlier rest
      { st with ctx := { st.ctx with Value := v } } hearlier hv hskip
    have hb := numberRunRules_absenceLike earlier rest
      { st with ctx := { st.ctx with Value := v } } hearlier hv hskip
    rw [h1, h2, h3, h4, runRules_cons_noskip _ _ _ hskip2,
      numberRunRules_cons_noskip _ _ _ hskip2, hdef]
    exact ⟨ha, hb, ha, ha⟩

/-- Witness of C24 as amended: `String().Required().Optional().Default("d")`
followed by `Set`-like rule `f` validates `nil` to the value `changed` (the rule
ran on the default) with an empty bag; `String().Optional().Required()`
validates `nil` to the one error `is required`. -/
theorem last_absence_call_decides_witness :
    (freshState .null).ctx.Value = .null
    ∧ (StringSchema.Validate
        ⟨0, some false, defaultRule (.str "d") :: ([optionalRule, requiredRule] ++ [markRule])⟩
        (freshState .null)).2
        = runRules [markRule]
            { freshState .null with ctx := { (freshState .null).ctx with Value := .str "d" } }
    ∧ (StringSchema.Validate ⟨0, some true, requiredRule :: ([optionalRule] ++ [])⟩
        (freshState .null)).2 = abortedState (freshState .null) ErrorMessageRequired :=
  ⟨rfl,
   ((last_absence_call_decides 0 false [optionalRule, requiredRule] [markRule] (.str "d")
      (freshState .null) (by simp) rfl).2.2 (by decide) rfl).1,
   (last_absence_call_decides 0 true [optionalRule] [] .null (freshState .null)
      (by simp) rfl).1.1⟩

/-! ## Panics of `When` -/

/-- C25, the code at the failing input: in the context of a top-level
validation of the map `{"type": "a", ...}` the path is empty, the reference
`type` resolves, and `whenEqual` panics, whatever the then-schema.  It does so
for every resolver and every state with an empty path in which the reference
resolves. -/
theorem when_panics_on_empty_path (formatFloat : Float64 → String) (thenSchema : Schema) :
    whenTopState.ctx.fields = []
    ∧ refKey whenTopState "type" = some (.str "a")
    ∧ whenEqual refKey formatFloat "type" thenSchema whenTopState = none
    ∧ ∀ (ref : State → String → Option Value) (refPath : String) (st : State) (value : Value),
        st.ctx.fields = [] → ref st refPath = some value →
          whenEqual ref formatFloat refPath thenSchema st = none := by
  refine ⟨rfl, rfl, rfl, ?_⟩
  intro ref refPath st value hfields href
  unfold whenEqual
  simp only [href, hfields, List.getLast?_nil]
  split <;> rfl

/-! ## The message of `StringSchema.Max` -/

/-- C26, the code at the failing input: `String().Max(2)` on the string `abc`
at the path `name` reports `must have at least 2 characters`, the message of
`ErrorMessageStringLengthMin`, and not `cannot have more than 2 characters`,
the message of `ErrorMessageStringLengthMax`; on a string of at most 2 bytes
it reports nothing. -/
theorem string_max_reports_min_message :
    (StringSchema.Validate (jioString.Max 2) (sampleState (.str "abc"))).2.ctx.ErrorBag.m
        = [⟨"name", ⟨0, "must have at least 2 characters"⟩⟩]
    ∧ ErrorMessageStringLengthMin 2 = "must have at least 2 characters"
    ∧ ErrorMessageStringLengthMax 2 = "cannot have more than 2 characters"
    ∧ (StringSchema.Validate (jioString.Max 2) (sampleState (.str "ab"))).2.ctx.ErrorBag.m
        = [] := by
  refine ⟨by decide, by decide, by decide, by decide⟩

/-! ## The skip flag after `Keys` -/

theorem keysStep_ctx (a : Addr) (fields : List String) (obj : objectItem) (st : State) :
    (keysStep a fields obj st).ctx = (obj.schema.validate (keysPrepare a fields obj st)).ctx := by
  unfold keysStep keysWriteBack
  split <;> rfl

/-- C27: the rule of `Keys` on a map at address `a`, for any key map and any
sub-schemas.  The `skip` flag after the rule is the one the loop left, which
is the one the validation of the last entry of `K.sort` left; with no declared
key the rule leaves the state as it was.  When `skip` is set after the rule,
the loop of `Validate` returns there: the rules after `Keys` have no part in
the result, also for an object schema whose rules before `Keys` are absence
rules. -/
theorem keys_leaves_last_skip (children : K) (a : Addr) (st : State) (p : Int) (b : Bool)
    (before after : List Rule) (hv : st.ctx.Value = .map a) :
    (keysRule children st).ctx.skip = (keysLoop a st.ctx.fields children.sort st).ctx.skip
    ∧ (∀ (l : List objectItem) (last : objectItem), children.sort = l ++ [last] →
        (keysRule children st).ctx.skip
          = (last.schema.validate
              (keysPrepare a st.ctx.fields last (keysLoop a st.ctx.fields l st))).ctx.skip)
    ∧ (keysRule [] st = st)
    ∧ ((keysRule children st).ctx.skip = true →
        runRules (keysRule children :: after) st = keysRule children st)
    ∧ ((keysRule children st).ctx.skip = true → st.ctx.skip = false →
        (∀ r ∈ before, r = requiredRule ∨ r = optionalRule ∨ ∃ w, r = defaultRule w) →
        (ObjectSchema.Validate ⟨p, some b, before ++ keysRule children :: after⟩ st).2
          = keysRule children st)
    ∧ ((keysRule children st).ctx.skip = false →
        runRules (keysRule children :: after) st = runRules after (keysRule children st)) := by
  have hrule := keysRule_map children st a hv
  have hpresent : st.ctx.Value ≠ .null := by rw [hv]; exact fun h => by cases h
  refine ⟨by rw [hrule], ?_, ?_, ?_, ?_, ?_⟩
  · intro l last hsplit
    rw [hrule, hsplit, keysLoop_append]
    show (keysStep a st.ctx.fields last (keysLoop a st.ctx.fields l st)).ctx.skip = _
    rw [keysStep_ctx]
  · have h := keysRule_map [] st a hv
    rw [h]
    show ({ st with ctx := { st.ctx with fields := st.ctx.fields, Value := .map a } } : State) = st
    rw [← hv]
  · intro hskip
    exact runRules_cons_skip _ _ _ hskip
  · intro hskip hskip0 hbefore
    have hgo : (ObjectSchema.Validate ⟨p, some b, before ++ keysRule children :: after⟩ st).2
        = runRules (before ++ keysRule children :: after) st := by
      simp [ObjectSchema.Validate, hv]
    rw [hgo, runRules_absenceLike before _ st hbefore hpresent hskip0]
    exact runRules_cons_skip _ _ _ hskip
  · intro hskip
    exact runRules_cons_noskip _ _ _ hskip

/-- Witness of C27: `Object().Keys(K{"a": String()}).With("b")` on the empty map:
the key `a` is absent and optional, its validation skips, `Validate` returns
with `skip` set and an empty bag, and `With("b")`, which alone reports the
missing key, is not executed. -/
theorem keys_leaves_last_skip_witness :
    emptyMapState.ctx.Value = .map 0
    ∧ (ObjectSchema.Validate
        ⟨0, some false, [optionalRule] ++ keysRule [("a", jioString.toSchema)] :: [withRule ["b"]]⟩
        emptyMapState).2 = keysRule [("a", jioString.toSchema)] emptyMapState
    ∧ (keysRule [("a", jioString.toSchema)] emptyMapState).ctx.skip = true
    ∧ (keysRule [("a", jioString.toSchema)] emptyMapState).ctx.ErrorBag.m = []
    ∧ (withRule ["b"] emptyMapState).ctx.ErrorBag.m
        = [⟨"", ⟨0, "is missing required keys [b]"⟩⟩] :=
  ⟨rfl,
   (keys_leaves_last_skip [("a", jioString.toSchema)] 0 emptyMapState 0 false [optionalRule]
      [withRule ["b"]] rfl).2.2.2.2.1 (by decide) rfl (by simp),
   by decide, by decide, by decide⟩

end Jio
